import Mathlib

/-!
# ghex: duplicate validator, account store and configuration documents

A shallow embedding of the account data model of `internal/config`, the
duplicate validator of `internal/account/validator.go`, the configuration
loader of `internal/config/config.go`, the platform registry of
`internal/account/platform.go`, and of the account manager operations, the
staleness check and the detection engine the command layer calls.

Go strings are Lean strings. `strings.EqualFold` belongs to the Go standard
library: every definition that calls it takes the comparison as its first
argument `EqualFold`, so the theorems hold for whatever function is plugged in,
the library one included. `EqualFoldASCII` is the instance used on concrete
inputs; on strings of ASCII characters it computes what the library computes.

`strings.ToLower` maps every rune of a string by `unicode.ToLower`, whose table
covers all of Unicode (U+212A, the Kelvin sign, goes to `k`). The rune map is
the argument `lower` of every definition that lower-cases, so the theorems hold
for the library map. `Char.toLower`, which maps `A`-`Z` to `a`-`z` and keeps
every other character, is the instance used on concrete inputs, all of them
ASCII.
-/

namespace Ghex

/-! ## Standard-library string functions -/

/-- The function `strings.ToLower`: every rune is mapped by `unicode.ToLower`,
the argument `lower`. -/
def ToLower (lower : Char → Char) (s : String) : String :=
  String.mk (s.data.map lower)

/-- What the theorems use of `unicode.ToLower` on the ASCII range, where it
maps `A`-`Z` to `a`-`z` and keeps every other character. -/
def LowersASCII (lower : Char → Char) : Prop :=
  ∀ c : Char, c.toNat < 128 → lower c = c.toLower

/-- The function `strings.ReplaceAll` for a one-character pattern and a
one-character replacement: every occurrence of `old` becomes `new`. -/
def ReplaceAllChar (s : String) (old new : Char) : String :=
  String.mk (s.data.map (fun c => if c = old then new else c))

/-- The function `strings.EqualFold` on ASCII strings: equality of the two
strings once the letters `A`-`Z` are folded onto `a`-`z`. -/
def EqualFoldASCII (s t : String) : Bool :=
  decide (s.data.map Char.toLower = t.data.map Char.toLower)

/-! ## Data model (`internal/config`) -/

/-- SSH credentials of an account: the fields `Clone` and `Equals` read. -/
structure SshConfig where
  KeyPath : String
  HostAlias : String
deriving DecidableEq

/-- Token credentials of an account. -/
structure TokenConfig where
  Username : String
  Token : String
deriving DecidableEq

/-- Platform of an account. The Go field is called `Type`. -/
structure PlatformConfig where
  Type_ : String
  Domain : String
  ApiUrl : String
deriving DecidableEq

/-- One configured identity. The three Go pointers `*SshConfig`,
`*TokenConfig`, `*PlatformConfig` are options: `none` is the nil pointer. -/
structure Account where
  Name : String
  GitUserName : String
  GitEmail : String
  SSH : Option SshConfig
  Token : Option TokenConfig
  Platform : Option PlatformConfig
deriving DecidableEq

/-! ## Duplicate validator (`internal/account/validator.go`) -/

/-- ValidationResult contains duplicate check results. -/
structure ValidationResult where
  IsValid : Bool
  Errors : List String
  Warnings : List String
deriving DecidableEq

/-- The platform type of an account or candidate, as the validator computes it
in `ValidateNew`, `CheckEmailDuplicate` and `CheckTokenDuplicate`:
`"github"`, replaced by `Platform.Type` when the platform is present and its
type is not empty. -/
def platformTypeOf (platform : Option PlatformConfig) : String :=
  match platform with
  | some p => if p.Type_ ≠ "" then p.Type_ else "github"
  | none => "github"

/-- CheckNameDuplicate: the loop over `v.accounts`, returning `true` at the
first account whose name is fold-equal to `name`. -/
def CheckNameDuplicate (EqualFold : String → String → Bool) :
    List Account → String → Bool
  | [], _ => false
  | acc :: rest, name =>
    if EqualFold acc.Name name then true
    else CheckNameDuplicate EqualFold rest name

/-- CheckEmailDuplicate: the loop over `v.accounts`; the result is the account
the returned pointer `&v.accounts[i]` points to, `none` for nil. -/
def CheckEmailDuplicate (EqualFold : String → String → Bool) :
    List Account → String → String → Option Account
  | [], _, _ => none
  | acc :: rest, email, platform =>
    if EqualFold acc.GitEmail email then
      if EqualFold (platformTypeOf acc.Platform) platform then some acc
      else CheckEmailDuplicate EqualFold rest email platform
    else CheckEmailDuplicate EqualFold rest email platform

/-- The function `normalizePath`: lower-case, then backslashes to slashes. -/
def normalizePath (lower : Char → Char) (path : String) : String :=
  ReplaceAllChar (ToLower lower path) '\\' '/'

/-- CheckSSHKeyDuplicate: the loop over `v.accounts` comparing normalized key
paths; accounts without SSH config or with an empty key path are skipped. -/
def CheckSSHKeyDuplicate (lower : Char → Char) : List Account → String → Option Account
  | [], _ => none
  | acc :: rest, keyPath =>
    match acc.SSH with
    | some sshCfg =>
      if sshCfg.KeyPath ≠ "" then
        if normalizePath lower sshCfg.KeyPath = normalizePath lower keyPath then some acc
        else CheckSSHKeyDuplicate lower rest keyPath
      else CheckSSHKeyDuplicate lower rest keyPath
    | none => CheckSSHKeyDuplicate lower rest keyPath

/-- CheckTokenDuplicate: the loop over `v.accounts`; an account is examined
only when its token config is present. -/
def CheckTokenDuplicate (EqualFold : String → String → Bool) :
    List Account → String → String → Option Account
  | [], _, _ => none
  | acc :: rest, username, platform =>
    match acc.Token with
    | some tok =>
      if EqualFold tok.Username username then
        if EqualFold (platformTypeOf acc.Platform) platform then some acc
        else CheckTokenDuplicate EqualFold rest username platform
      else CheckTokenDuplicate EqualFold rest username platform
    | none => CheckTokenDuplicate EqualFold rest username platform

/-- ValidateNew, step 1: the name check, the only step that writes `IsValid`
and `Errors`. -/
def validateName (EqualFold : String → String → Bool) (accounts : List Account)
    (account : Account) (result : ValidationResult) : ValidationResult :=
  if CheckNameDuplicate EqualFold accounts account.Name then
    { result with
      IsValid := false
      Errors := result.Errors ++
        ["Account name \x27" ++ account.Name ++ "\x27 already exists"] }
  else result

/-- ValidateNew, step 2: the email check on the candidate's platform. -/
def validateEmail (EqualFold : String → String → Bool) (accounts : List Account)
    (account : Account) (platformType : String) (result : ValidationResult) :
    ValidationResult :=
  if account.GitEmail ≠ "" then
    match CheckEmailDuplicate EqualFold accounts account.GitEmail platformType with
    | some conflictAcc =>
      { result with
        Warnings := result.Warnings ++
          ["Email \x27" ++ account.GitEmail ++ "\x27 is already used by account \x27"
            ++ conflictAcc.Name ++ "\x27 on " ++ platformType] }
    | none => result
  else result

/-- ValidateNew, step 3: the SSH key check. -/
def validateSSHKey (lower : Char → Char) (accounts : List Account) (account : Account)
    (result : ValidationResult) : ValidationResult :=
  match account.SSH with
  | some sshCfg =>
    if sshCfg.KeyPath ≠ "" then
      match CheckSSHKeyDuplicate lower accounts sshCfg.KeyPath with
      | some conflictAcc =>
        { result with
          Warnings := result.Warnings ++
            ["SSH key \x27" ++ sshCfg.KeyPath ++ "\x27 is already used by account \x27"
              ++ conflictAcc.Name ++ "\x27"] }
      | none => result
    else result
  | none => result

/-- ValidateNew, step 4: the token username check on the candidate's
platform. -/
def validateToken (EqualFold : String → String → Bool) (accounts : List Account)
    (account : Account) (platformType : String) (result : ValidationResult) :
    ValidationResult :=
  match account.Token with
  | some tok =>
    if tok.Username ≠ "" then
      match CheckTokenDuplicate EqualFold accounts tok.Username platformType with
      | some conflictAcc =>
        { result with
          Warnings := result.Warnings ++
            ["Token username \x27" ++ tok.Username
              ++ "\x27 is already used by account \x27"
              ++ conflictAcc.Name ++ "\x27 on " ++ platformType] }
      | none => result
    else result
  | none => result

/-- ValidateNew checks if a new account would create duplicates: the four
steps of the Go function in their order, each updating `result`. -/
def ValidateNew (EqualFold : String → String → Bool) (lower : Char → Char)
    (accounts : List Account) (account : Account) : ValidationResult :=
  let result : ValidationResult := { IsValid := true, Errors := [], Warnings := [] }
  let result := validateName EqualFold accounts account result
  let platformType := platformTypeOf account.Platform
  let result := validateEmail EqualFold accounts account platformType result
  let result := validateSSHKey lower accounts account result
  let result := validateToken EqualFold accounts account platformType result
  result

/-- The test `CheckSSHKeyDuplicate` applies to each stored account: an SSH
config is present, its key path is not empty, and the normalized paths are
equal. -/
def sshKeyMatches (lower : Char → Char) (keyPath : String) (acc : Account) : Bool :=
  match acc.SSH with
  | some sshCfg =>
    decide (sshCfg.KeyPath ≠ "")
      && decide (normalizePath lower sshCfg.KeyPath = normalizePath lower keyPath)
  | none => false

/-- The test `CheckTokenDuplicate` applies to each stored account: a token
config is present, its username and the platform type are fold-equal to the
arguments. -/
def tokenMatches (EqualFold : String → String → Bool) (username platform : String)
    (acc : Account) : Bool :=
  match acc.Token with
  | some tok =>
    EqualFold tok.Username username && EqualFold (platformTypeOf acc.Platform) platform
  | none => false

/-- Two characters that differ at most in letter case (they have one
lower-case form) or in separator style (both are a backslash or a slash). -/
def sameUpToCaseOrSeparator (lower : Char → Char) (c d : Char) : Prop :=
  lower c = lower d ∨ ((c = '\\' ∨ c = '/') ∧ (d = '\\' ∨ d = '/'))

/-! ## Account manager (`internal/account`, type `Manager`)

The file that declares `account.Manager` is not among the sources; its tests
(`account_test.go`) and its callers (`commands/account.go`) are. The operations
below follow section 4.1 of the specification. The manager works on the
`AppConfig` it holds; an operation on the accounts is a function of the
elements of `cfg.Accounts` and returns the error, if any, with the elements
after the call. -/

/-- Errors of the account manager, named after the error taxonomy of the
specification. -/
inductive ManagerError where
  | DuplicateNameError (name : String)
  | NotFoundError (name : String)
deriving DecidableEq

/-- Modelled from the spec: `Manager.Find` of the account manager, whose source
file is missing. "Returns the matching entry (case-insensitive) or not found;
read-only": the first entry in insertion order with a fold-equal name. -/
def AccountManager.Find (EqualFold : String → String → Bool) :
    List Account → String → Option Account
  | [], _ => none
  | acc :: rest, name =>
    if EqualFold acc.Name name then some acc
    else AccountManager.Find EqualFold rest name

/-- Modelled from the spec: `Manager.Add` of the account manager, whose source
file is missing. "Fails with DuplicateNameError if an existing account's name
matches case-insensitively; otherwise appends, preserving insertion order." -/
def AccountManager.Add (EqualFold : String → String → Bool) (accounts : List Account)
    (account : Account) : Option ManagerError × List Account :=
  if accounts.any (fun acc => EqualFold acc.Name account.Name) then
    (some (ManagerError.DuplicateNameError account.Name), accounts)
  else (none, accounts ++ [account])

/-- The account list without its first entry whose name is fold-equal to
`name`; `none` when no entry matches. -/
def removeFirstMatch (EqualFold : String → String → Bool) :
    List Account → String → Option (List Account)
  | [], _ => none
  | acc :: rest, name =>
    if EqualFold acc.Name name then some rest
    else
      match removeFirstMatch EqualFold rest name with
      | some rest' => some (acc :: rest')
      | none => none

/-- Modelled from the spec: `Manager.Remove` of the account manager, whose source
file is missing. "Fails with NotFoundError if no case-insensitive match exists;
otherwise deletes exactly one entry, preserving order of the rest." The spec
does not say which entry goes when several match; the model deletes the first
one in list order, the entry `Find` returns. -/
def AccountManager.Remove (EqualFold : String → String → Bool) (accounts : List Account)
    (name : String) : Option ManagerError × List Account :=
  match removeFirstMatch EqualFold accounts name with
  | some accounts' => (none, accounts')
  | none => (some (ManagerError.NotFoundError name), accounts)

/-- One entry of the activity log. Field names after `account_test.go`; the
timestamp is text in a sortable format. -/
structure ActivityLogEntry where
  Action : String
  AccountName : String
  Success : Bool
  Timestamp : String
deriving DecidableEq

/-- Modelled from the spec: `Manager.LogActivity` of the account manager, whose
source file is missing. "Appends a copy of entry with timestamp forcibly set to
now regardless of what the caller supplied; does not fail." The clock reading
is the argument `now`. -/
def AccountManager.LogActivity (log : List ActivityLogEntry) (entry : ActivityLogEntry)
    (now : String) : List ActivityLogEntry :=
  log ++ [{ entry with Timestamp := now }]

/-- Modelled from the spec: `Manager.GetRecentActivity` of the account manager,
whose source file is missing. "The most-recently-appended last `limit` entries,
in storage order; if `limit <= 0` or `limit` exceeds the log size, returns the
entire log unmodified." -/
def AccountManager.GetRecentActivity (log : List ActivityLogEntry) (limit : Int) :
    List ActivityLogEntry :=
  if limit ≤ 0 ∨ limit > (log.length : Int) then log
  else log.drop (log.length - limit.toNat)

/-- The log after a sequence of `LogActivity` calls, one per pair of an entry
and the clock reading at the time of its call. -/
def logAll (log : List ActivityLogEntry) (calls : List (ActivityLogEntry × String)) :
    List ActivityLogEntry :=
  calls.foldl (fun l call => AccountManager.LogActivity l call.1 call.2) log

/-! ## JSON documents (`encoding/json`)

A JSON text is represented by the document it denotes. `json.Unmarshal` into a
struct visits the members of an object in document order; an unknown key is
skipped, `null` leaves a string untouched and resets a pointer or a slice to
nil, and a value of the wrong kind is an error. A key is decoded into the field
of that name, or else into a field whose name equals it under case folding. An
array is decoded into the elements the slice already holds, so a key that
comes twice merges the elements of its second array into those of the first. -/

/-- A JSON document. -/
inductive JSON where
  | null
  | bool (b : Bool)
  | num (n : Int)
  | str (s : String)
  | arr (items : List JSON)
  | obj (members : List (String × JSON))

/-- Unmarshal into a Go `string`. -/
def unmarshalString (v : JSON) (old : String) : Except String String :=
  match v with
  | JSON.null => Except.ok old
  | JSON.str s => Except.ok s
  | _ => Except.error "json: cannot unmarshal into Go value of type string"

/-- Unmarshal into a Go `bool`. -/
def unmarshalBool (v : JSON) (old : Bool) : Except String Bool :=
  match v with
  | JSON.null => Except.ok old
  | JSON.bool b => Except.ok b
  | _ => Except.error "json: cannot unmarshal into Go value of type bool"

/-- Unmarshal into a Go `*bool`. -/
def unmarshalBoolPtr (v : JSON) : Except String (Option Bool) :=
  match v with
  | JSON.null => Except.ok none
  | JSON.bool b => Except.ok (some b)
  | _ => Except.error "json: cannot unmarshal into Go value of type bool"

/-- The field of a struct that `json.Unmarshal` decodes the member `key` of an
object into: the field whose name is the key, or else the first field, in
declaration order, whose name equals the key under case folding; `none` when
the member is skipped. `fields` are the names in the struct tags. -/
def fieldFor (EqualFold : String → String → Bool) (fields : List String) (key : String) :
    Option String :=
  match fields.find? (fun f => decide (f = key)) with
  | some f => some f
  | none => fields.find? (fun f => EqualFold f key)

/-- The members of an object, assigned one after the other to the struct `x`
by its per-key assignment `setField`. -/
def unmarshalMembers {α : Type} (setField : String → JSON → α → Except String α) :
    List (String × JSON) → α → Except String α
  | [], x => Except.ok x
  | (key, v) :: rest, x =>
    match setField key v x with
    | Except.ok x' => unmarshalMembers setField rest x'
    | Except.error e => Except.error e

/-- Unmarshal into a Go struct value. -/
def unmarshalStruct {α : Type} (setField : String → JSON → α → Except String α)
    (v : JSON) (old : α) : Except String α :=
  match v with
  | JSON.null => Except.ok old
  | JSON.obj members => unmarshalMembers setField members old
  | _ => Except.error "json: cannot unmarshal into Go value of struct type"

/-- Unmarshal into a pointer to a struct: `null` gives the nil pointer, an
object is decoded into the struct pointed to, allocated when the pointer is
nil. -/
def unmarshalStructPtr {α : Type} (zero : α)
    (setField : String → JSON → α → Except String α)
    (v : JSON) (old : Option α) : Except String (Option α) :=
  match v with
  | JSON.null => Except.ok none
  | JSON.obj members =>
    match unmarshalMembers setField members (old.getD zero) with
    | Except.ok x => Except.ok (some x)
    | Except.error e => Except.error e
  | _ => Except.error "json: cannot unmarshal into Go value of struct type"

/-- A Go slice of structs while `json.Unmarshal` decodes into it: its
elements, and the elements its backing array holds past its length, left
there by an earlier, longer array. -/
structure Slice (α : Type) where
  elems : List α
  spare : List α

/-- The elements of a JSON array, the one at index `i` decoded into the element
the backing array holds at index `i` (`v.Index(i)`), which is the zero value
where the backing array was never written. -/
def unmarshalElements {α : Type} (zero : α)
    (setField : String → JSON → α → Except String α) :
    List JSON → List α → Except String (List α)
  | [], _ => Except.ok []
  | item :: rest, backing =>
    match unmarshalStruct setField item (backing.headD zero) with
    | Except.ok x =>
      match unmarshalElements zero setField rest backing.tail with
      | Except.ok xs => Except.ok (x :: xs)
      | Except.error e => Except.error e
    | Except.error e => Except.error e

/-- Unmarshal into a slice of structs; `none` is the nil slice. `null` gives
the nil slice, an array without elements a new empty slice that is not nil,
and any other array the slice of its elements on the backing array of `old`:
the elements past its length stay in the backing array. -/
def unmarshalSlice {α : Type} (zero : α)
    (setField : String → JSON → α → Except String α)
    (v : JSON) (old : Option (Slice α)) : Except String (Option (Slice α)) :=
  match v with
  | JSON.null => Except.ok none
  | JSON.arr [] => Except.ok (some { elems := [], spare := [] })
  | JSON.arr items =>
    let backing :=
      match old with
      | some slice => slice.elems ++ slice.spare
      | none => []
    match unmarshalElements zero setField items backing with
    | Except.ok xs => Except.ok (some { elems := xs, spare := backing.drop items.length })
    | Except.error e => Except.error e
  | _ => Except.error "json: cannot unmarshal into Go value of slice type"

/-- A string member of a marshalled struct: left out when the field is tagged
`omitempty` and the string is empty. -/
def marshalString (omitempty : Bool) (key : String) (v : String) :
    List (String × JSON) :=
  if omitempty && v = "" then [] else [(key, JSON.str v)]

/-! ## Persisted schema (struct tags of `internal/config`) -/

/-- Modelled from the spec: the `omitempty` options of the string fields in the
struct tags of `Account` and its sub-objects. The file declaring the types is
not among the sources, and neither the specification nor the tests say which
string fields carry the option, so every choice is covered. -/
structure OmitEmpty where
  name : Bool
  gitUserName : Bool
  gitEmail : Bool
  keyPath : Bool
  hostAlias : Bool
  username : Bool
  token : Bool
  type_ : Bool
  domain : Bool
  apiUrl : Bool

/-- Modelled from the spec: the keys of `SshConfig` in the persisted document
(lower camel case, as in `config_test.go`). -/
def SshConfig.setField (EqualFold : String → String → Bool) (key : String) (v : JSON)
    (c : SshConfig) : Except String SshConfig :=
  let field := fieldFor EqualFold ["keyPath", "hostAlias"] key
  if field = some "keyPath" then
    (unmarshalString v c.KeyPath).map (fun s => { c with KeyPath := s })
  else if field = some "hostAlias" then
    (unmarshalString v c.HostAlias).map (fun s => { c with HostAlias := s })
  else Except.ok c

/-- Modelled from the spec: the keys of `TokenConfig` in the persisted
document. -/
def TokenConfig.setField (EqualFold : String → String → Bool) (key : String) (v : JSON)
    (c : TokenConfig) : Except String TokenConfig :=
  let field := fieldFor EqualFold ["username", "token"] key
  if field = some "username" then
    (unmarshalString v c.Username).map (fun s => { c with Username := s })
  else if field = some "token" then
    (unmarshalString v c.Token).map (fun s => { c with Token := s })
  else Except.ok c

/-- Modelled from the spec: the keys of `PlatformConfig` in the persisted
document. -/
def PlatformConfig.setField (EqualFold : String → String → Bool) (key : String) (v : JSON)
    (c : PlatformConfig) : Except String PlatformConfig :=
  let field := fieldFor EqualFold ["type", "domain", "apiUrl"] key
  if field = some "type" then
    (unmarshalString v c.Type_).map (fun s => { c with Type_ := s })
  else if field = some "domain" then
    (unmarshalString v c.Domain).map (fun s => { c with Domain := s })
  else if field = some "apiUrl" then
    (unmarshalString v c.ApiUrl).map (fun s => { c with ApiUrl := s })
  else Except.ok c

/-- Modelled from the spec: the keys of `Account` in the persisted document
(`name`, `gitUserName`, `gitEmail`, `ssh`, `token`, `platform`). -/
def Account.setField (EqualFold : String → String → Bool) (key : String) (v : JSON)
    (a : Account) : Except String Account :=
  let field := fieldFor EqualFold
    ["name", "gitUserName", "gitEmail", "ssh", "token", "platform"] key
  if field = some "name" then
    (unmarshalString v a.Name).map (fun s => { a with Name := s })
  else if field = some "gitUserName" then
    (unmarshalString v a.GitUserName).map (fun s => { a with GitUserName := s })
  else if field = some "gitEmail" then
    (unmarshalString v a.GitEmail).map (fun s => { a with GitEmail := s })
  else if field = some "ssh" then
    (unmarshalStructPtr (SshConfig.mk "" "") (SshConfig.setField EqualFold) v a.SSH).map
      (fun x => { a with SSH := x })
  else if field = some "token" then
    (unmarshalStructPtr (TokenConfig.mk "" "") (TokenConfig.setField EqualFold) v
      a.Token).map (fun x => { a with Token := x })
  else if field = some "platform" then
    (unmarshalStructPtr (PlatformConfig.mk "" "" "") (PlatformConfig.setField EqualFold) v
      a.Platform).map (fun x => { a with Platform := x })
  else Except.ok a

/-- The zero value of `Account`, what `var acc Account` declares. -/
def Account.zero : Account :=
  { Name := "", GitUserName := "", GitEmail := "", SSH := none, Token := none,
    Platform := none }

/-- Modelled from the spec: the members `json.MarshalIndent` writes for an
`SshConfig`. -/
def SshConfig.marshal (tags : OmitEmpty) (c : SshConfig) : JSON :=
  JSON.obj (marshalString tags.keyPath "keyPath" c.KeyPath
    ++ marshalString tags.hostAlias "hostAlias" c.HostAlias)

/-- Modelled from the spec: the members written for a `TokenConfig`. -/
def TokenConfig.marshal (tags : OmitEmpty) (c : TokenConfig) : JSON :=
  JSON.obj (marshalString tags.username "username" c.Username
    ++ marshalString tags.token "token" c.Token)

/-- Modelled from the spec: the members written for a `PlatformConfig`. -/
def PlatformConfig.marshal (tags : OmitEmpty) (c : PlatformConfig) : JSON :=
  JSON.obj (marshalString tags.type_ "type" c.Type_
    ++ marshalString tags.domain "domain" c.Domain
    ++ marshalString tags.apiUrl "apiUrl" c.ApiUrl)

/-- A pointer member of a marshalled struct: "absent optional sub-objects are
omitted entirely rather than null". -/
def marshalPtr {α : Type} (key : String) (marshal : α → JSON) (v : Option α) :
    List (String × JSON) :=
  match v with
  | some x => [(key, marshal x)]
  | none => []

/-- Modelled from the spec: the document `json.MarshalIndent` writes for an
`Account`, members in field order. -/
def Account.marshal (tags : OmitEmpty) (a : Account) : JSON :=
  JSON.obj (marshalString tags.name "name" a.Name
    ++ marshalString tags.gitUserName "gitUserName" a.GitUserName
    ++ marshalString tags.gitEmail "gitEmail" a.GitEmail
    ++ marshalPtr "ssh" (SshConfig.marshal tags) a.SSH
    ++ marshalPtr "token" (TokenConfig.marshal tags) a.Token
    ++ marshalPtr "platform" (PlatformConfig.marshal tags) a.Platform)

/-- ToJSON serializes an Account. Marshalling an `Account` cannot fail, so the
error of the Go pair is never set. -/
def Account.ToJSON (tags : OmitEmpty) (a : Account) : Except String JSON :=
  Except.ok (Account.marshal tags a)

/-- AccountFromJSON deserializes an Account: `json.Unmarshal` into a zero
`Account`. -/
def AccountFromJSON (EqualFold : String → String → Bool) (jsonStr : JSON) :
    Except String Account :=
  unmarshalStruct (Account.setField EqualFold) jsonStr Account.zero

/-- Equals checks if two accounts are equal; the receiver and the argument are
pointers, `none` is nil. -/
def Account.Equals (a other : Option Account) : Bool :=
  match a, other with
  | none, none => true
  | none, some _ => false
  | some _, none => false
  | some a, some other =>
    if a.Name ≠ other.Name ∨ a.GitUserName ≠ other.GitUserName
        ∨ a.GitEmail ≠ other.GitEmail then false
    else if a.SSH.isNone ≠ other.SSH.isNone then false
    else if (match a.SSH, other.SSH with
        | some x, some y => decide (x.KeyPath ≠ y.KeyPath ∨ x.HostAlias ≠ y.HostAlias)
        | _, _ => false) then false
    else if a.Token.isNone ≠ other.Token.isNone then false
    else if (match a.Token, other.Token with
        | some x, some y => decide (x.Username ≠ y.Username ∨ x.Token ≠ y.Token)
        | _, _ => false) then false
    else if a.Platform.isNone ≠ other.Platform.isNone then false
    else if (match a.Platform, other.Platform with
        | some x, some y =>
          decide (x.Type_ ≠ y.Type_ ∨ x.Domain ≠ y.Domain ∨ x.ApiUrl ≠ y.ApiUrl)
        | _, _ => false) then false
    else true

/-! ## Configuration document and loader (`internal/config/config.go`) -/

/-- Modelled from the spec: the cached health status of an account,
`{ accountName, sshKeyValid?, tokenValid?, lastChecked }`; the two validity
flags are optional booleans, the time of the check is kept as text. -/
structure HealthStatus where
  AccountName : String
  SSHKeyValid : Option Bool
  TokenValid : Option Bool
  LastChecked : String
deriving DecidableEq

/-- AppConfig, the persisted shape of the store. Each collection is a Go
slice: `none` is the nil slice. -/
structure AppConfig where
  Accounts : Option (List Account)
  ActivityLog : Option (List ActivityLogEntry)
  HealthChecks : Option (List HealthStatus)
deriving DecidableEq

/-- Modelled from the spec: `NewAppConfig`, declared with the types. It
initializes the three collections (`TestNewAppConfig`): an empty-but-valid
configuration. -/
def NewAppConfig : AppConfig :=
  { Accounts := some [], ActivityLog := some [], HealthChecks := some [] }

/-- Modelled from the spec: the keys of `ActivityLogEntry` in the persisted
document, `{ action, accountName, success, timestamp }`. -/
def ActivityLogEntry.setField (EqualFold : String → String → Bool) (key : String) (v : JSON)
    (e : ActivityLogEntry) : Except String ActivityLogEntry :=
  let field := fieldFor EqualFold ["action", "accountName", "success", "timestamp"] key
  if field = some "action" then
    (unmarshalString v e.Action).map (fun s => { e with Action := s })
  else if field = some "accountName" then
    (unmarshalString v e.AccountName).map (fun s => { e with AccountName := s })
  else if field = some "success" then
    (unmarshalBool v e.Success).map (fun b => { e with Success := b })
  else if field = some "timestamp" then
    (unmarshalString v e.Timestamp).map (fun s => { e with Timestamp := s })
  else Except.ok e

/-- Modelled from the spec: the keys of `HealthStatus` in the persisted
document. -/
def HealthStatus.setField (EqualFold : String → String → Bool) (key : String) (v : JSON)
    (h : HealthStatus) : Except String HealthStatus :=
  let field := fieldFor EqualFold
    ["accountName", "sshKeyValid", "tokenValid", "lastChecked"] key
  if field = some "accountName" then
    (unmarshalString v h.AccountName).map (fun s => { h with AccountName := s })
  else if field = some "sshKeyValid" then
    (unmarshalBoolPtr v).map (fun b => { h with SSHKeyValid := b })
  else if field = some "tokenValid" then
    (unmarshalBoolPtr v).map (fun b => { h with TokenValid := b })
  else if field = some "lastChecked" then
    (unmarshalString v h.LastChecked).map (fun s => { h with LastChecked := s })
  else Except.ok h

/-- The `AppConfig` that `json.Unmarshal` decodes into: each of the three
slices with what its backing array holds. -/
structure AppConfigTarget where
  Accounts : Option (Slice Account)
  ActivityLog : Option (Slice ActivityLogEntry)
  HealthChecks : Option (Slice HealthStatus)

/-- The keys of `AppConfig` in the persisted document: `accounts`,
`activityLog`, `healthChecks`. -/
def AppConfigTarget.setField (EqualFold : String → String → Bool) (key : String) (v : JSON)
    (cfg : AppConfigTarget) : Except String AppConfigTarget :=
  let field := fieldFor EqualFold ["accounts", "activityLog", "healthChecks"] key
  if field = some "accounts" then
    (unmarshalSlice Account.zero (Account.setField EqualFold) v cfg.Accounts).map
      (fun xs => { cfg with Accounts := xs })
  else if field = some "activityLog" then
    (unmarshalSlice (ActivityLogEntry.mk "" "" false "")
      (ActivityLogEntry.setField EqualFold) v cfg.ActivityLog).map
      (fun xs => { cfg with ActivityLog := xs })
  else if field = some "healthChecks" then
    (unmarshalSlice (HealthStatus.mk "" none none "")
      (HealthStatus.setField EqualFold) v cfg.HealthChecks).map
      (fun xs => { cfg with HealthChecks := xs })
  else Except.ok cfg

/-- The zero value of `AppConfig`, what `var cfg AppConfig` declares: three
nil slices. -/
def AppConfigTarget.zero : AppConfigTarget :=
  { Accounts := none, ActivityLog := none, HealthChecks := none }

/-- The `AppConfig` decoded: the elements of each slice. -/
def AppConfigTarget.value (cfg : AppConfigTarget) : AppConfig :=
  { Accounts := cfg.Accounts.map Slice.elems,
    ActivityLog := cfg.ActivityLog.map Slice.elems,
    HealthChecks := cfg.HealthChecks.map Slice.elems }

/-- The two statements `var cfg AppConfig` and `json.Unmarshal(data, &cfg)`,
for data that hold the document `doc`. -/
def unmarshalAppConfig (EqualFold : String → String → Bool) (doc : JSON) :
    Except String AppConfig :=
  (unmarshalStruct (AppConfigTarget.setField EqualFold) doc AppConfigTarget.zero).map
    AppConfigTarget.value

/-- AppConfigFromJSON deserializes AppConfig and ensures that the three slices
are not nil. -/
def AppConfigFromJSON (EqualFold : String → String → Bool) (jsonStr : JSON) :
    Except String AppConfig :=
  match unmarshalAppConfig EqualFold jsonStr with
  | Except.error e => Except.error e
  | Except.ok cfg =>
    let cfg := if cfg.Accounts = none then { cfg with Accounts := some [] } else cfg
    let cfg := if cfg.ActivityLog = none then { cfg with ActivityLog := some [] } else cfg
    let cfg := if cfg.HealthChecks = none then { cfg with HealthChecks := some [] } else cfg
    Except.ok cfg

/-- Manager handles configuration loading and saving (`config.Manager`). -/
structure ConfigManager where
  primaryPath : String
  legacyPath : String
deriving DecidableEq

/-- What `os.ReadFile` gives for a path: an error, which `os.IsNotExist`
recognises or not, or the data of the file. The data is represented by the
JSON document it holds, `none` when it is not well-formed JSON. -/
inductive ReadResult where
  | notExist
  | readError (msg : String)
  | data (doc : Option JSON)

/-- The errors `loadFromPath` returns: the error of `os.ReadFile` or that of
`json.Unmarshal`. -/
inductive LoadError where
  | notExist
  | readError (msg : String)
  | unmarshalError (msg : String)
deriving DecidableEq

/-- The test `os.IsNotExist(err)`. -/
def LoadError.IsNotExist : LoadError → Bool
  | LoadError.notExist => true
  | _ => false

/-- The method `loadFromPath` loads configuration from a specific path. -/
def ConfigManager.loadFromPath (EqualFold : String → String → Bool)
    (readFile : String → ReadResult) (path : String) : Except LoadError AppConfig :=
  match readFile path with
  | ReadResult.notExist => Except.error LoadError.notExist
  | ReadResult.readError msg => Except.error (LoadError.readError msg)
  | ReadResult.data none =>
    Except.error (LoadError.unmarshalError "invalid character")
  | ReadResult.data (some doc) =>
    match unmarshalAppConfig EqualFold doc with
    | Except.error e => Except.error (LoadError.unmarshalError e)
    | Except.ok cfg =>
      -- Ensure accounts is not nil
      let cfg := if cfg.Accounts = none then { cfg with Accounts := some [] } else cfg
      Except.ok cfg

/-- What a call of `Load` does: the pair it returns, and the configuration it
passed to `Save`, if it called `Save`. -/
structure LoadOutcome where
  result : Except LoadError AppConfig
  saved : Option AppConfig

/-- The loop of `Load` over the paths still to try. -/
def ConfigManager.loadPaths (EqualFold : String → String → Bool) (m : ConfigManager)
    (readFile : String → ReadResult) : List String → LoadOutcome
  | [] => { result := Except.ok NewAppConfig, saved := none }
  | path :: rest =>
    match ConfigManager.loadFromPath EqualFold readFile path with
    | Except.ok cfg =>
      if path = m.legacyPath then { result := Except.ok cfg, saved := some cfg }
      else { result := Except.ok cfg, saved := none }
    | Except.error err =>
      if err.IsNotExist then ConfigManager.loadPaths EqualFold m readFile rest
      else { result := Except.error err, saved := none }

/-- Load reads the configuration from disk: the primary path first, then the
legacy path. The error of `Save` is ignored, so the result does not depend on
it. -/
def ConfigManager.Load (EqualFold : String → String → Bool) (m : ConfigManager)
    (readFile : String → ReadResult) : LoadOutcome :=
  ConfigManager.loadPaths EqualFold m readFile [m.primaryPath, m.legacyPath]

/-! ## Copies of accounts (`internal/config/config.go`) -/

/-- Clone creates a deep copy of an Account. -/
def Account.Clone (a : Account) : Account :=
  let clone : Account :=
    { Name := a.Name, GitUserName := a.GitUserName, GitEmail := a.GitEmail,
      SSH := none, Token := none, Platform := none }
  let clone :=
    match a.SSH with
    | some sshCfg =>
      { clone with SSH := some { KeyPath := sshCfg.KeyPath, HostAlias := sshCfg.HostAlias } }
    | none => clone
  let clone :=
    match a.Token with
    | some tok =>
      { clone with Token := some { Username := tok.Username, Token := tok.Token } }
    | none => clone
  let clone :=
    match a.Platform with
    | some p =>
      { clone with
        Platform := some { Type_ := p.Type_, Domain := p.Domain, ApiUrl := p.ApiUrl } }
    | none => clone
  clone

/-! ## Platforms (`internal/account/platform.go`) -/

/-- The function `strings.Contains` on the characters of the two strings:
`sub` occurs in `s` at the front or further on. -/
def containsChars : List Char → List Char → Bool
  | [], sub => sub.isEmpty
  | c :: s, sub => sub.isPrefixOf (c :: s) || containsChars s sub

/-- The function `strings.Contains`. -/
def Contains (s substr : String) : Bool :=
  containsChars s.data substr.data

/-- Platform type constant. -/
def PlatformGitHub : String := "github"
/-- Platform type constant. -/
def PlatformGitLab : String := "gitlab"
/-- Platform type constant. -/
def PlatformBitbucket : String := "bitbucket"
/-- Platform type constant. -/
def PlatformGitea : String := "gitea"
/-- Platform type constant. -/
def PlatformCodeberg : String := "codeberg"
/-- Platform type constant. -/
def PlatformOther : String := "other"

/-- Platform icon. -/
def IconGitHub : String := "🐙"
/-- Platform icon. -/
def IconGitLab : String := "🦊"
/-- Platform icon. -/
def IconBitbucket : String := "🪣"
/-- Platform icon. -/
def IconGitea : String := "🍵"
/-- Platform icon. -/
def IconCodeberg : String := "🏔️"
/-- Platform icon. -/
def IconOther : String := "🔗"

/-- PlatformInfo contains display information for a platform. -/
structure PlatformInfo where
  Type_ : String
  Icon : String
  Name : String
  Domain : String
deriving DecidableEq

/-- The map `platformRegistry`, as the list of its six entries; a lookup is
`List.lookup`. -/
def platformRegistry : List (String × PlatformInfo) :=
  [(PlatformGitHub,
      { Type_ := PlatformGitHub, Icon := IconGitHub, Name := "GitHub", Domain := "github.com" }),
   (PlatformGitLab,
      { Type_ := PlatformGitLab, Icon := IconGitLab, Name := "GitLab", Domain := "gitlab.com" }),
   (PlatformBitbucket,
      { Type_ := PlatformBitbucket, Icon := IconBitbucket, Name := "Bitbucket",
        Domain := "bitbucket.org" }),
   (PlatformGitea,
      { Type_ := PlatformGitea, Icon := IconGitea, Name := "Gitea", Domain := "" }),
   (PlatformCodeberg,
      { Type_ := PlatformCodeberg, Icon := IconCodeberg, Name := "Codeberg",
        Domain := "codeberg.org" }),
   (PlatformOther,
      { Type_ := PlatformOther, Icon := IconOther, Name := "Other", Domain := "" })]

/-- DetectPlatformFromURL identifies platform type from remote URL. -/
def DetectPlatformFromURL (lower : Char → Char) (url : String) : String :=
  let url := ToLower lower url
  if Contains url "github.com" || Contains url "github:" then PlatformGitHub
  else if Contains url "gitlab.com" || Contains url "gitlab:" then PlatformGitLab
  else if Contains url "bitbucket.org" || Contains url "bitbucket:" then PlatformBitbucket
  else if Contains url "codeberg.org" then PlatformCodeberg
  else if Contains url "gitea" then PlatformGitea
  else PlatformOther

/-- GetSupportedPlatforms returns list of supported platform types. -/
def GetSupportedPlatforms : List String :=
  [PlatformGitHub, PlatformGitLab, PlatformBitbucket, PlatformGitea, PlatformCodeberg,
   PlatformOther]

/-- IsValidPlatform checks if a platform type is valid: whether the
lower-cased type is a key of the registry. -/
def IsValidPlatform (lower : Char → Char) (platformType : String) : Bool :=
  (platformRegistry.lookup (ToLower lower platformType)).isSome

/-! ## Health assessor: staleness (`internal/account`, health checks)

The file that declares `IsStaleCheck` and `StaleThreshold` is not among the
sources; its tests (`health_test.go`) are. Times are counted in nanoseconds
from the Unix epoch. A timestamp is an integer, since the zero value of
`time.Time` lies before the epoch; the reading of the system clock is a
natural number, since a system clock does not read a time before the epoch. -/

/-- The duration `time.Hour` in nanoseconds. -/
def Hour : Int := 3600 * 1000000000

/-- Modelled from the spec: `StaleThreshold`, "a fixed threshold (24 hours)";
`TestStaleThreshold` compares it with `24 * time.Hour`. -/
def StaleThreshold : Int := 24 * Hour

/-- The zero value `time.Time{}`: January 1 of year 1, 00:00:00 UTC, which is
62135596800 seconds before the Unix epoch. -/
def zeroTime : Int := -62135596800 * 1000000000

/-- The largest `time.Duration`. -/
def maxDuration : Int := 2 ^ 63 - 1

/-- The smallest `time.Duration`. -/
def minDuration : Int := -(2 ^ 63)

/-- The function `time.Since(t)`, the duration `now - t`, which saturates at
the largest and at the smallest duration. -/
def Since (now : Nat) (t : Int) : Int :=
  if (now : Int) - t > maxDuration then maxDuration
  else if (now : Int) - t < minDuration then minDuration
  else (now : Int) - t

/-- Modelled from the spec: `IsStaleCheck`, whose source file is missing. "A
cached lastChecked older than a fixed threshold (24 hours), or the zero/unset
timestamp, is stale; IsStaleCheck must treat the exact zero-value timestamp as
stale by definition." -/
def IsStaleCheck (now : Nat) (lastChecked : Int) : Bool :=
  if lastChecked = zeroTime then true
  else decide (Since now lastChecked > StaleThreshold)

/-! ## Detection engine (`internal/account`, `DetectActiveWithScore`)

The file that declares `DetectActiveWithScore` is not among the sources; its
caller `runStatus` is. The specification (section 4.4) fixes the shape of the
algorithm and leaves open the weights, the confidence floor and the
comparison used for each signal: these are arguments of the model. -/

/-- The signals of section 4.4: email, user name, SSH host alias, platform or
domain of the remote URL. -/
inductive MatchField where
  | email
  | userName
  | hostAlias
  | platform
deriving DecidableEq

/-- The result of `DetectActiveWithScore`, with the fields `runStatus` reads. -/
structure MatchScore where
  AccountName : String
  Score : Nat
  MatchedFields : List MatchField
  IsActive : Bool
deriving DecidableEq

/-- Modelled from the spec: step 2 of section 4.4, the names of the signals on
which an account matches the repository, "recorded for explainability".
`fieldMatches` says whether a signal of the account matches the facts gathered
from the repository. -/
def matchedFieldsOf (fieldMatches : Account → MatchField → Bool) (acc : Account) :
    List MatchField :=
  [MatchField.email, MatchField.userName, MatchField.hostAlias,
    MatchField.platform].filter (fieldMatches acc)

/-- Modelled from the spec: step 2 of section 4.4, "a match score by summing
fixed weights for each field that matches". -/
def scoreOfFields (weight : MatchField → Nat) (fields : List MatchField) : Nat :=
  (fields.map weight).sum

/-- Modelled from the spec: step 3 of section 4.4, "the account with the
strictly highest cumulative score wins; first encountered wins" a tie: the
candidate kept so far is replaced only by an account with a strictly higher
score. -/
def pickHighest (score : Account → Nat) : Option Account → List Account → Option Account
  | best, [] => best
  | none, acc :: rest => pickHighest score (some acc) rest
  | some best, acc :: rest =>
    if score acc > score best then pickHighest score (some acc) rest
    else pickHighest score (some best) rest

/-- Modelled from the spec: `DetectActiveWithScore` inside a git repository,
section 4.4. The winner of step 3 is reported "active only if its score clears
a minimum confidence floor"; nil is returned when there is no account. The
type `Repo` holds the facts gathered from the repository in step 1. -/
def DetectActiveWithScore {Repo : Type} (fieldMatches : Repo → Account → MatchField → Bool)
    (weight : MatchField → Nat) (floor : Nat) (repo : Repo) (accounts : List Account) :
    Option MatchScore :=
  match pickHighest
      (fun acc => scoreOfFields weight (matchedFieldsOf (fieldMatches repo) acc))
      none accounts with
  | none => none
  | some acc =>
    let fields := matchedFieldsOf (fieldMatches repo) acc
    let score := scoreOfFields weight fields
    some { AccountName := acc.Name, Score := score, MatchedFields := fields,
           IsActive := decide (floor ≤ score) }

/-- The test of `runStatus` before it shows an active account:
`matchScore != nil && matchScore.IsActive`. -/
def statusShowsActive (matchScore : Option MatchScore) : Bool :=
  match matchScore with
  | some ms => ms.IsActive
  | none => false

/-! ## More standard-library string functions -/

/-- The function `strings.HasPrefix`. -/
def HasPrefix (s pre : String) : Bool :=
  pre.data.isPrefixOf s.data

/-- The function `strings.HasSuffix`. -/
def HasSuffix (s suffix : String) : Bool :=
  suffix.data.isSuffixOf s.data

/-- The function `strings.TrimSuffix`: `s` without the trailing `suffix`, or
`s` itself when it does not end with `suffix`. -/
def TrimSuffix (s suffix : String) : String :=
  if HasSuffix s suffix then String.mk (s.data.take (s.data.length - suffix.data.length))
  else s

/-- The function `unicode.IsSpace`: the characters with the Unicode property
White_Space. -/
def isSpace (c : Char) : Bool :=
  c.toNat = 0x09 || c.toNat = 0x0A || c.toNat = 0x0B || c.toNat = 0x0C || c.toNat = 0x0D
    || c.toNat = 0x20 || c.toNat = 0x85 || c.toNat = 0xA0 || c.toNat = 0x1680
    || (0x2000 ≤ c.toNat && c.toNat ≤ 0x200A) || c.toNat = 0x2028 || c.toNat = 0x2029
    || c.toNat = 0x202F || c.toNat = 0x205F || c.toNat = 0x3000

/-- The function `strings.TrimSpace`: white space removed at both ends. -/
def TrimSpace (s : String) : String :=
  String.mk ((s.data.dropWhile isSpace).reverse.dropWhile isSpace).reverse

/-- The function `strings.Split` for a one-character separator, on character
lists: the pieces between the separators, one piece more than there are
separators. -/
def splitChars (sep : Char) : List Char → List (List Char)
  | [] => [[]]
  | c :: cs =>
    if c = sep then [] :: splitChars sep cs
    else
      match splitChars sep cs with
      | piece :: pieces => (c :: piece) :: pieces
      | [] => [[c]]

/-- The function `fmt.Sprintf` for a format whose only verbs are `%s`, on
character lists: each `%s` is replaced by the next argument. -/
def sprintfChars : List Char → List (List Char) → List Char
  | [], _ => []
  | '%' :: 's' :: rest, arg :: args => arg ++ sprintfChars rest args
  | c :: rest, args => c :: sprintfChars rest args

/-- The function `fmt.Sprintf` with string arguments for `%s` verbs. -/
def Sprintf (format : String) (args : List String) : String :=
  String.mk (sprintfChars format.data (args.map String.data))

/-! ## Platform display (`internal/account/platform.go`) -/

/-- GetPlatformInfo returns display info for a platform type: the registry
entry of the lower-cased type, or the entry of `other`. An index into a Go map
gives the zero value for a missing key. -/
def GetPlatformInfo (lower : Char → Char) (platformType : String) : PlatformInfo :=
  let platformType := ToLower lower platformType
  match platformRegistry.lookup platformType with
  | some info => info
  | none =>
    (platformRegistry.lookup PlatformOther).getD
      { Type_ := "", Icon := "", Name := "", Domain := "" }

/-- GetPlatformIcon returns the icon for a platform type. -/
def GetPlatformIcon (lower : Char → Char) (platformType : String) : String :=
  (GetPlatformInfo lower platformType).Icon

/-- GetPlatformName returns the display name for a platform type. -/
def GetPlatformName (lower : Char → Char) (platformType : String) : String :=
  (GetPlatformInfo lower platformType).Name

/-! ## Remote URLs (`internal/git/remote.go`) -/

/-- The tail `(.+?)(?:\.git)?$` of the three URL patterns, on the text that
remains after the separator: the first group. The dot does not match a line
feed, so the text must not contain one; the lazy group is not empty and takes
as little as it can, so a final `.git` is left out of it unless nothing would
remain. -/
def matchLazyPath (path : List Char) : Option (List Char) :=
  if path.contains '\n' then none
  else if path = [] then none
  else if ".git".data.isSuffixOf path && decide (path.length > 4) then
    some (path.take (path.length - 4))
  else some path

/-- A pattern `^P([^c]+)c(.+?)(?:\.git)?$` for a literal `P` and a separator
character `c`: the two groups. The first group is the longest run of
characters other than `c` after `P`; it is not empty and `c` follows it. -/
def matchHostPath (pre : List Char) (sep : Char) (text : List Char) :
    Option (List Char × List Char) :=
  if pre.isPrefixOf text then
    let rest := text.drop pre.length
    let host := rest.takeWhile (fun c => c ≠ sep)
    if host = [] then none
    else
      match rest.drop host.length with
      | [] => none
      | _ :: path =>
        match matchLazyPath path with
        | some group => some (host, group)
        | none => none
  else none

/-- The pattern `^git@([^:]+):(.+?)(?:\.git)?$`. -/
def sshPattern (text : List Char) : Option (List Char × List Char) :=
  matchHostPath "git@".data ':' text

/-- The pattern `^ssh://git@([^/]+)/(.+?)(?:\.git)?$`. -/
def sshURLPattern (text : List Char) : Option (List Char × List Char) :=
  matchHostPath "ssh://git@".data '/' text

/-- The pattern `^https?://([^/]+)/(.+?)(?:\.git)?$`. -/
def httpsPattern (text : List Char) : Option (List Char × List Char) :=
  match matchHostPath "https://".data '/' text with
  | some groups => some groups
  | none => matchHostPath "http://".data '/' text

/-- The body shared by the three branches of `ParseRepoFromURL`: the second
group is split at the slashes; with two parts or more the owner is the first
part and the repository the last one without a final `.git`. -/
def ownerRepoOf (group : List Char) : Option (String × String) :=
  let parts := splitChars '/' group
  if parts.length ≥ 2 then
    some (String.mk (parts.headD []), TrimSuffix (String.mk (parts.getLastD [])) ".git")
  else none

/-- One branch of `ParseRepoFromURL`: the pattern matches and the path has two
parts or more. -/
def tryPattern (pattern : List Char → Option (List Char × List Char))
    (text : List Char) : Option (String × String) :=
  match pattern text with
  | some (_, group) => ownerRepoOf group
  | none => none

/-- ParseRepoFromURL extracts owner/repo from a git URL. -/
def ParseRepoFromURL (rawURL : String) : Except String (String × String) :=
  if rawURL = "" then Except.error "empty URL"
  else
    let rawURL := TrimSpace rawURL
    match tryPattern sshPattern rawURL.data with
    | some result => Except.ok result
    | none =>
      match tryPattern sshURLPattern rawURL.data with
      | some result => Except.ok result
      | none =>
        match tryPattern httpsPattern rawURL.data with
        | some result => Except.ok result
        | none => Except.error ("unable to parse URL: " ++ rawURL)

/-- WithGitSuffix ensures a repo path has .git suffix; `NormalizeURL` does the
same in both of its branches. -/
def WithGitSuffix (repoPath : String) : String :=
  if HasSuffix repoPath ".git" then repoPath else repoPath ++ ".git"

/-- NormalizeURL normalizes a git URL and adds .git suffix if missing; the
result is the normalized URL with the flag `isSSH`. -/
def NormalizeURL (rawURL : String) : Except String (String × Bool) :=
  if rawURL = "" then Except.error "empty URL"
  else
    let rawURL := TrimSpace rawURL
    let rawURL := TrimSuffix rawURL "#"
    if HasPrefix rawURL "git@" || HasPrefix rawURL "ssh://" then
      Except.ok (WithGitSuffix rawURL, true)
    else if HasPrefix rawURL "http://" || HasPrefix rawURL "https://" then
      Except.ok (WithGitSuffix rawURL, false)
    else Except.error ("invalid git URL format: " ++ rawURL)

/-- The function `detectHost` extracts the host from a URL. The first element
of `strings.SplitN(s, sep, 2)` is the text before the first separator, so the
two tests `len(parts) > 0` hold. -/
def detectHost (rawURL : String) : String :=
  if HasPrefix rawURL "git@" then
    String.mk ((rawURL.data.drop 4).takeWhile (fun c => c ≠ ':'))
  else if HasPrefix rawURL "ssh://git@" then
    String.mk ((rawURL.data.drop 10).takeWhile (fun c => c ≠ '/'))
  else if HasPrefix rawURL "https://" then
    let host := (rawURL.data.drop 8).takeWhile (fun c => c ≠ '/')
    if host = [] then "" else String.mk host
  else if HasPrefix rawURL "http://" then
    let host := (rawURL.data.drop 7).takeWhile (fun c => c ≠ '/')
    if host = [] then "" else String.mk host
  else ""

/-- The function `detectPlatform` detects the git platform from the host. -/
def detectPlatform (lower : Char → Char) (host : String) : String :=
  let host := ToLower lower host
  if Contains host "github" then "github"
  else if Contains host "gitlab" then "gitlab"
  else if Contains host "bitbucket" then "bitbucket"
  else if Contains host "codeberg" then "codeberg"
  else if Contains host "gitea" then "gitea"
  else "other"

/-- URLInfo contains parsed information from a git URL. -/
structure URLInfo where
  URL : String
  IsSSH : Bool
  Host : String
  Owner : String
  Repo : String
  Platform : String
deriving DecidableEq

/-- ParseURL parses a git URL and returns detailed information. -/
def ParseURL (lower : Char → Char) (rawURL : String) : Except String URLInfo :=
  match NormalizeURL rawURL with
  | Except.error e => Except.error e
  | Except.ok (normalized, isSSH) =>
    match ParseRepoFromURL normalized with
    | Except.error e => Except.error e
    | Except.ok (owner, repo) =>
      let host := detectHost normalized
      let platform := detectPlatform lower host
      Except.ok { URL := normalized, IsSSH := isSSH, Host := host, Owner := owner,
                  Repo := repo, Platform := platform }

/-- PlatformURLConfig holds URL configuration for a platform. -/
structure PlatformURLConfig where
  SSHFormat : String
  HTTPSFormat : String
  DefaultHost : String
deriving DecidableEq

/-- The map `platformURLConfigs`, as the list of its six entries. -/
def platformURLConfigs : List (String × PlatformURLConfig) :=
  [("github",
      { SSHFormat := "git@%s:%s", HTTPSFormat := "https://%s/%s", DefaultHost := "github.com" }),
   ("gitlab",
      { SSHFormat := "git@%s:%s", HTTPSFormat := "https://%s/%s", DefaultHost := "gitlab.com" }),
   ("bitbucket",
      { SSHFormat := "git@%s:%s", HTTPSFormat := "https://%s/%s",
        DefaultHost := "bitbucket.org" }),
   ("gitea",
      { SSHFormat := "git@%s:%s", HTTPSFormat := "https://%s/%s", DefaultHost := "" }),
   ("codeberg",
      { SSHFormat := "git@%s:%s", HTTPSFormat := "https://%s/%s",
        DefaultHost := "codeberg.org" }),
   ("other",
      { SSHFormat := "git@%s:%s", HTTPSFormat := "https://%s/%s", DefaultHost := "" })]

/-- GetPlatformURLConfig returns URL configuration for a platform. -/
def GetPlatformURLConfig (lower : Char → Char) (platform : String) : PlatformURLConfig :=
  let platform := ToLower lower platform
  match platformURLConfigs.lookup platform with
  | some config => config
  | none =>
    (platformURLConfigs.lookup "other").getD
      { SSHFormat := "", HTTPSFormat := "", DefaultHost := "" }

/-- BuildRemoteURL builds a remote URL for a given platform. -/
def BuildRemoteURL (lower : Char → Char) (platform domain repoPath : String)
    (useSSH : Bool) : String :=
  let config := GetPlatformURLConfig lower platform
  let domain :=
    if domain = "" then
      if config.DefaultHost = "" then "github.com" else config.DefaultHost
    else domain
  let repoPath := if !HasSuffix repoPath ".git" then repoPath ++ ".git" else repoPath
  if useSSH then Sprintf config.SSHFormat [domain, repoPath]
  else Sprintf config.HTTPSFormat [domain, repoPath]

/-- BuildSSHRemoteURL builds an SSH remote URL for a platform. -/
def BuildSSHRemoteURL (lower : Char → Char) (platform domain repoPath : String) : String :=
  BuildRemoteURL lower platform domain repoPath true

/-- GetDefaultDomain returns the default domain for a platform. -/
def GetDefaultDomain (lower : Char → Char) (platform : String) : String :=
  (GetPlatformURLConfig lower platform).DefaultHost

/-- GetPlatformSSHHost returns the SSH host for a platform. -/
def GetPlatformSSHHost (platform domain : String) : String :=
  if domain ≠ "" then domain
  else if platform = "github" then "github.com"
  else if platform = "gitlab" then "gitlab.com"
  else if platform = "bitbucket" then "bitbucket.org"
  else "github.com"

/-! ## The URL test of the interactive menu (`cmd/ghex/commands/interactive.go`) -/

/-- The function `isGitURL`: the text starts with one of the four schemes. -/
def isGitURL (s : String) : Bool :=
  HasPrefix s "http://" ||
    HasPrefix s "https://" ||
    HasPrefix s "git@" ||
    HasPrefix s "ssh://"

/-! ## Editing an account (`cmd/ghex/commands/account.go`) -/

/-- The account list after `runEditAccount`, the list it hands to
`config.Save`. `selection` is the pair `RunSelector` returns, an index or an
error, a negative index meaning that the user cancelled; `PromptWithDefault`
is the prompt of the `ui` package, a function of the prompt text and of the
default value shown. The three fields are overwritten in place with the
answers, without any check. -/
def runEditAccount (PromptWithDefault : String → String → String)
    (accounts : List Account) (selection : Except String Int) : List Account :=
  if accounts.length = 0 then accounts
  else
    match selection with
    | Except.error _ => accounts
    | Except.ok idx =>
      if idx < 0 then accounts
      else
        accounts.modify
          (fun acc =>
            let acc := { acc with Name := PromptWithDefault "Account label" acc.Name }
            let acc := { acc with
              GitUserName := PromptWithDefault "Git user.name" acc.GitUserName }
            let acc := { acc with GitEmail := PromptWithDefault "Git user.email" acc.GitEmail }
            acc)
          idx.toNat

/-- The account names of a store are pairwise distinct under case folding. -/
def namesDistinct (EqualFold : String → String → Bool) (accounts : List Account) : Prop :=
  accounts.Pairwise (fun a b => EqualFold a.Name b.Name = false)

/-- A user who answers `Work` to the prompt for the account label and keeps
the default of every other prompt. -/
def answerWork (prompt default : String) : String :=
  if prompt = "Account label" then "Work" else default

/-! ## Interactive selector (`internal/ui/selector.go`) -/

/-- SelectorItem represents an item in the selector. -/
structure SelectorItem where
  Title : String
  Description : String
  Value : String
deriving DecidableEq

/-- SelectorModel is the bubbletea model for interactive selection. -/
structure SelectorModel where
  items : List SelectorItem
  cursor : Int
  selected : Int
  title : String
  done : Bool
  canceled : Bool
  width : Int
  height : Int
deriving DecidableEq

/-- The messages `Update` receives: a window size, a key, given by the text
`msg.String()`, or any other message. -/
inductive Msg where
  | WindowSizeMsg (Width Height : Int)
  | KeyMsg (key : String)
  | other

/-- NewSelector creates a new selector model. -/
def NewSelector (title : String) (items : List SelectorItem) : SelectorModel :=
  { items := items, cursor := 0, selected := -1, title := title, done := false,
    canceled := false, width := 0, height := 0 }

/-- The model `Update` returns; the command returned with it (`tea.Quit` or
nil) is left out. -/
def SelectorModel.Update (m : SelectorModel) (msg : Msg) : SelectorModel :=
  match msg with
  | Msg.WindowSizeMsg w h => { m with width := w, height := h }
  | Msg.KeyMsg key =>
    if key = "ctrl+c" ∨ key = "q" ∨ key = "esc" then
      { m with canceled := true, done := true }
    else if key = "up" ∨ key = "k" then
      if m.cursor > 0 then { m with cursor := m.cursor - 1 }
      else { m with cursor := (m.items.length : Int) - 1 }
    else if key = "down" ∨ key = "j" then
      if m.cursor < (m.items.length : Int) - 1 then { m with cursor := m.cursor + 1 }
      else { m with cursor := 0 }
    else if key = "pgup" ∨ key = "ctrl+u" then
      let m := { m with cursor := m.cursor - 5 }
      if m.cursor < 0 then { m with cursor := 0 } else m
    else if key = "pgdown" ∨ key = "ctrl+d" then
      let m := { m with cursor := m.cursor + 5 }
      if m.cursor ≥ (m.items.length : Int) then
        { m with cursor := (m.items.length : Int) - 1 }
      else m
    else if key = "home" ∨ key = "g" then { m with cursor := 0 }
    else if key = "end" ∨ key = "G" then { m with cursor := (m.items.length : Int) - 1 }
    else if key = "enter" ∨ key = " " ∨ key = "l" then
      { m with selected := m.cursor, done := true }
    else m
  | Msg.other => m

/-- Selected returns the selected index (-1 if canceled). -/
def SelectorModel.Selected (m : SelectorModel) : Int :=
  if m.canceled then -1 else m.selected

/-- The cursor of a selector is an index of its items, and the recorded
selection is an index or -1. -/
def SelectorModel.Valid (m : SelectorModel) : Prop :=
  0 ≤ m.cursor ∧ m.cursor < (m.items.length : Int) ∧
    (m.selected = -1 ∨ (0 ≤ m.selected ∧ m.selected < (m.items.length : Int)))

/-- The value of a Go `int` expression: the integer reduced to the range of
64-bit two's complement. -/
def wrapInt (x : Int) : Int :=
  (x + 9223372036854775808) % 18446744073709551616 - 9223372036854775808

/-- The height `View` works with: the stored height, or when that is 0 the
height `term.GetSize` reports, if it reports one above 0, and 24 otherwise. -/
def viewHeight (height : Int) (termHeight : Option Int) : Int :=
  if height = 0 then
    match termHeight with
    | some h => if h > 0 then h else 24
    | none => 24
  else height

/-- The value of `maxVisibleItems` in `View`, for `itemCount = len(m.items)`.
The division has a positive dividend and divisor. -/
def maxVisibleItems (itemCount : Nat) (height : Int) : Int :=
  let showDesc := decide (height > 20)
  let linesPerItem : Int := if showDesc then 2 else 1
  let availableLines := wrapInt (height - 14)
  let availableLines := if availableLines < 3 then 3 else availableLines
  let maxVisibleItems := availableLines / linesPerItem
  let maxVisibleItems := if maxVisibleItems < 3 then 3 else maxVisibleItems
  if maxVisibleItems > (itemCount : Int) then (itemCount : Int) else maxVisibleItems

/-- The values of `viewportStart` and `viewportEnd` in `View` when the item
loop starts. The first assignment to `viewportStart` in the scrolling branch
is overwritten by the second. -/
def viewportBounds (itemCount : Nat) (cursor maxVisibleItems : Int) : Int × Int :=
  let viewportStart : Int := 0
  let viewportEnd : Int := itemCount
  if (itemCount : Int) > maxVisibleItems then
    let viewportStart :=
      if cursor < viewportStart then cursor
      else if cursor ≥ viewportStart + maxVisibleItems then cursor - maxVisibleItems + 1
      else viewportStart
    let viewportStart := (fun (_ : Int) => cursor - maxVisibleItems / 2) viewportStart
    let viewportStart := if viewportStart < 0 then 0 else viewportStart
    let viewportEnd := viewportStart + maxVisibleItems
    if viewportEnd > (itemCount : Int) then
      let viewportEnd : Int := itemCount
      let viewportStart := viewportEnd - maxVisibleItems
      let viewportStart := if viewportStart < 0 then 0 else viewportStart
      (viewportStart, viewportEnd)
    else (viewportStart, viewportEnd)
  else (viewportStart, viewportEnd)

/-- The viewport computation of `View`: `viewportStart` and `viewportEnd` for
a model with `itemCount` items, the cursor and the stored height, and the
height `termHeight` that `term.GetSize` reports, if it reports one. -/
def viewport (itemCount : Nat) (cursor height : Int) (termHeight : Option Int) : Int × Int :=
  viewportBounds itemCount cursor (maxVisibleItems itemCount (viewHeight height termHeight))

/-! ## Account table (`internal/ui/table.go`) -/

/-- Column width of the git identity in the account table. -/
def colWidthIdentity : Int := 30

/-- The loop of `visibleLength` over the runes still to read, with the
variables `inEscape` and `length`. -/
def visibleLengthLoop : Bool → Nat → List Char → Nat
  | _, length, [] => length
  | inEscape, length, r :: rest =>
    if r = '\x1b' then visibleLengthLoop true length rest
    else if inEscape then
      if r = 'm' then visibleLengthLoop false length rest
      else visibleLengthLoop true length rest
    else visibleLengthLoop false (length + 1) rest

/-- The function `visibleLength` returns the visible length of a string
(excluding ANSI codes). -/
def visibleLength (s : String) : Int :=
  visibleLengthLoop false 0 s.data

/-- The function `truncate` truncates a string to max length with ellipsis.
The result is `none` when the slice `runes[:maxLen-3]` is out of range, where
the Go program panics. -/
def truncate (s : String) (maxLen : Int) : Option String :=
  if visibleLength s ≤ maxLen then some s
  else
    let runes := s.data
    if (runes.length : Int) > maxLen - 3 then
      if 0 ≤ maxLen - 3 ∧ maxLen - 3 ≤ (runes.length : Int) then
        some (String.mk (runes.take (maxLen - 3).toNat) ++ "...")
      else none
    else some s

/-! ## SSH key file names (`internal/ssh/ssh.go`) -/

/-- The characters of the class `[a-zA-Z0-9_-]`. -/
def isKeyNameChar (c : Char) : Bool :=
  ('a' ≤ c && c ≤ 'z') || ('A' ≤ c && c ≤ 'Z') || ('0' ≤ c && c ≤ '9') || c = '_' || c = '-'

/-- The characters a-z, 0-9, `_` and `-`. -/
abbrev isLowerKeyNameChar (c : Char) : Prop :=
  ('a' ≤ c ∧ c ≤ 'z') ∨ ('0' ≤ c ∧ c ≤ '9') ∨ c = '_' ∨ c = '-'

/-- The loop of `SuggestKeyFilenames` that removes duplicates: a candidate is
appended to `unique` unless it has been seen, and `seen` holds the candidates
appended so far. -/
def uniqueLoop : List String → List String → List String
  | unique, [] => unique
  | unique, c :: candidates =>
    if c ∈ unique then uniqueLoop unique candidates
    else uniqueLoop (unique ++ [c]) candidates

/-- SuggestKeyFilenames suggests destination filenames for SSH keys. The
function `strings.ToLower` is the parameter `toLower`. Replacing every match of
the pattern `[^a-zA-Z0-9_-]+` by the empty string removes the characters
outside the class. -/
def SuggestKeyFilenames (toLower : String → String) (username label : String) :
    List String :=
  let base := username
  let base := if base = "" then label else base
  let base := if base = "" then "github" else base
  let base := toLower base
  let base := String.mk (base.data.filter isKeyNameChar)
  let candidates :=
    [Sprintf "id_ed25519_%s" [base], Sprintf "id_ecdsa_%s" [base],
      Sprintf "id_rsa_%s" [base], "id_ed25519_github"]
  uniqueLoop [] candidates

/-! ## Concrete inputs

The accounts of the test files, used where a statement is evaluated. -/

/-- An account with a name only. -/
def accountNamed (name : String) : Account :=
  { Name := name, GitUserName := "", GitEmail := "", SSH := none, Token := none,
    Platform := none }

/-- An account with a name, an email and a platform type, as in
`TestCheckEmailDuplicate`. -/
def accountWithEmail (name email platformType : String) : Account :=
  { Name := name, GitUserName := "", GitEmail := email, SSH := none, Token := none,
    Platform := some { Type_ := platformType, Domain := "", ApiUrl := "" } }

/-- An account with a name, a token username and a platform type, as in
`TestCheckTokenDuplicate`. -/
def accountWithToken (name username platformType : String) : Account :=
  { Name := name, GitUserName := "", GitEmail := "", SSH := none,
    Token := some { Username := username, Token := "" },
    Platform := some { Type_ := platformType, Domain := "", ApiUrl := "" } }

/-- The two stored accounts of `TestCheckEmailDuplicate`: one email, two
platforms. -/
def emailAccounts : List Account :=
  [accountWithEmail "github-account" "user@example.com" "github",
   accountWithEmail "gitlab-account" "user@example.com" "gitlab"]

/-- The two stored accounts of `TestCheckTokenDuplicate`. -/
def tokenAccounts : List Account :=
  [accountWithToken "github-work" "workuser" "github",
   accountWithToken "gitlab-work" "workuser" "gitlab"]

/-- The three stored accounts of `TestRemoveAccount`. -/
def threeAccounts : List Account :=
  [accountNamed "account1", accountNamed "account2", accountNamed "account3"]

/-- An activity log entry as `TestGetRecentActivity` logs it. -/
def testEntry : ActivityLogEntry :=
  { Action := "test", AccountName := "account", Success := false, Timestamp := "" }

/-- Five `LogActivity` calls with increasing clock readings. -/
def fiveCalls : List (ActivityLogEntry × String) :=
  [(testEntry, "t1"), (testEntry, "t2"), (testEntry, "t3"), (testEntry, "t4"),
   (testEntry, "t5")]

/-- A document with the key `accounts` only, bound to an empty array. -/
def documentAccountsOnly : JSON :=
  JSON.obj [("accounts", JSON.arr [])]

/-- A configuration manager with a primary and a legacy path. -/
def configManagerExample : ConfigManager :=
  { primaryPath := "/home/u/.config/ghe/config.json",
    legacyPath := "/home/u/.config/github-switch/config.json" }

/-- A disk on which the primary path holds `documentAccountsOnly` and no other
file exists. -/
def readAccountsOnly (path : String) : ReadResult :=
  if path = configManagerExample.primaryPath then ReadResult.data (some documentAccountsOnly)
  else ReadResult.notExist

/-- The three forms of a remote URL for a host and a path: HTTPS, the SCP-like
SSH form, and the `ssh://` form. -/
def remoteURLForms (host path : String) : List String :=
  ["https://" ++ host ++ "/" ++ path,
   "git@" ++ host ++ ":" ++ path,
   "ssh://git@" ++ host ++ "/" ++ path]

/-- A repository of which only the local email is known: the email signal of an
account matches when the account has that email, no other signal matches. -/
def emailOnlyMatches (repoEmail : String) (acc : Account) (field : MatchField) : Bool :=
  match field with
  | MatchField.email => decide (acc.GitEmail = repoEmail)
  | _ => false

/-- Weights for the four signals, for an evaluation with a floor of 50. -/
def exampleWeight : MatchField → Nat
  | MatchField.email => 30
  | MatchField.userName => 20
  | MatchField.hostAlias => 40
  | MatchField.platform => 10

/-- The result for an account `work` that matches on the email alone, with
`exampleWeight` and a floor of 50. -/
def emailOnlyResult : MatchScore :=
  { AccountName := "work", Score := 30, MatchedFields := [MatchField.email],
    IsActive := false }

/-- The document of `TestAppConfigFromJSONWithMissingFields`: the key
`accounts` only, with one account named `test`. -/
def documentOneAccount : JSON :=
  JSON.obj [("accounts", JSON.arr [JSON.obj [("name", JSON.str "test")]])]

/-- The configuration `AppConfigFromJSON` returns for `documentOneAccount`. -/
def configOneAccount : AppConfig :=
  { Accounts := some [accountNamed "test"], ActivityLog := some [], HealthChecks := some [] }

/-- A disk without any file. -/
def readNothing (_ : String) : ReadResult :=
  ReadResult.notExist

/-- A disk on which the legacy path of `configManagerExample` holds
`documentAccountsOnly` and no other file exists. -/
def readLegacyOnly (path : String) : ReadResult :=
  if path = configManagerExample.legacyPath then ReadResult.data (some documentAccountsOnly)
  else ReadResult.notExist

/-- A disk on which the primary path of `configManagerExample` cannot be read,
while the legacy path holds `documentAccountsOnly`. -/
def readPrimaryUnreadable (path : String) : ReadResult :=
  if path = configManagerExample.primaryPath then ReadResult.readError "permission denied"
  else if path = configManagerExample.legacyPath then
    ReadResult.data (some documentAccountsOnly)
  else ReadResult.notExist

/-- A disk on which the legacy path of `configManagerExample` holds data that
is not JSON and no other file exists. -/
def readLegacyInvalid (path : String) : ReadResult :=
  if path = configManagerExample.legacyPath then ReadResult.data none
  else ReadResult.notExist

/-- An account with an SSH key path and nothing else. -/
def accountWithSSHKey (name keyPath : String) : Account :=
  { Name := name, GitUserName := "", GitEmail := "",
    SSH := some { KeyPath := keyPath, HostAlias := "" }, Token := none, Platform := none }

/-- The accounts of `TestCheckSSHKeyDuplicate`. -/
def sshKeyAccounts : List Account :=
  [accountWithSSHKey "account1" "~/.ssh/id_ed25519_work",
   accountWithSSHKey "account2" "/home/user/.ssh/id_rsa",
   accountNamed "account3"]

/-- The stored account of `TestValidateNew`. -/
def existingAccount : Account :=
  { Name := "existing", GitUserName := "", GitEmail := "existing@example.com",
    SSH := some { KeyPath := "~/.ssh/existing", HostAlias := "" },
    Token := some { Username := "existinguser", Token := "" },
    Platform := some { Type_ := "github", Domain := "", ApiUrl := "" } }

/-- A candidate of `TestValidateNew` with a new name and the SSH key of the
stored account, here without a platform. -/
def candidateSameKey : Account :=
  { Name := "new-account", GitUserName := "", GitEmail := "",
    SSH := some { KeyPath := "~/.ssh/existing", HostAlias := "" }, Token := none,
    Platform := none }

/-- A candidate with a new name, and the email and the token username of the
stored account of `TestValidateNew` in capitals, without a platform. -/
def candidateSameEmailToken : Account :=
  { Name := "new-account", GitUserName := "", GitEmail := "EXISTING@example.com",
    SSH := none, Token := some { Username := "ExistingUser", Token := "" },
    Platform := none }

/-- An account with an email and no platform. -/
def accountNoPlatform (name email : String) : Account :=
  { Name := name, GitUserName := "", GitEmail := email, SSH := none, Token := none,
    Platform := none }

/-- An account with a token username and a platform without a type. -/
def accountEmptyPlatformType (name username : String) : Account :=
  { Name := name, GitUserName := "", GitEmail := "", SSH := none,
    Token := some { Username := username, Token := "" },
    Platform := some { Type_ := "", Domain := "git.example.com", ApiUrl := "" } }

/-- A document in which the key `accounts` comes twice: first one account
with a name, an email and a platform, then one account with a name only. -/
def documentAccountsTwice : JSON :=
  JSON.obj
    [("accounts", JSON.arr [JSON.obj [("name", JSON.str "a"), ("gitEmail", JSON.str "a@x.com"),
        ("platform", JSON.obj [("type", JSON.str "github")])]]),
     ("accounts", JSON.arr [JSON.obj [("name", JSON.str "b")]])]

/-- Three items of a selector. -/
def selectorItems : List SelectorItem :=
  [{ Title := "work", Description := "", Value := "0" },
   { Title := "personal", Description := "", Value := "1" },
   { Title := "school", Description := "", Value := "2" }]

/-- Four keys pressed in a selector. -/
def selectorKeys : List Msg :=
  [Msg.KeyMsg "up", Msg.KeyMsg "pgdown", Msg.KeyMsg "down", Msg.KeyMsg "enter"]

/-! ## The validator loops as list searches -/

theorem CheckNameDuplicate_eq_any (EqualFold : String → String → Bool)
    (accounts : List Account) (name : String) :
    CheckNameDuplicate EqualFold accounts name
      = accounts.any (fun acc => EqualFold acc.Name name) := by
  induction accounts with
  | nil => rfl
  | cons acc rest ih =>
    by_cases h : EqualFold acc.Name name = true
    · simp [CheckNameDuplicate, h]
    · simp [CheckNameDuplicate, h, ih]

theorem CheckNameDuplicate_iff (EqualFold : String → String → Bool)
    (accounts : List Account) (name : String) :
    CheckNameDuplicate EqualFold accounts name = true
      ↔ ∃ acc ∈ accounts, EqualFold acc.Name name = true := by
  rw [CheckNameDuplicate_eq_any]
  simp

theorem CheckEmailDuplicate_eq_find (EqualFold : String → String → Bool)
    (accounts : List Account) (email platform : String) :
    CheckEmailDuplicate EqualFold accounts email platform
      = accounts.find? (fun acc => EqualFold acc.GitEmail email
          && EqualFold (platformTypeOf acc.Platform) platform) := by
  induction accounts with
  | nil => rfl
  | cons acc rest ih =>
    by_cases h₁ : EqualFold acc.GitEmail email = true <;>
    by_cases h₂ : EqualFold (platformTypeOf acc.Platform) platform = true <;>
    simp [CheckEmailDuplicate, List.find?, h₁, h₂, ih]

theorem CheckSSHKeyDuplicate_eq_find (lower : Char → Char) (accounts : List Account)
    (keyPath : String) :
    CheckSSHKeyDuplicate lower accounts keyPath = accounts.find? (sshKeyMatches lower keyPath) := by
  induction accounts with
  | nil => rfl
  | cons acc rest ih =>
    cases hs : acc.SSH with
    | none => simp [CheckSSHKeyDuplicate, List.find?, sshKeyMatches, hs, ih]
    | some sshCfg =>
      by_cases h₁ : sshCfg.KeyPath = "" <;>
      by_cases h₂ : normalizePath lower sshCfg.KeyPath = normalizePath lower keyPath <;>
      simp [CheckSSHKeyDuplicate, List.find?, sshKeyMatches, hs, h₁, h₂, ih]

theorem CheckTokenDuplicate_eq_find (EqualFold : String → String → Bool)
    (accounts : List Account) (username platform : String) :
    CheckTokenDuplicate EqualFold accounts username platform
      = accounts.find? (tokenMatches EqualFold username platform) := by
  induction accounts with
  | nil => rfl
  | cons acc rest ih =>
    cases ht : acc.Token with
    | none => simp [CheckTokenDuplicate, List.find?, tokenMatches, ht, ih]
    | some tok =>
      by_cases h₁ : EqualFold tok.Username username = true <;>
      by_cases h₂ : EqualFold (platformTypeOf acc.Platform) platform = true <;>
      simp [CheckTokenDuplicate, List.find?, tokenMatches, ht, h₁, h₂, ih]

/-- First match of a list search, as a split of the list. -/
theorem find?_some_iff_split {α : Type} (p : α → Bool) (l : List α) (a : α) :
    l.find? p = some a
      ↔ ∃ pre post, l = pre ++ a :: post ∧ p a = true ∧ ∀ x ∈ pre, p x = false := by
  rw [List.find?_eq_some]
  constructor
  · rintro ⟨ha, pre, post, hl, hpre⟩
    exact ⟨pre, post, hl, ha, fun x hx => by simpa using hpre x hx⟩
  · rintro ⟨pre, post, hl, ha, hpre⟩
    exact ⟨ha, pre, post, hl, fun x hx => by simpa using hpre x hx⟩

theorem find?_none_iff_all {α : Type} (p : α → Bool) (l : List α) :
    l.find? p = none ↔ ∀ x ∈ l, p x = false := by
  simp

/-! ## Validation of a candidate -/

theorem validateEmail_fst (EqualFold : String → String → Bool) (accounts : List Account)
    (account : Account) (pt : String) (r : ValidationResult) :
    (validateEmail EqualFold accounts account pt r).IsValid = r.IsValid
      ∧ (validateEmail EqualFold accounts account pt r).Errors = r.Errors := by
  unfold validateEmail
  split
  · split <;> simp
  · simp

theorem validateSSHKey_fst (lower : Char → Char) (accounts : List Account) (account : Account)
    (r : ValidationResult) :
    (validateSSHKey lower accounts account r).IsValid = r.IsValid
      ∧ (validateSSHKey lower accounts account r).Errors = r.Errors := by
  unfold validateSSHKey
  split
  · split
    · split <;> simp
    · simp
  · simp

theorem validateToken_fst (EqualFold : String → String → Bool) (accounts : List Account)
    (account : Account) (pt : String) (r : ValidationResult) :
    (validateToken EqualFold accounts account pt r).IsValid = r.IsValid
      ∧ (validateToken EqualFold accounts account pt r).Errors = r.Errors := by
  unfold validateToken
  split
  · split
    · split <;> simp
    · simp
  · simp

theorem validateEmail_Warnings (EqualFold : String → String → Bool)
    (accounts : List Account) (account : Account) (pt : String) (r : ValidationResult) :
    (validateEmail EqualFold accounts account pt r).Warnings
      = r.Warnings ++
        (if account.GitEmail ≠ "" then
          match CheckEmailDuplicate EqualFold accounts account.GitEmail pt with
          | some conflictAcc =>
            ["Email \x27" ++ account.GitEmail ++ "\x27 is already used by account \x27"
              ++ conflictAcc.Name ++ "\x27 on " ++ pt]
          | none => []
        else []) := by
  unfold validateEmail
  split
  · split <;> simp
  · simp

theorem validateSSHKey_Warnings (lower : Char → Char) (accounts : List Account)
    (account : Account) (r : ValidationResult) :
    (validateSSHKey lower accounts account r).Warnings
      = r.Warnings ++
        (match account.SSH with
          | some sshCfg =>
            if sshCfg.KeyPath ≠ "" then
              match CheckSSHKeyDuplicate lower accounts sshCfg.KeyPath with
              | some conflictAcc =>
                ["SSH key \x27" ++ sshCfg.KeyPath ++ "\x27 is already used by account \x27"
                  ++ conflictAcc.Name ++ "\x27"]
              | none => []
            else []
          | none => []) := by
  unfold validateSSHKey
  split
  · split
    · split <;> simp
    · simp
  · simp

theorem validateToken_Warnings (EqualFold : String → String → Bool)
    (accounts : List Account) (account : Account) (pt : String) (r : ValidationResult) :
    (validateToken EqualFold accounts account pt r).Warnings
      = r.Warnings ++
        (match account.Token with
          | some tok =>
            if tok.Username ≠ "" then
              match CheckTokenDuplicate EqualFold accounts tok.Username pt with
              | some conflictAcc =>
                ["Token username \x27" ++ tok.Username
                  ++ "\x27 is already used by account \x27"
                  ++ conflictAcc.Name ++ "\x27 on " ++ pt]
              | none => []
            else []
          | none => []) := by
  unfold validateToken
  split
  · split
    · split <;> simp
    · simp
  · simp

theorem platformTypeOf_eq (platform : Option PlatformConfig) :
    (platform = none → platformTypeOf platform = "github")
      ∧ (∀ p, platform = some p → p.Type_ = "" → platformTypeOf platform = "github")
      ∧ (∀ p, platform = some p → p.Type_ ≠ "" → platformTypeOf platform = p.Type_) := by
  refine ⟨?_, ?_, ?_⟩
  · rintro rfl
    rfl
  · rintro p rfl hp
    simp [platformTypeOf, hp]
  · rintro p rfl hp
    simp [platformTypeOf, hp]

theorem ValidateNew_IsValid (lower : Char → Char) (EqualFold : String → String → Bool)
    (accounts : List Account) (account : Account) :
    (ValidateNew EqualFold lower accounts account).IsValid
      = !CheckNameDuplicate EqualFold accounts account.Name := by
  simp only [ValidateNew]
  rw [(validateToken_fst _ _ _ _ _).1, (validateSSHKey_fst lower _ _ _).1,
    (validateEmail_fst _ _ _ _ _).1]
  unfold validateName
  split <;> simp_all

theorem ValidateNew_Errors (lower : Char → Char) (EqualFold : String → String → Bool)
    (accounts : List Account) (account : Account) :
    (ValidateNew EqualFold lower accounts account).Errors
      = if CheckNameDuplicate EqualFold accounts account.Name then
          ["Account name \x27" ++ account.Name ++ "\x27 already exists"]
        else [] := by
  simp only [ValidateNew]
  rw [(validateToken_fst _ _ _ _ _).2, (validateSSHKey_fst lower _ _ _).2,
    (validateEmail_fst _ _ _ _ _).2]
  unfold validateName
  split <;> simp_all

theorem ValidateNew_Warnings (lower : Char → Char) (EqualFold : String → String → Bool)
    (accounts : List Account) (account : Account) :
    (ValidateNew EqualFold lower accounts account).Warnings
      = (if account.GitEmail ≠ "" then
          match CheckEmailDuplicate EqualFold accounts account.GitEmail
              (platformTypeOf account.Platform) with
          | some conflictAcc =>
            ["Email \x27" ++ account.GitEmail ++ "\x27 is already used by account \x27"
              ++ conflictAcc.Name ++ "\x27 on " ++ platformTypeOf account.Platform]
          | none => []
        else [])
        ++ (match account.SSH with
          | some sshCfg =>
            if sshCfg.KeyPath ≠ "" then
              match CheckSSHKeyDuplicate lower accounts sshCfg.KeyPath with
              | some conflictAcc =>
                ["SSH key \x27" ++ sshCfg.KeyPath ++ "\x27 is already used by account \x27"
                  ++ conflictAcc.Name ++ "\x27"]
              | none => []
            else []
          | none => [])
        ++ (match account.Token with
          | some tok =>
            if tok.Username ≠ "" then
              match CheckTokenDuplicate EqualFold accounts tok.Username
                  (platformTypeOf account.Platform) with
              | some conflictAcc =>
                ["Token username \x27" ++ tok.Username
                  ++ "\x27 is already used by account \x27"
                  ++ conflictAcc.Name ++ "\x27 on " ++ platformTypeOf account.Platform]
              | none => []
            else []
          | none => []) := by
  have h₀ : (validateName EqualFold accounts account
      { IsValid := true, Errors := [], Warnings := [] }).Warnings = [] := by
    unfold validateName
    split <;> rfl
  simp only [ValidateNew]
  rw [validateToken_Warnings, validateSSHKey_Warnings, validateEmail_Warnings, h₀,
    List.nil_append]

/-- C1. `ValidateNew` returns `IsValid = false` exactly when some existing
account has a name fold-equal to the candidate's; then `Errors` has exactly one
entry, otherwise it is empty. Validity and errors are those of every candidate
with the same name, whatever its user name, email, SSH config, token config
and platform are. Collisions of these only reach `Warnings`: the list holds,
in this order, one warning when the email is not empty and
`CheckEmailDuplicate` finds an account on the candidate's platform, one when
the SSH key path is not empty and `CheckSSHKeyDuplicate` finds an account, and
one when the token username is not empty and `CheckTokenDuplicate` finds an
account on the candidate's platform, each naming the account found. The
platform of the candidate is `github` when it has none or one without a
type. -/
theorem ValidateNew_invalid_iff_name_collision (lower : Char → Char)
    (EqualFold : String → String → Bool) (accounts : List Account) (account : Account) :
    ((ValidateNew EqualFold lower accounts account).IsValid = false
        ↔ ∃ acc ∈ accounts, EqualFold acc.Name account.Name = true)
      ∧ ((ValidateNew EqualFold lower accounts account).Errors.length
          = if (ValidateNew EqualFold lower accounts account).IsValid = false then 1 else 0)
      ∧ (∀ (gitUserName gitEmail : String) (sshCfg : Option SshConfig)
            (tok : Option TokenConfig) (platform : Option PlatformConfig),
          (ValidateNew EqualFold lower accounts
              { Name := account.Name, GitUserName := gitUserName, GitEmail := gitEmail,
                SSH := sshCfg, Token := tok, Platform := platform }).IsValid
              = (ValidateNew EqualFold lower accounts account).IsValid
            ∧ (ValidateNew EqualFold lower accounts
              { Name := account.Name, GitUserName := gitUserName, GitEmail := gitEmail,
                SSH := sshCfg, Token := tok, Platform := platform }).Errors
              = (ValidateNew EqualFold lower accounts account).Errors)
      ∧ (ValidateNew EqualFold lower accounts account).Warnings
          = (if account.GitEmail ≠ "" then
              match CheckEmailDuplicate EqualFold accounts account.GitEmail
                  (platformTypeOf account.Platform) with
              | some conflictAcc =>
                ["Email \x27" ++ account.GitEmail ++ "\x27 is already used by account \x27"
                  ++ conflictAcc.Name ++ "\x27 on " ++ platformTypeOf account.Platform]
              | none => []
            else [])
            ++ (match account.SSH with
              | some sshCfg =>
                if sshCfg.KeyPath ≠ "" then
                  match CheckSSHKeyDuplicate lower accounts sshCfg.KeyPath with
                  | some conflictAcc =>
                    ["SSH key \x27" ++ sshCfg.KeyPath
                      ++ "\x27 is already used by account \x27" ++ conflictAcc.Name ++ "\x27"]
                  | none => []
                else []
              | none => [])
            ++ (match account.Token with
              | some tok =>
                if tok.Username ≠ "" then
                  match CheckTokenDuplicate EqualFold accounts tok.Username
                      (platformTypeOf account.Platform) with
                  | some conflictAcc =>
                    ["Token username \x27" ++ tok.Username
                      ++ "\x27 is already used by account \x27"
                      ++ conflictAcc.Name ++ "\x27 on " ++ platformTypeOf account.Platform]
                  | none => []
                else []
              | none => [])
      ∧ ((account.Platform = none → platformTypeOf account.Platform = "github")
          ∧ (∀ p, account.Platform = some p → p.Type_ = "" →
              platformTypeOf account.Platform = "github")
          ∧ (∀ p, account.Platform = some p → p.Type_ ≠ "" →
              platformTypeOf account.Platform = p.Type_)) := by
  refine ⟨?_, ?_, ?_, ?_, platformTypeOf_eq account.Platform⟩
  · rw [ValidateNew_IsValid, ← CheckNameDuplicate_iff]
    simp
  · rw [ValidateNew_IsValid, ValidateNew_Errors]
    cases CheckNameDuplicate EqualFold accounts account.Name <;> simp
  · intro gitUserName gitEmail sshCfg tok platform
    simp only [ValidateNew_IsValid, ValidateNew_Errors]
    exact ⟨trivial, trivial⟩
  · rw [ValidateNew_Warnings]

/-! ## Duplicate checks -/

/-- C7. `CheckEmailDuplicate` returns the first account in list order whose
email is fold-equal to `email` and whose platform type is fold-equal to
`platform`; it returns nil exactly when no account satisfies both, so it
returns nil whenever no account with that email is on that platform. The
platform type of an account is `github` when its platform is absent or has an
empty type, and the type of its platform otherwise. -/
theorem CheckEmailDuplicate_first_match (EqualFold : String → String → Bool)
    (accounts : List Account) (email platform : String) :
    (∀ acc : Account,
        CheckEmailDuplicate EqualFold accounts email platform = some acc
          ↔ ∃ pre post, accounts = pre ++ acc :: post
              ∧ (EqualFold acc.GitEmail email = true
                  ∧ EqualFold (platformTypeOf acc.Platform) platform = true)
              ∧ ∀ x ∈ pre, ¬ (EqualFold x.GitEmail email = true
                  ∧ EqualFold (platformTypeOf x.Platform) platform = true))
      ∧ (CheckEmailDuplicate EqualFold accounts email platform = none
          ↔ ∀ x ∈ accounts, ¬ (EqualFold x.GitEmail email = true
              ∧ EqualFold (platformTypeOf x.Platform) platform = true))
      ∧ ((∀ x ∈ accounts, EqualFold x.GitEmail email = true →
            EqualFold (platformTypeOf x.Platform) platform = false) →
          CheckEmailDuplicate EqualFold accounts email platform = none)
      ∧ (∀ x : Account,
          (x.Platform = none → platformTypeOf x.Platform = "github")
            ∧ (∀ p, x.Platform = some p → p.Type_ = "" →
                platformTypeOf x.Platform = "github")
            ∧ (∀ p, x.Platform = some p → p.Type_ ≠ "" →
                platformTypeOf x.Platform = p.Type_)) := by
  have hnone : CheckEmailDuplicate EqualFold accounts email platform = none
      ↔ ∀ x ∈ accounts, ¬ (EqualFold x.GitEmail email = true
          ∧ EqualFold (platformTypeOf x.Platform) platform = true) := by
    rw [CheckEmailDuplicate_eq_find, find?_none_iff_all]
    simp
  refine ⟨?_, hnone, ?_, fun x => platformTypeOf_eq x.Platform⟩
  · intro acc
    rw [CheckEmailDuplicate_eq_find, find?_some_iff_split]
    simp
  · intro h
    rw [hnone]
    intro x hx hboth
    have := h x hx hboth.1
    rw [hboth.2] at this
    exact Bool.noConfusion this

theorem sshKeyMatches_iff (lower : Char → Char) (keyPath : String) (acc : Account) :
    sshKeyMatches lower keyPath acc = true
      ↔ ∃ sshCfg, acc.SSH = some sshCfg ∧ sshCfg.KeyPath ≠ ""
          ∧ normalizePath lower sshCfg.KeyPath = normalizePath lower keyPath := by
  unfold sshKeyMatches
  cases acc.SSH with
  | none => simp
  | some sshCfg => simp

theorem tokenMatches_iff (EqualFold : String → String → Bool) (username platform : String)
    (acc : Account) :
    tokenMatches EqualFold username platform acc = true
      ↔ ∃ tok, acc.Token = some tok ∧ EqualFold tok.Username username = true
          ∧ EqualFold (platformTypeOf acc.Platform) platform = true := by
  unfold tokenMatches
  cases acc.Token with
  | none => simp
  | some tok => simp

theorem normalizePath_data (lower : Char → Char) (path : String) :
    (normalizePath lower path).data
      = path.data.map (fun c => if lower c = '\\' then '/' else lower c) := by
  simp [normalizePath, ReplaceAllChar, ToLower, List.map_map, Function.comp_def]

theorem normalizeChar_congr (lower : Char → Char) (hb : lower '\\' = '\\')
    (hs : lower '/' = '/') (c d : Char) (h : sameUpToCaseOrSeparator lower c d) :
    (if lower c = '\\' then '/' else lower c)
      = (if lower d = '\\' then '/' else lower d) := by
  rcases h with h | ⟨hc, hd⟩
  · rw [h]
  · rcases hc with rfl | rfl <;> rcases hd with rfl | rfl <;> simp [hb, hs]

theorem map_normalizeChar_congr (lower : Char → Char) (hb : lower '\\' = '\\')
    (hs : lower '/' = '/') (l₁ l₂ : List Char)
    (h : List.Forall₂ (sameUpToCaseOrSeparator lower) l₁ l₂) :
    l₁.map (fun c => if lower c = '\\' then '/' else lower c)
      = l₂.map (fun c => if lower c = '\\' then '/' else lower c) := by
  induction h with
  | nil => rfl
  | cons hcd _ ih => simp only [List.map_cons, normalizeChar_congr lower hb hs _ _ hcd, ih]

theorem normalizePath_congr (lower : Char → Char) (hb : lower '\\' = '\\')
    (hs : lower '/' = '/') (p q : String)
    (h : List.Forall₂ (sameUpToCaseOrSeparator lower) p.data q.data) :
    normalizePath lower p = normalizePath lower q := by
  have hd : (normalizePath lower p).data = (normalizePath lower q).data := by
    rw [normalizePath_data, normalizePath_data]
    exact map_normalizeChar_congr lower hb hs _ _ h
  exact String.ext hd

theorem normalizePath_length (lower : Char → Char) (p : String) :
    (normalizePath lower p).data.length = p.data.length := by
  rw [normalizePath_data, List.length_map]

/-- C8. `CheckSSHKeyDuplicate` returns the first account in list order that has
an SSH config with a non-empty key path whose normalized form equals the
normalized form of `keyPath`, and nil when there is none. The normalized form
maps every rune to its lower case and then turns every backslash into a
slash. So, for a rune map that keeps the backslash and the slash, as
`unicode.ToLower` does, two paths that agree rune by rune up to letter case
and separator style match; `~/.ssh/k` and `/home/u/.ssh/k` do not. -/
theorem CheckSSHKeyDuplicate_first_match (lower : Char → Char) (accounts : List Account)
    (keyPath : String) :
    (∀ acc : Account,
        CheckSSHKeyDuplicate lower accounts keyPath = some acc
          ↔ ∃ pre post, accounts = pre ++ acc :: post
              ∧ (∃ sshCfg, acc.SSH = some sshCfg ∧ sshCfg.KeyPath ≠ ""
                  ∧ normalizePath lower sshCfg.KeyPath = normalizePath lower keyPath)
              ∧ ∀ x ∈ pre, ¬ ∃ sshCfg, x.SSH = some sshCfg ∧ sshCfg.KeyPath ≠ ""
                  ∧ normalizePath lower sshCfg.KeyPath = normalizePath lower keyPath)
      ∧ (CheckSSHKeyDuplicate lower accounts keyPath = none
          ↔ ∀ x ∈ accounts, ¬ ∃ sshCfg, x.SSH = some sshCfg ∧ sshCfg.KeyPath ≠ ""
              ∧ normalizePath lower sshCfg.KeyPath = normalizePath lower keyPath)
      ∧ (normalizePath lower keyPath).data
          = keyPath.data.map (fun c => if lower c = '\\' then '/' else lower c)
      ∧ (lower '\\' = '\\' → lower '/' = '/' → ∀ other : String,
          List.Forall₂ (sameUpToCaseOrSeparator lower) keyPath.data other.data →
            normalizePath lower keyPath = normalizePath lower other)
      ∧ normalizePath lower "~/.ssh/k" ≠ normalizePath lower "/home/u/.ssh/k" := by
  refine ⟨?_, ?_, normalizePath_data lower keyPath,
    fun hb hs other h => normalizePath_congr lower hb hs keyPath other h, ?_⟩
  · intro acc
    rw [CheckSSHKeyDuplicate_eq_find, find?_some_iff_split]
    simp only [← sshKeyMatches_iff, Bool.not_eq_true]
  · rw [CheckSSHKeyDuplicate_eq_find, find?_none_iff_all]
    simp only [← sshKeyMatches_iff, Bool.not_eq_true]
  · intro h
    have hlen := congrArg (fun s : String => s.data.length) h
    simp only [normalizePath_length] at hlen
    exact absurd hlen (by decide)

/-- C9. `CheckTokenDuplicate` returns the first account in list order that has
a token config whose username is fold-equal to `username` and whose platform
type is fold-equal to `platform`, and nil exactly when there is none; the
account returned always has a token config. The platform type of an account
is `github` when its platform is absent or has an empty type, and the type of
its platform otherwise. -/
theorem CheckTokenDuplicate_first_match (EqualFold : String → String → Bool)
    (accounts : List Account) (username platform : String) :
    (∀ acc : Account,
        CheckTokenDuplicate EqualFold accounts username platform = some acc
          ↔ ∃ pre post, accounts = pre ++ acc :: post
              ∧ (∃ tok, acc.Token = some tok ∧ EqualFold tok.Username username = true
                  ∧ EqualFold (platformTypeOf acc.Platform) platform = true)
              ∧ ∀ x ∈ pre, ¬ ∃ tok, x.Token = some tok
                  ∧ EqualFold tok.Username username = true
                  ∧ EqualFold (platformTypeOf x.Platform) platform = true)
      ∧ (CheckTokenDuplicate EqualFold accounts username platform = none
          ↔ ∀ x ∈ accounts, ¬ ∃ tok, x.Token = some tok
              ∧ EqualFold tok.Username username = true
              ∧ EqualFold (platformTypeOf x.Platform) platform = true)
      ∧ (∀ acc : Account,
          CheckTokenDuplicate EqualFold accounts username platform = some acc
            → acc.Token ≠ none)
      ∧ (∀ x : Account,
          (x.Platform = none → platformTypeOf x.Platform = "github")
            ∧ (∀ p, x.Platform = some p → p.Type_ = "" →
                platformTypeOf x.Platform = "github")
            ∧ (∀ p, x.Platform = some p → p.Type_ ≠ "" →
                platformTypeOf x.Platform = p.Type_)) := by
  have hsome : ∀ acc : Account,
      CheckTokenDuplicate EqualFold accounts username platform = some acc
        ↔ ∃ pre post, accounts = pre ++ acc :: post
            ∧ (∃ tok, acc.Token = some tok ∧ EqualFold tok.Username username = true
                ∧ EqualFold (platformTypeOf acc.Platform) platform = true)
            ∧ ∀ x ∈ pre, ¬ ∃ tok, x.Token = some tok
                ∧ EqualFold tok.Username username = true
                ∧ EqualFold (platformTypeOf x.Platform) platform = true := by
    intro acc
    rw [CheckTokenDuplicate_eq_find, find?_some_iff_split]
    simp only [← tokenMatches_iff, Bool.not_eq_true]
  refine ⟨hsome, ?_, ?_, fun x => platformTypeOf_eq x.Platform⟩
  · rw [CheckTokenDuplicate_eq_find, find?_none_iff_all]
    simp only [← tokenMatches_iff, Bool.not_eq_true]
  · intro acc h
    obtain ⟨_, _, _, ⟨tok, htok, _⟩, _⟩ := (hsome acc).1 h
    rw [htok]
    exact Option.noConfusion

theorem CheckNameDuplicate_pair (EqualFold : String → String → Bool) (a₁ a₂ : Account)
    (name : String) (h₁ : EqualFold a₁.Name name = false)
    (h₂ : EqualFold a₂.Name name = false) :
    CheckNameDuplicate EqualFold [a₁, a₂] name = false := by
  simp [CheckNameDuplicate, h₁, h₂]

/-- C2 (amended). Two stored accounts share one email. A candidate with a new
name, that same email, no SSH config and no token config is valid with no
warning when its platform type is fold-different from both stored platform
types; when its email is not empty and its platform type equals one of theirs
it is valid with exactly one warning (for a reflexive comparison, as
`strings.EqualFold` is). -/
theorem ValidateNew_same_email_scoped_by_platform (lower : Char → Char)
    (EqualFold : String → String → Bool)
    (a₁ a₂ candidate : Account)
    (hshare : a₁.GitEmail = a₂.GitEmail)
    (hname₁ : EqualFold a₁.Name candidate.Name = false)
    (hname₂ : EqualFold a₂.Name candidate.Name = false)
    (hemail : candidate.GitEmail = a₁.GitEmail)
    (hssh : candidate.SSH = none) (htoken : candidate.Token = none) :
    ((EqualFold (platformTypeOf a₁.Platform) (platformTypeOf candidate.Platform) = false
        ∧ EqualFold (platformTypeOf a₂.Platform) (platformTypeOf candidate.Platform) = false) →
        (ValidateNew EqualFold lower [a₁, a₂] candidate).Warnings = []
          ∧ (ValidateNew EqualFold lower [a₁, a₂] candidate).IsValid = true)
      ∧ ((∀ s, EqualFold s s = true) → candidate.GitEmail ≠ "" →
          (platformTypeOf candidate.Platform = platformTypeOf a₁.Platform
            ∨ platformTypeOf candidate.Platform = platformTypeOf a₂.Platform) →
          (ValidateNew EqualFold lower [a₁, a₂] candidate).Warnings.length = 1
            ∧ (ValidateNew EqualFold lower [a₁, a₂] candidate).IsValid = true) := by
  have hvalid : (ValidateNew EqualFold lower [a₁, a₂] candidate).IsValid = true := by
    rw [ValidateNew_IsValid, CheckNameDuplicate_pair _ _ _ _ hname₁ hname₂]
    rfl
  have hname : CheckNameDuplicate EqualFold [a₁, a₂] candidate.Name = false :=
    CheckNameDuplicate_pair _ _ _ _ hname₁ hname₂
  refine ⟨?_, ?_⟩
  · rintro ⟨hp₁, hp₂⟩
    refine ⟨?_, hvalid⟩
    simp [ValidateNew, validateName, validateEmail, validateSSHKey, validateToken,
      hname, hssh, htoken, CheckEmailDuplicate, hp₁, hp₂]
  · intro hrefl hne hp
    refine ⟨?_, hvalid⟩
    have he₁ : EqualFold a₁.GitEmail candidate.GitEmail = true := by
      rw [hemail]; exact hrefl _
    have he₂ : EqualFold a₂.GitEmail candidate.GitEmail = true := by
      rw [hemail, hshare]; exact hrefl _
    rcases hp with hp | hp
    · simp [ValidateNew, validateName, validateEmail, validateSSHKey, validateToken,
        hname, hssh, htoken, CheckEmailDuplicate, hne, he₁, he₂, hp, hrefl]
    · by_cases h₁ : EqualFold (platformTypeOf a₁.Platform)
          (platformTypeOf candidate.Platform) = true
      · simp [ValidateNew, validateName, validateEmail, validateSSHKey, validateToken,
          hname, hssh, htoken, CheckEmailDuplicate, hne, he₁, he₂, h₁]
      · rw [hp] at h₁
        simp [ValidateNew, validateName, validateEmail, validateSSHKey, validateToken,
          hname, hssh, htoken, CheckEmailDuplicate, hne, he₁, he₂, hp, h₁, hrefl]

/-! ## Account manager -/

theorem removeFirstMatch_none (EqualFold : String → String → Bool)
    (accounts : List Account) (name : String)
    (h : ∀ x ∈ accounts, EqualFold x.Name name = false) :
    removeFirstMatch EqualFold accounts name = none := by
  induction accounts with
  | nil => rfl
  | cons acc rest ih =>
    have hacc : EqualFold acc.Name name = false := h acc (List.mem_cons_self _ _)
    have hrest := ih (fun x hx => h x (List.mem_cons_of_mem _ hx))
    simp [removeFirstMatch, hacc, hrest]

theorem removeFirstMatch_some (EqualFold : String → String → Bool)
    (accounts : List Account) (name : String)
    (h : ∃ x ∈ accounts, EqualFold x.Name name = true) :
    ∃ pre a post, accounts = pre ++ a :: post ∧ EqualFold a.Name name = true
      ∧ (∀ x ∈ pre, EqualFold x.Name name = false)
      ∧ removeFirstMatch EqualFold accounts name = some (pre ++ post) := by
  induction accounts with
  | nil => obtain ⟨x, hx, _⟩ := h; cases hx
  | cons acc rest ih =>
    by_cases hacc : EqualFold acc.Name name = true
    · refine ⟨[], acc, rest, rfl, hacc, ?_, ?_⟩
      · intro x hx
        cases hx
      · simp [removeFirstMatch, hacc]
    · have hrest : ∃ x ∈ rest, EqualFold x.Name name = true := by
        obtain ⟨x, hx, hxn⟩ := h
        rcases List.mem_cons.1 hx with rfl | hx
        · exact absurd hxn hacc
        · exact ⟨x, hx, hxn⟩
      obtain ⟨pre, a, post, hsplit, ha, hpre, hrem⟩ := ih hrest
      refine ⟨acc :: pre, a, post, by rw [hsplit]; rfl, ha, ?_, ?_⟩
      · intro x hx
        rcases List.mem_cons.1 hx with rfl | hx
        · simpa using hacc
        · exact hpre x hx
      · simp [removeFirstMatch, hacc, hrem]

theorem Find_eq_find (EqualFold : String → String → Bool)
    (accounts : List Account) (name : String) :
    AccountManager.Find EqualFold accounts name
      = accounts.find? (fun acc => EqualFold acc.Name name) := by
  induction accounts with
  | nil => rfl
  | cons acc rest ih =>
    by_cases h : EqualFold acc.Name name = true <;>
    simp [AccountManager.Find, List.find?, h, ih]

/-- C3. When `Add(A)` succeeds and the name of `B` is fold-equal to the name
of `A`, a following `Add(B)` fails with the duplicate-name error and leaves the
account list as it was; `Add` of an account whose name is fold-equal to no
stored name succeeds and puts it last, the others keeping their order. -/
theorem Add_rejects_duplicate_name_else_appends (EqualFold : String → String → Bool)
    (accounts : List Account) (A B : Account) :
    (∀ accounts' : List Account,
        AccountManager.Add EqualFold accounts A = (none, accounts') →
        EqualFold A.Name B.Name = true →
        AccountManager.Add EqualFold accounts' B
          = (some (ManagerError.DuplicateNameError B.Name), accounts'))
      ∧ ((∀ acc ∈ accounts, EqualFold acc.Name A.Name = false) →
          AccountManager.Add EqualFold accounts A = (none, accounts ++ [A])) := by
  constructor
  · intro accounts' hadd hAB
    unfold AccountManager.Add at hadd
    split at hadd
    · simp at hadd
    · have hacc : accounts' = accounts ++ [A] := by
        simpa using (congrArg Prod.snd hadd).symm
      subst hacc
      have : (accounts ++ [A]).any (fun acc => EqualFold acc.Name B.Name) = true := by
        simp [hAB]
      simp [AccountManager.Add, this]
  · intro h
    have : accounts.any (fun acc => EqualFold acc.Name A.Name) = false := by
      simpa using h
    simp [AccountManager.Add, this]

theorem Remove_splits (EqualFold : String → String → Bool)
    (accounts : List Account) (name : String)
    (h : ∃ x ∈ accounts, EqualFold x.Name name = true) :
    ∃ pre a post, accounts = pre ++ a :: post
      ∧ EqualFold a.Name name = true
      ∧ (∀ x ∈ pre, EqualFold x.Name name = false)
      ∧ AccountManager.Remove EqualFold accounts name = (none, pre ++ post) := by
  obtain ⟨pre, a, post, hsplit, ha, hpre, hrem⟩ :=
    removeFirstMatch_some EqualFold accounts name h
  exact ⟨pre, a, post, hsplit, ha, hpre, by simp [AccountManager.Remove, hrem]⟩

/-- C4. In a store whose names are pairwise distinct under case folding,
`Remove(name)` with a name fold-equal to the name of a stored account deletes
exactly one entry: the entries before and after it remain in their order, one
fewer than before, and `Find(name)` then reports not found. `Remove` with a
name that matches no account returns the not-found error and leaves the
account list as it was. The comparison is symmetric and transitive, as
`strings.EqualFold` is. -/
theorem Remove_deletes_one_then_Find_none (EqualFold : String → String → Bool)
    (hsymm : ∀ s t, EqualFold s t = true → EqualFold t s = true)
    (htrans : ∀ s t u, EqualFold s t = true → EqualFold t u = true → EqualFold s u = true)
    (accounts : List Account) (hdistinct : namesDistinct EqualFold accounts)
    (name : String) :
    ((∃ x ∈ accounts, EqualFold x.Name name = true) →
        ∃ pre a post, accounts = pre ++ a :: post
          ∧ EqualFold a.Name name = true
          ∧ AccountManager.Remove EqualFold accounts name = (none, pre ++ post)
          ∧ (pre ++ post).length + 1 = accounts.length
          ∧ AccountManager.Find EqualFold (pre ++ post) name = none)
      ∧ ((∀ x ∈ accounts, EqualFold x.Name name = false) →
          AccountManager.Remove EqualFold accounts name
            = (some (ManagerError.NotFoundError name), accounts)) := by
  constructor
  · intro h
    obtain ⟨pre, a, post, hsplit, ha, hpre, hrem⟩ := Remove_splits EqualFold accounts name h
    refine ⟨pre, a, post, hsplit, ha, hrem, by rw [hsplit]; simp; omega, ?_⟩
    rw [Find_eq_find, find?_none_iff_all]
    intro x hx
    rcases List.mem_append.1 hx with hx | hx
    · exact hpre x hx
    · unfold namesDistinct at hdistinct
      rw [hsplit] at hdistinct
      have hax : EqualFold a.Name x.Name = false :=
        List.rel_of_pairwise_cons (List.pairwise_append.1 hdistinct).2.1 hx
      cases hxn : EqualFold x.Name name with
      | false => rfl
      | true =>
        rw [htrans _ _ _ ha (hsymm _ _ hxn)] at hax
        exact Bool.noConfusion hax
  · intro h
    simp [AccountManager.Remove, removeFirstMatch_none EqualFold accounts name h]

/-! ## Activity log and JSON round trip -/

theorem logAll_eq_append (log : List ActivityLogEntry)
    (calls : List (ActivityLogEntry × String)) :
    logAll log calls
      = log ++ calls.map (fun call => { call.1 with Timestamp := call.2 }) := by
  induction calls generalizing log with
  | nil => simp [logAll]
  | cons call rest ih =>
    have := ih (AccountManager.LogActivity log call.1 call.2)
    simp only [logAll, List.foldl_cons] at this ⊢
    rw [this]
    simp [AccountManager.LogActivity]

/-- C10. After the entries of `calls` have been logged one after the other
into an empty log, the log holds them in call order, each stamped with the
clock reading of its call. `GetRecentActivity(limit)` with `0 < limit` returns
the last `min(K, limit)` of these `K` entries, in that order; with
`limit <= 0` or `limit > K` it returns all `K` entries. -/
theorem GetRecentActivity_after_logging (calls : List (ActivityLogEntry × String))
    (limit : Int) :
    logAll [] calls = calls.map (fun call => { call.1 with Timestamp := call.2 })
      ∧ (0 < limit →
          AccountManager.GetRecentActivity (logAll [] calls) limit
              = (calls.map (fun call => { call.1 with Timestamp := call.2 })).drop
                  (calls.length - min calls.length limit.toNat)
            ∧ (AccountManager.GetRecentActivity (logAll [] calls) limit).length
              = min calls.length limit.toNat)
      ∧ ((limit ≤ 0 ∨ limit > (calls.length : Int)) →
          AccountManager.GetRecentActivity (logAll [] calls) limit
            = calls.map (fun call => { call.1 with Timestamp := call.2 })) := by
  have hlog : logAll [] calls
      = calls.map (fun call => { call.1 with Timestamp := call.2 }) := by
    rw [logAll_eq_append]; rfl
  refine ⟨hlog, ?_, ?_⟩
  · intro hpos
    rw [hlog]
    unfold AccountManager.GetRecentActivity
    simp only [List.length_map]
    split
    · rename_i h
      have hmin : min calls.length limit.toNat = calls.length := by omega
      simp [hmin]
    · rename_i h
      have hmin : min calls.length limit.toNat = limit.toNat := by omega
      simp only [hmin, List.length_drop, List.length_map, true_and]
      omega
  · intro h
    rw [hlog]
    unfold AccountManager.GetRecentActivity
    simp only [List.length_map]
    rw [if_pos h]

theorem unmarshalMembers_marshalString {α : Type}
    (setField : String → JSON → α → Except String α)
    (omitempty : Bool) (key v : String) (rest : List (String × JSON)) (x y : α)
    (hset : setField key (JSON.str v) x = Except.ok y) (hempty : v = "" → y = x) :
    unmarshalMembers setField (marshalString omitempty key v ++ rest) x
      = unmarshalMembers setField rest y := by
  unfold marshalString
  split
  · rename_i h
    have hv : v = "" := by
      simp only [Bool.and_eq_true, decide_eq_true_eq] at h
      exact h.2
    rw [hempty hv]
    rfl
  · simp only [List.singleton_append, unmarshalMembers, hset]
    rfl

theorem fieldFor_of_mem (EqualFold : String → String → Bool) (fields : List String)
    (key : String) (h : key ∈ fields) : fieldFor EqualFold fields key = some key := by
  unfold fieldFor
  cases hf : fields.find? (fun f => decide (f = key)) with
  | some f =>
    have := List.find?_some hf
    simp only [decide_eq_true_eq] at this
    rw [this]
  | none =>
    have := List.find?_eq_none.1 hf key h
    simp at this

theorem fieldFor_some (EqualFold : String → String → Bool) (fields : List String)
    (key field : String) (h : fieldFor EqualFold fields key = some field) :
    field ∈ fields ∧ (field = key ∨ EqualFold field key = true) := by
  unfold fieldFor at h
  cases hf : fields.find? (fun f => decide (f = key)) with
  | some f =>
    rw [hf] at h
    simp only [Option.some.injEq] at h
    subst h
    have := List.find?_some hf
    simp only [decide_eq_true_eq] at this
    exact ⟨List.mem_of_find?_eq_some hf, Or.inl this⟩
  | none =>
    rw [hf] at h
    simp only at h
    have hp := @List.find?_some _ (fun f => EqualFold f key) _ _ h
    exact ⟨List.mem_of_find?_eq_some h, Or.inr hp⟩

theorem fieldFor_fold (EqualFold : String → String → Bool) (fields : List String)
    (key field : String) (hkey : key ∉ fields)
    (h : fields.find? (fun f => EqualFold f key) = some field) :
    fieldFor EqualFold fields key = some field := by
  unfold fieldFor
  cases hf : fields.find? (fun f => decide (f = key)) with
  | some f =>
    have hmem := List.mem_of_find?_eq_some hf
    have := List.find?_some hf
    simp only [decide_eq_true_eq] at this
    rw [this] at hmem
    exact absurd hmem hkey
  | none => exact h

theorem SshConfig_unmarshal_marshal (EqualFold : String → String → Bool) (tags : OmitEmpty)
    (c : SshConfig) :
    unmarshalStructPtr (SshConfig.mk "" "") (SshConfig.setField EqualFold)
      (SshConfig.marshal tags c) none = Except.ok (some c) := by
  obtain ⟨kp, ha⟩ := c
  have k₁ := fieldFor_of_mem EqualFold ["keyPath", "hostAlias"] "keyPath" (by decide)
  have k₂ := fieldFor_of_mem EqualFold ["keyPath", "hostAlias"] "hostAlias" (by decide)
  simp only [SshConfig.marshal, unmarshalStructPtr, Option.getD]
  rw [unmarshalMembers_marshalString _ _ _ _ _ _ (SshConfig.mk kp "") (by
      simp [SshConfig.setField, k₁, unmarshalString, Except.map]) (by
      intro h; rw [h])]
  rw [← List.append_nil (marshalString tags.hostAlias "hostAlias" ha)]
  rw [unmarshalMembers_marshalString _ _ _ _ _ _ (SshConfig.mk kp ha) (by
      simp [SshConfig.setField, k₂, unmarshalString, Except.map]) (by
      intro h; rw [h])]
  rfl

theorem TokenConfig_unmarshal_marshal (EqualFold : String → String → Bool) (tags : OmitEmpty)
    (c : TokenConfig) :
    unmarshalStructPtr (TokenConfig.mk "" "") (TokenConfig.setField EqualFold)
      (TokenConfig.marshal tags c) none = Except.ok (some c) := by
  obtain ⟨us, tk⟩ := c
  have k₁ := fieldFor_of_mem EqualFold ["username", "token"] "username" (by decide)
  have k₂ := fieldFor_of_mem EqualFold ["username", "token"] "token" (by decide)
  simp only [TokenConfig.marshal, unmarshalStructPtr, Option.getD]
  rw [unmarshalMembers_marshalString _ _ _ _ _ _ (TokenConfig.mk us "") (by
      simp [TokenConfig.setField, k₁, unmarshalString, Except.map]) (by
      intro h; rw [h])]
  rw [← List.append_nil (marshalString tags.token "token" tk)]
  rw [unmarshalMembers_marshalString _ _ _ _ _ _ (TokenConfig.mk us tk) (by
      simp [TokenConfig.setField, k₂, unmarshalString, Except.map]) (by
      intro h; rw [h])]
  rfl

theorem PlatformConfig_unmarshal_marshal (EqualFold : String → String → Bool)
    (tags : OmitEmpty) (c : PlatformConfig) :
    unmarshalStructPtr (PlatformConfig.mk "" "" "") (PlatformConfig.setField EqualFold)
      (PlatformConfig.marshal tags c) none = Except.ok (some c) := by
  obtain ⟨ty, dm, au⟩ := c
  have k₁ := fieldFor_of_mem EqualFold ["type", "domain", "apiUrl"] "type" (by decide)
  have k₂ := fieldFor_of_mem EqualFold ["type", "domain", "apiUrl"] "domain" (by decide)
  have k₃ := fieldFor_of_mem EqualFold ["type", "domain", "apiUrl"] "apiUrl" (by decide)
  simp only [PlatformConfig.marshal, unmarshalStructPtr, Option.getD, List.append_assoc]
  rw [unmarshalMembers_marshalString _ _ _ _ _ _ (PlatformConfig.mk ty "" "") (by
      simp [PlatformConfig.setField, k₁, unmarshalString, Except.map]) (by
      intro h; rw [h])]
  rw [unmarshalMembers_marshalString _ _ _ _ _ _ (PlatformConfig.mk ty dm "") (by
      simp [PlatformConfig.setField, k₂, unmarshalString, Except.map]) (by
      intro h; rw [h])]
  rw [← List.append_nil (marshalString tags.apiUrl "apiUrl" au)]
  rw [unmarshalMembers_marshalString _ _ _ _ _ _ (PlatformConfig.mk ty dm au) (by
      simp [PlatformConfig.setField, k₃, unmarshalString, Except.map]) (by
      intro h; rw [h])]
  rfl

theorem unmarshalMembers_marshalPtr {α β : Type}
    (setField : String → JSON → α → Except String α)
    (key : String) (marshal : β → JSON) (v : Option β)
    (rest : List (String × JSON)) (x : α) (put : Option β → α)
    (hset : ∀ b, v = some b → setField key (marshal b) x = Except.ok (put (some b)))
    (hnone : put none = x) :
    unmarshalMembers setField (marshalPtr key marshal v ++ rest) x
      = unmarshalMembers setField rest (put v) := by
  cases v with
  | none => rw [hnone]; rfl
  | some b =>
    simp only [marshalPtr, List.singleton_append, unmarshalMembers, hset b rfl]
    rfl

theorem AccountFromJSON_marshal (EqualFold : String → String → Bool) (tags : OmitEmpty)
    (a : Account) :
    AccountFromJSON EqualFold (Account.marshal tags a) = Except.ok a := by
  obtain ⟨nm, un, em, sshCfg, tok, plat⟩ := a
  have k₁ := fieldFor_of_mem EqualFold
    ["name", "gitUserName", "gitEmail", "ssh", "token", "platform"] "name" (by decide)
  have k₂ := fieldFor_of_mem EqualFold
    ["name", "gitUserName", "gitEmail", "ssh", "token", "platform"] "gitUserName" (by decide)
  have k₃ := fieldFor_of_mem EqualFold
    ["name", "gitUserName", "gitEmail", "ssh", "token", "platform"] "gitEmail" (by decide)
  have k₄ := fieldFor_of_mem EqualFold
    ["name", "gitUserName", "gitEmail", "ssh", "token", "platform"] "ssh" (by decide)
  have k₅ := fieldFor_of_mem EqualFold
    ["name", "gitUserName", "gitEmail", "ssh", "token", "platform"] "token" (by decide)
  have k₆ := fieldFor_of_mem EqualFold
    ["name", "gitUserName", "gitEmail", "ssh", "token", "platform"] "platform" (by decide)
  simp only [AccountFromJSON, Account.marshal, unmarshalStruct, Account.zero,
    List.append_assoc]
  rw [unmarshalMembers_marshalString _ _ _ _ _ _ (Account.mk nm "" "" none none none) (by
      simp [Account.setField, k₁, unmarshalString, Except.map]) (by
      intro h; rw [h])]
  rw [unmarshalMembers_marshalString _ _ _ _ _ _ (Account.mk nm un "" none none none) (by
      simp [Account.setField, k₂, unmarshalString, Except.map]) (by
      intro h; rw [h])]
  rw [unmarshalMembers_marshalString _ _ _ _ _ _ (Account.mk nm un em none none none) (by
      simp [Account.setField, k₃, unmarshalString, Except.map]) (by
      intro h; rw [h])]
  rw [unmarshalMembers_marshalPtr _ _ _ _ _ _
      (fun v => Account.mk nm un em v none none) (by
      intro b _
      simp [Account.setField, k₄, SshConfig_unmarshal_marshal, Except.map]) rfl]
  rw [unmarshalMembers_marshalPtr _ _ _ _ _ _
      (fun v => Account.mk nm un em sshCfg v none) (by
      intro b _
      simp [Account.setField, k₅, TokenConfig_unmarshal_marshal, Except.map]) rfl]
  rw [← List.append_nil (marshalPtr "platform" (PlatformConfig.marshal tags) plat)]
  rw [unmarshalMembers_marshalPtr _ _ _ _ _ _
      (fun v => Account.mk nm un em sshCfg tok v) (by
      intro b _
      simp [Account.setField, k₆, PlatformConfig_unmarshal_marshal, Except.map]) rfl]
  rfl

theorem Account_Equals_self (a : Account) : Account.Equals (some a) (some a) = true := by
  obtain ⟨nm, un, em, sshCfg, tok, plat⟩ := a
  cases sshCfg <;> cases tok <;> cases plat <;> simp [Account.Equals]

/-- C5. For every account, and so for every account whose SSH, token and
platform sub-objects are all present, `AccountFromJSON` applied to the document
`ToJSON` writes succeeds, and the account it returns is equal to the original
according to `Equals` and field for field. This holds whichever string fields
are tagged `omitempty`, and for every case folding of the keys. -/
theorem AccountFromJSON_ToJSON_round_trip (EqualFold : String → String → Bool)
    (tags : OmitEmpty) (a : Account) :
    ∃ r : Account,
      (Account.ToJSON tags a).bind (AccountFromJSON EqualFold) = Except.ok r
        ∧ Account.Equals (some a) (some r) = true
        ∧ r = a := by
  refine ⟨a, ?_, Account_Equals_self a, rfl⟩
  simp only [Account.ToJSON, Except.bind]
  exact AccountFromJSON_marshal EqualFold tags a

/-- C6, the code at the failing input. The primary file holds a document with
the key `accounts` only. `Load` succeeds and returns a configuration whose
`ActivityLog` and `HealthChecks` are nil slices: `loadFromPath` replaces a nil
`Accounts` only. `AppConfigFromJSON` on the same document makes all three
collections empty and not nil. -/
theorem Load_leaves_missing_collections_nil (EqualFold : String → String → Bool) :
    (ConfigManager.Load EqualFold configManagerExample readAccountsOnly).result
        = Except.ok { Accounts := some [], ActivityLog := none, HealthChecks := none }
      ∧ AppConfigFromJSON EqualFold documentAccountsOnly
        = Except.ok { Accounts := some [], ActivityLog := some [], HealthChecks := some [] } := by
  constructor <;> rfl

/-! ## The statements on concrete inputs -/

theorem EqualFoldASCII_refl (s : String) : EqualFoldASCII s s = true := by
  simp [EqualFoldASCII]

/-- C1, on the stored account of `TestValidateNew`: a candidate with a new
name and the same SSH key is valid with the SSH key warning; one with the same
email and token username in another letter case, and no platform, is valid
with the email warning and the token warning, both on github; a candidate with
the stored name in capitals is not valid. -/
theorem ValidateNew_invalid_iff_name_collision_witness :
    (ValidateNew EqualFoldASCII Char.toLower [existingAccount] candidateSameKey).Warnings
        = ["SSH key \x27~/.ssh/existing\x27 is already used by account \x27existing\x27"]
      ∧ (ValidateNew EqualFoldASCII Char.toLower [existingAccount]
          candidateSameEmailToken).Warnings
        = ["Email \x27EXISTING@example.com\x27 is already used by account \x27existing\x27"
            ++ " on github",
           "Token username \x27ExistingUser\x27 is already used by account \x27existing\x27"
            ++ " on github"]
      ∧ (ValidateNew EqualFoldASCII Char.toLower [existingAccount] candidateSameKey).IsValid
        = true
      ∧ (ValidateNew EqualFoldASCII Char.toLower [existingAccount]
          (accountNamed "EXISTING")).IsValid = false :=
  ⟨(ValidateNew_invalid_iff_name_collision Char.toLower EqualFoldASCII [existingAccount]
      candidateSameKey).2.2.2.1.trans (by decide),
   (ValidateNew_invalid_iff_name_collision Char.toLower EqualFoldASCII [existingAccount]
      candidateSameEmailToken).2.2.2.1.trans (by decide),
   by decide,
   (ValidateNew_invalid_iff_name_collision Char.toLower EqualFoldASCII [existingAccount]
      (accountNamed "EXISTING")).1.2 ⟨existingAccount, by decide, by decide⟩⟩

/-- C2, witness: the accounts of `TestCheckEmailDuplicate`; a candidate on
bitbucket gets no warning, a candidate on gitlab exactly one. -/
theorem ValidateNew_same_email_scoped_by_platform_witness :
    ((ValidateNew EqualFoldASCII Char.toLower
          [accountWithEmail "github-account" "user@example.com" "github",
           accountWithEmail "gitlab-account" "user@example.com" "gitlab"]
          (accountWithEmail "new-account" "user@example.com" "bitbucket")).Warnings = []
        ∧ (ValidateNew EqualFoldASCII Char.toLower
          [accountWithEmail "github-account" "user@example.com" "github",
           accountWithEmail "gitlab-account" "user@example.com" "gitlab"]
          (accountWithEmail "new-account" "user@example.com" "bitbucket")).IsValid = true)
      ∧ ((ValidateNew EqualFoldASCII Char.toLower
          [accountWithEmail "github-account" "user@example.com" "github",
           accountWithEmail "gitlab-account" "user@example.com" "gitlab"]
          (accountWithEmail "new-account" "user@example.com" "gitlab")).Warnings.length = 1
        ∧ (ValidateNew EqualFoldASCII Char.toLower
          [accountWithEmail "github-account" "user@example.com" "github",
           accountWithEmail "gitlab-account" "user@example.com" "gitlab"]
          (accountWithEmail "new-account" "user@example.com" "gitlab")).IsValid = true) :=
  ⟨(ValidateNew_same_email_scoped_by_platform Char.toLower EqualFoldASCII
      (accountWithEmail "github-account" "user@example.com" "github")
      (accountWithEmail "gitlab-account" "user@example.com" "gitlab")
      (accountWithEmail "new-account" "user@example.com" "bitbucket")
      rfl (by decide) (by decide) rfl rfl rfl).1 ⟨by decide, by decide⟩,
   (ValidateNew_same_email_scoped_by_platform Char.toLower EqualFoldASCII
      (accountWithEmail "github-account" "user@example.com" "github")
      (accountWithEmail "gitlab-account" "user@example.com" "gitlab")
      (accountWithEmail "new-account" "user@example.com" "gitlab")
      rfl (by decide) (by decide) rfl rfl rfl).2 EqualFoldASCII_refl (by decide)
      (Or.inr rfl)⟩

/-- C2, counterexample. Two stored accounts share the empty email and are on
github and gitlab; a candidate with a new name, the same (empty) email, no
SSH config and no token config, on github, gets no warning, not one: the
email check is skipped for an empty email. -/
theorem ValidateNew_empty_email_same_platform_no_warning :
    (accountWithEmail "a" "" "github").GitEmail = (accountWithEmail "b" "" "gitlab").GitEmail
      ∧ platformTypeOf (accountWithEmail "a" "" "github").Platform
          ≠ platformTypeOf (accountWithEmail "b" "" "gitlab").Platform
      ∧ CheckNameDuplicate EqualFoldASCII
          [accountWithEmail "a" "" "github", accountWithEmail "b" "" "gitlab"]
          (accountWithEmail "c" "" "github").Name = false
      ∧ (accountWithEmail "c" "" "github").GitEmail
          = (accountWithEmail "a" "" "github").GitEmail
      ∧ (accountWithEmail "c" "" "github").SSH = none
      ∧ (accountWithEmail "c" "" "github").Token = none
      ∧ platformTypeOf (accountWithEmail "c" "" "github").Platform
          = platformTypeOf (accountWithEmail "a" "" "github").Platform
      ∧ (ValidateNew EqualFoldASCII Char.toLower
          [accountWithEmail "a" "" "github", accountWithEmail "b" "" "gitlab"]
          (accountWithEmail "c" "" "github")).Warnings.length = 0 := by
  decide

/-- C3, witness: the accounts of `TestAddDuplicateAccount`. -/
theorem Add_rejects_duplicate_name_else_appends_witness :
    AccountManager.Add EqualFoldASCII [accountNamed "test-account"]
        (accountNamed "Test-Account")
        = (some (ManagerError.DuplicateNameError "Test-Account"),
            [accountNamed "test-account"])
      ∧ AccountManager.Add EqualFoldASCII [] (accountNamed "test-account")
        = (none, [accountNamed "test-account"]) :=
  ⟨(Add_rejects_duplicate_name_else_appends EqualFoldASCII []
      (accountNamed "test-account") (accountNamed "Test-Account")).1
      [accountNamed "test-account"] rfl (by decide),
   (Add_rejects_duplicate_name_else_appends EqualFoldASCII []
      (accountNamed "test-account") (accountNamed "Test-Account")).2
      (by decide)⟩

theorem EqualFoldASCII_symm (s t : String) (h : EqualFoldASCII s t = true) :
    EqualFoldASCII t s = true := by
  simp only [EqualFoldASCII, decide_eq_true_eq] at h ⊢
  exact h.symm

theorem EqualFoldASCII_trans (s t u : String) (h₁ : EqualFoldASCII s t = true)
    (h₂ : EqualFoldASCII t u = true) : EqualFoldASCII s u = true := by
  simp only [EqualFoldASCII, decide_eq_true_eq] at h₁ h₂ ⊢
  exact h₁.trans h₂

theorem namesDistinct_threeAccounts : namesDistinct EqualFoldASCII threeAccounts := by
  unfold namesDistinct
  decide

/-- C4, on the store of `TestRemoveAccount`: the middle account is removed
under its name in capitals, two accounts remain, and the name is not found;
a name that is not stored gives the not-found error. -/
theorem Remove_deletes_one_then_Find_none_witness :
    (∃ pre a post, threeAccounts = pre ++ a :: post
        ∧ EqualFoldASCII a.Name "ACCOUNT2" = true
        ∧ AccountManager.Remove EqualFoldASCII threeAccounts "ACCOUNT2" = (none, pre ++ post)
        ∧ (pre ++ post).length + 1 = threeAccounts.length
        ∧ AccountManager.Find EqualFoldASCII (pre ++ post) "ACCOUNT2" = none)
      ∧ AccountManager.Remove EqualFoldASCII threeAccounts "ACCOUNT2"
          = (none, [accountNamed "account1", accountNamed "account3"])
      ∧ AccountManager.Remove EqualFoldASCII threeAccounts "nonexistent"
          = (some (ManagerError.NotFoundError "nonexistent"), threeAccounts) :=
  ⟨(Remove_deletes_one_then_Find_none EqualFoldASCII EqualFoldASCII_symm EqualFoldASCII_trans
      threeAccounts namesDistinct_threeAccounts "ACCOUNT2").1
      ⟨accountNamed "account2", by decide, by decide⟩,
   by decide,
   (Remove_deletes_one_then_Find_none EqualFoldASCII EqualFoldASCII_symm EqualFoldASCII_trans
      threeAccounts namesDistinct_threeAccounts "nonexistent").2 (by decide)⟩

/-- C7, on the accounts of `TestCheckEmailDuplicate`: the email is used on
github and gitlab, and is not a duplicate on bitbucket; and on a store whose
second account has that email and no platform: for the platform `GitHub` the
account found is that one, its platform type being `github`. -/
theorem CheckEmailDuplicate_first_match_witness :
    CheckEmailDuplicate EqualFoldASCII emailAccounts "user@example.com" "bitbucket" = none
      ∧ CheckEmailDuplicate EqualFoldASCII
          [accountWithEmail "gitlab-account" "user@example.com" "gitlab",
           accountNoPlatform "plain" "User@Example.com"] "user@example.com" "GitHub"
        = some (accountNoPlatform "plain" "User@Example.com")
      ∧ platformTypeOf (accountNoPlatform "plain" "User@Example.com").Platform = "github" :=
  ⟨(CheckEmailDuplicate_first_match EqualFoldASCII emailAccounts "user@example.com"
      "bitbucket").2.2.1 (by decide),
   ((CheckEmailDuplicate_first_match EqualFoldASCII
      [accountWithEmail "gitlab-account" "user@example.com" "gitlab",
       accountNoPlatform "plain" "User@Example.com"] "user@example.com" "GitHub").1
      (accountNoPlatform "plain" "User@Example.com")).2
      ⟨[accountWithEmail "gitlab-account" "user@example.com" "gitlab"], [], rfl,
        ⟨by decide, by decide⟩, by decide⟩,
   ((CheckEmailDuplicate_first_match EqualFoldASCII emailAccounts "user@example.com"
      "bitbucket").2.2.2 (accountNoPlatform "plain" "User@Example.com")).1 rfl⟩

/-- C8, on the accounts of `TestCheckSSHKeyDuplicate`: the path of `account2`
written in capitals is found at `account2`, after `account1` whose path
differs; the same path written in capitals with backslashes has the same
normalized form. -/
theorem CheckSSHKeyDuplicate_first_match_witness :
    CheckSSHKeyDuplicate Char.toLower sshKeyAccounts "/HOME/USER/.SSH/ID_RSA"
        = some (accountWithSSHKey "account2" "/home/user/.ssh/id_rsa")
      ∧ normalizePath Char.toLower "/HOME/USER/.SSH/ID_RSA"
        = normalizePath Char.toLower "\\home\\user\\.ssh\\id_rsa" :=
  ⟨((CheckSSHKeyDuplicate_first_match Char.toLower sshKeyAccounts
      "/HOME/USER/.SSH/ID_RSA").1 (accountWithSSHKey "account2" "/home/user/.ssh/id_rsa")).2
      ⟨[accountWithSSHKey "account1" "~/.ssh/id_ed25519_work"], [accountNamed "account3"],
        rfl, ⟨_, rfl, by decide, by decide⟩, by decide⟩,
   (CheckSSHKeyDuplicate_first_match Char.toLower sshKeyAccounts
      "/HOME/USER/.SSH/ID_RSA").2.2.2.1 (by decide) (by decide) "\\home\\user\\.ssh\\id_rsa"
      (by
        repeat
          first
            | exact List.Forall₂.nil
            | refine List.Forall₂.cons (by unfold sameUpToCaseOrSeparator; decide) ?_)⟩

/-- C9, on the accounts of `TestCheckTokenDuplicate`: the account found for
`WORKUSER` on github has a token config; and on a store whose accounts are one
without a token config and one whose platform has an empty type: for `github`
the account found is the second, its platform type being `github`. -/
theorem CheckTokenDuplicate_first_match_witness :
    (accountWithToken "github-work" "workuser" "github").Token ≠ none
      ∧ CheckTokenDuplicate EqualFoldASCII
          [accountNamed "no-token", accountEmptyPlatformType "self-hosted" "workuser"]
          "WorkUser" "github"
        = some (accountEmptyPlatformType "self-hosted" "workuser")
      ∧ platformTypeOf (accountEmptyPlatformType "self-hosted" "workuser").Platform
        = "github" :=
  ⟨(CheckTokenDuplicate_first_match EqualFoldASCII tokenAccounts "WORKUSER" "github").2.2.1
      (accountWithToken "github-work" "workuser" "github") (by decide),
   ((CheckTokenDuplicate_first_match EqualFoldASCII
      [accountNamed "no-token", accountEmptyPlatformType "self-hosted" "workuser"]
      "WorkUser" "github").1 (accountEmptyPlatformType "self-hosted" "workuser")).2
      ⟨[accountNamed "no-token"], [], rfl, ⟨_, rfl, by decide, by decide⟩, by decide⟩,
   ((CheckTokenDuplicate_first_match EqualFoldASCII tokenAccounts "WORKUSER"
      "github").2.2.2 (accountEmptyPlatformType "self-hosted" "workuser")).2.1 _ rfl rfl⟩

/-- C10, witness: the five entries of `TestGetRecentActivity`; limit 3 gives the
last three, limits 10 and 0 give all five. -/
theorem GetRecentActivity_after_logging_witness :
    (AccountManager.GetRecentActivity (logAll [] fiveCalls) 3
        = (fiveCalls.map (fun call => { call.1 with Timestamp := call.2 })).drop
            (fiveCalls.length - min fiveCalls.length (3 : Int).toNat)
      ∧ (AccountManager.GetRecentActivity (logAll [] fiveCalls) 3).length
        = min fiveCalls.length (3 : Int).toNat)
      ∧ AccountManager.GetRecentActivity (logAll [] fiveCalls) 10
        = fiveCalls.map (fun call => { call.1 with Timestamp := call.2 })
      ∧ AccountManager.GetRecentActivity (logAll [] fiveCalls) 0
        = fiveCalls.map (fun call => { call.1 with Timestamp := call.2 }) :=
  ⟨(GetRecentActivity_after_logging fiveCalls 3).2.1 (by decide),
   (GetRecentActivity_after_logging fiveCalls 10).2.2 (Or.inr (by decide)),
   (GetRecentActivity_after_logging fiveCalls 0).2.2 (Or.inl (by decide))⟩

/-! ## Staleness and detection -/

theorem Since_gt_StaleThreshold (now : Nat) (t : Int) :
    Since now t > StaleThreshold ↔ (now : Int) - t > StaleThreshold := by
  unfold Since StaleThreshold Hour maxDuration minDuration
  norm_num
  split
  · constructor <;> intro <;> omega
  · split
    · constructor <;> intro <;> omega
    · rfl

/-- C11. For every clock reading `now`: the zero-value timestamp is stale; a
timestamp one hour before `now` is not stale; a timestamp 25 hours before
`now` is stale; and a timestamp other than the zero value is stale exactly when
`now - t` exceeds `StaleThreshold`, which is 24 hours. -/
theorem IsStaleCheck_boundary (now : Nat) :
    IsStaleCheck now zeroTime = true
      ∧ IsStaleCheck now ((now : Int) - Hour) = false
      ∧ IsStaleCheck now ((now : Int) - 25 * Hour) = true
      ∧ (∀ t : Int, t ≠ zeroTime →
          (IsStaleCheck now t = true ↔ (now : Int) - t > StaleThreshold))
      ∧ StaleThreshold = 24 * Hour := by
  have hgen : ∀ t : Int, t ≠ zeroTime →
      (IsStaleCheck now t = true ↔ (now : Int) - t > StaleThreshold) := by
    intro t ht
    unfold IsStaleCheck
    rw [if_neg ht, decide_eq_true_eq]
    exact Since_gt_StaleThreshold now t
  refine ⟨by simp [IsStaleCheck], ?_, ?_, hgen, rfl⟩
  · have hne : (now : Int) - Hour ≠ zeroTime := by
      unfold Hour zeroTime; omega
    have := hgen _ hne
    rw [Bool.eq_false_iff]
    intro h
    have := this.1 h
    unfold StaleThreshold Hour at this
    omega
  · by_cases hz : (now : Int) - 25 * Hour = zeroTime
    · simp [IsStaleCheck, hz]
    · rw [hgen _ hz]
      unfold StaleThreshold Hour
      omega

/-- C11, on a clock reading: one day and one nanosecond after a check made at
the epoch, the check is stale; one day after, it is not. -/
theorem IsStaleCheck_boundary_witness :
    (IsStaleCheck 86400000000001 0 = true ↔ ((86400000000001 : Nat) : Int) - 0 > StaleThreshold)
      ∧ IsStaleCheck 86400000000000 0 = false :=
  ⟨(IsStaleCheck_boundary 86400000000001).2.2.2.1 0 (by decide), by decide⟩

theorem pickHighest_some (score : Account → Nat) (accounts : List Account)
    (best r : Account) (h : pickHighest score (some best) accounts = some r) :
    (r = best ∨ r ∈ accounts) ∧ score best ≤ score r
      ∧ ∀ acc ∈ accounts, score acc ≤ score r := by
  induction accounts generalizing best with
  | nil =>
    simp only [pickHighest, Option.some.injEq] at h
    subst h
    exact ⟨Or.inl rfl, Nat.le_refl _, fun acc hacc => by cases hacc⟩
  | cons a rest ih =>
    simp only [pickHighest] at h
    split at h
    · rename_i hgt
      obtain ⟨hmem, hle, hall⟩ := ih a h
      refine ⟨Or.inr ?_, by omega, ?_⟩
      · rcases hmem with rfl | hmem
        · exact List.mem_cons_self _ _
        · exact List.mem_cons_of_mem _ hmem
      · intro acc hacc
        rcases List.mem_cons.1 hacc with rfl | hacc
        · exact hle
        · exact hall acc hacc
    · rename_i hngt
      obtain ⟨hmem, hle, hall⟩ := ih best h
      refine ⟨?_, hle, ?_⟩
      · rcases hmem with rfl | hmem
        · exact Or.inl rfl
        · exact Or.inr (List.mem_cons_of_mem _ hmem)
      · intro acc hacc
        rcases List.mem_cons.1 hacc with rfl | hacc
        · omega
        · exact hall acc hacc

theorem pickHighest_none (score : Account → Nat) (accounts : List Account)
    (r : Account) (h : pickHighest score none accounts = some r) :
    r ∈ accounts ∧ ∀ acc ∈ accounts, score acc ≤ score r := by
  cases accounts with
  | nil => simp [pickHighest] at h
  | cons a rest =>
    simp only [pickHighest] at h
    obtain ⟨hmem, hle, hall⟩ := pickHighest_some score rest a r h
    refine ⟨?_, ?_⟩
    · rcases hmem with rfl | hmem
      · exact List.mem_cons_self _ _
      · exact List.mem_cons_of_mem _ hmem
    · intro acc hacc
      rcases List.mem_cons.1 hacc with rfl | hacc
      · exact hle
      · exact hall acc hacc

theorem pickHighest_isSome (score : Account → Nat) (accounts : List Account)
    (best : Option Account) (h : best ≠ none ∨ accounts ≠ []) :
    ∃ r, pickHighest score best accounts = some r := by
  induction accounts generalizing best with
  | nil =>
    cases best with
    | none => simp at h
    | some b => exact ⟨b, rfl⟩
  | cons a rest ih =>
    cases best with
    | none =>
      simp only [pickHighest]
      exact ih (some a) (Or.inl (by simp))
    | some b =>
      simp only [pickHighest]
      split
      · exact ih (some a) (Or.inl (by simp))
      · exact ih (some b) (Or.inl (by simp))

/-- C12. Whatever the repository state, the account list, the weights and the
confidence floor are: when there is an account, `DetectActiveWithScore` returns
a result; the result describes a stored account whose score, the sum of the
weights of its matched fields, is at least the score of every stored account;
and when that score is below the floor, in particular when the account
matches on a single field whose weight is below the floor, the result has
`IsActive = false` and `runStatus` does not show an active account. -/
theorem DetectActiveWithScore_below_floor_inactive {Repo : Type}
    (fieldMatches : Repo → Account → MatchField → Bool) (weight : MatchField → Nat)
    (floor : Nat) (repo : Repo) (accounts : List Account) :
    (accounts ≠ [] →
        ∃ ms, DetectActiveWithScore fieldMatches weight floor repo accounts = some ms)
      ∧ ∀ ms : MatchScore,
          DetectActiveWithScore fieldMatches weight floor repo accounts = some ms →
          (∃ acc ∈ accounts, ms.AccountName = acc.Name
              ∧ ms.MatchedFields = matchedFieldsOf (fieldMatches repo) acc
              ∧ ms.Score = scoreOfFields weight ms.MatchedFields)
            ∧ (∀ acc ∈ accounts,
                scoreOfFields weight (matchedFieldsOf (fieldMatches repo) acc) ≤ ms.Score)
            ∧ (ms.Score < floor →
                ms.IsActive = false ∧ statusShowsActive (some ms) = false)
            ∧ (∀ field : MatchField, ms.MatchedFields = [field] → weight field < floor →
                ms.IsActive = false ∧ statusShowsActive (some ms) = false) := by
  constructor
  · intro hne
    obtain ⟨r, hr⟩ := pickHighest_isSome
      (fun acc => scoreOfFields weight (matchedFieldsOf (fieldMatches repo) acc))
      accounts none (Or.inr hne)
    simp [DetectActiveWithScore, hr]
  · intro ms hms
    unfold DetectActiveWithScore at hms
    split at hms
    · cases hms
    · rename_i acc hpick
      obtain ⟨hmem, hall⟩ := pickHighest_none _ accounts acc hpick
      simp only [Option.some.injEq] at hms
      subst hms
      have hlow : scoreOfFields weight (matchedFieldsOf (fieldMatches repo) acc) < floor →
          decide (floor ≤ scoreOfFields weight (matchedFieldsOf (fieldMatches repo) acc))
            = false := by
        intro hlt
        simp only [decide_eq_false_iff_not]
        omega
      refine ⟨⟨acc, hmem, rfl, rfl, rfl⟩, hall, ?_, ?_⟩
      · intro hlt
        exact ⟨hlow hlt, hlow hlt⟩
      · intro field hfield hw
        have hscore : scoreOfFields weight (matchedFieldsOf (fieldMatches repo) acc)
            = weight field := by
          simp only at hfield
          rw [hfield]
          simp [scoreOfFields]
        have hlt : scoreOfFields weight (matchedFieldsOf (fieldMatches repo) acc) < floor := by
          rw [hscore]; exact hw
        exact ⟨hlow hlt, hlow hlt⟩

/-! ## Loading the configuration -/

theorem loadFromPath_notExist (EqualFold : String → String → Bool)
    (readFile : String → ReadResult) (path : String)
    (h : readFile path = ReadResult.notExist) :
    ConfigManager.loadFromPath EqualFold readFile path = Except.error LoadError.notExist := by
  simp [ConfigManager.loadFromPath, h]

theorem IsNotExist_notExist : LoadError.notExist.IsNotExist = true := rfl

/-- C13. `Load` tries the primary path and then the legacy path. When no file
exists at either path it returns `NewAppConfig` and no error, and does not call
`Save`. When the primary file does not exist and the legacy file loads, it
returns the legacy configuration and calls `Save` on it; the result is the
same whatever `Save` returns. When the file at the primary path exists but
cannot be read or parsed, it returns that error, whatever is at the legacy
path; when the primary file does not exist and the legacy file cannot be read
or parsed, it returns that error. -/
theorem Load_primary_then_legacy (EqualFold : String → String → Bool) (m : ConfigManager)
    (readFile : String → ReadResult) :
    (readFile m.primaryPath = ReadResult.notExist →
        readFile m.legacyPath = ReadResult.notExist →
        (ConfigManager.Load EqualFold m readFile).result = Except.ok NewAppConfig
          ∧ (ConfigManager.Load EqualFold m readFile).saved = none)
      ∧ (∀ cfg : AppConfig, readFile m.primaryPath = ReadResult.notExist →
          ConfigManager.loadFromPath EqualFold readFile m.legacyPath = Except.ok cfg →
          (ConfigManager.Load EqualFold m readFile).result = Except.ok cfg
            ∧ (ConfigManager.Load EqualFold m readFile).saved = some cfg)
      ∧ (∀ err : LoadError,
          ConfigManager.loadFromPath EqualFold readFile m.primaryPath = Except.error err →
          err.IsNotExist = false →
          ∀ readFile' : String → ReadResult,
            readFile' m.primaryPath = readFile m.primaryPath →
            (ConfigManager.Load EqualFold m readFile').result = Except.error err
              ∧ (ConfigManager.Load EqualFold m readFile').saved = none)
      ∧ (∀ err : LoadError, readFile m.primaryPath = ReadResult.notExist →
          ConfigManager.loadFromPath EqualFold readFile m.legacyPath = Except.error err →
          err.IsNotExist = false →
          (ConfigManager.Load EqualFold m readFile).result = Except.error err
            ∧ (ConfigManager.Load EqualFold m readFile).saved = none) := by
  refine ⟨?_, ?_, ?_, ?_⟩
  · intro hp hl
    simp [ConfigManager.Load, ConfigManager.loadPaths, loadFromPath_notExist EqualFold _ _ hp,
      loadFromPath_notExist EqualFold _ _ hl, IsNotExist_notExist]
  · intro cfg hp hl
    simp [ConfigManager.Load, ConfigManager.loadPaths, loadFromPath_notExist EqualFold _ _ hp, hl,
      IsNotExist_notExist]
  · intro err hp hne readFile' hsame
    have hp' : ConfigManager.loadFromPath EqualFold readFile' m.primaryPath = Except.error err := by
      rw [← hp]
      simp only [ConfigManager.loadFromPath, hsame]
    simp [ConfigManager.Load, ConfigManager.loadPaths, hp', hne]
  · intro err hp hl hne
    simp [ConfigManager.Load, ConfigManager.loadPaths, loadFromPath_notExist EqualFold _ _ hp, hl,
      IsNotExist_notExist, hne]

theorem AppConfigTarget_setField_keeps (EqualFold : String → String → Bool) (key : String)
    (v : JSON) (x x' : AppConfigTarget)
    (h : AppConfigTarget.setField EqualFold key v x = Except.ok x') :
    (fieldFor EqualFold ["accounts", "activityLog", "healthChecks"] key ≠ some "accounts" →
        x'.Accounts = x.Accounts)
      ∧ (fieldFor EqualFold ["accounts", "activityLog", "healthChecks"] key
            ≠ some "activityLog" → x'.ActivityLog = x.ActivityLog)
      ∧ (fieldFor EqualFold ["accounts", "activityLog", "healthChecks"] key
            ≠ some "healthChecks" → x'.HealthChecks = x.HealthChecks) := by
  unfold AppConfigTarget.setField at h
  simp only at h
  split at h
  · rename_i hk
    cases hs : unmarshalSlice Account.zero (Account.setField EqualFold) v x.Accounts with
    | error e => rw [hs] at h; cases h
    | ok xs =>
      rw [hs] at h
      simp only [Except.map, Except.ok.injEq] at h
      subst h
      rw [hk]
      exact ⟨fun hne => absurd rfl hne, fun _ => rfl, fun _ => rfl⟩
  · split at h
    · rename_i hk
      cases hs : unmarshalSlice (ActivityLogEntry.mk "" "" false "")
          (ActivityLogEntry.setField EqualFold) v x.ActivityLog with
      | error e => rw [hs] at h; cases h
      | ok xs =>
        rw [hs] at h
        simp only [Except.map, Except.ok.injEq] at h
        subst h
        rw [hk]
        exact ⟨fun _ => rfl, fun hne => absurd rfl hne, fun _ => rfl⟩
    · split at h
      · rename_i hk
        cases hs : unmarshalSlice (HealthStatus.mk "" none none "")
            (HealthStatus.setField EqualFold) v x.HealthChecks with
        | error e => rw [hs] at h; cases h
        | ok xs =>
          rw [hs] at h
          simp only [Except.map, Except.ok.injEq] at h
          subst h
          rw [hk]
          exact ⟨fun _ => rfl, fun _ => rfl, fun hne => absurd rfl hne⟩
      · simp only [Except.ok.injEq] at h
        subst h
        exact ⟨fun _ => rfl, fun _ => rfl, fun _ => rfl⟩

theorem fieldFor_ne_of_no_match (EqualFold : String → String → Bool) (fields : List String)
    (key field : String) (h : key ≠ field ∧ EqualFold field key = false) :
    fieldFor EqualFold fields key ≠ some field := by
  intro hf
  rcases (fieldFor_some EqualFold fields key field hf).2 with heq | hfold
  · exact h.1 heq.symm
  · rw [h.2] at hfold
    exact Bool.noConfusion hfold

theorem AppConfigTarget_unmarshalMembers_keeps (EqualFold : String → String → Bool)
    (members : List (String × JSON)) (x x' : AppConfigTarget)
    (h : unmarshalMembers (AppConfigTarget.setField EqualFold) members x = Except.ok x') :
    ((∀ kv ∈ members, kv.1 ≠ "accounts" ∧ EqualFold "accounts" kv.1 = false) →
        x'.Accounts = x.Accounts)
      ∧ ((∀ kv ∈ members, kv.1 ≠ "activityLog" ∧ EqualFold "activityLog" kv.1 = false) →
          x'.ActivityLog = x.ActivityLog)
      ∧ ((∀ kv ∈ members, kv.1 ≠ "healthChecks" ∧ EqualFold "healthChecks" kv.1 = false) →
          x'.HealthChecks = x.HealthChecks) := by
  induction members generalizing x with
  | nil =>
    simp only [unmarshalMembers, Except.ok.injEq] at h
    subst h
    exact ⟨fun _ => rfl, fun _ => rfl, fun _ => rfl⟩
  | cons kv rest ih =>
    obtain ⟨key, v⟩ := kv
    simp only [unmarshalMembers] at h
    cases hs : AppConfigTarget.setField EqualFold key v x with
    | error e => rw [hs] at h; cases h
    | ok y =>
      rw [hs] at h
      obtain ⟨h₁, h₂, h₃⟩ := ih y h
      obtain ⟨k₁, k₂, k₃⟩ := AppConfigTarget_setField_keeps EqualFold key v x y hs
      refine ⟨fun hall => ?_, fun hall => ?_, fun hall => ?_⟩
      · rw [h₁ (fun kv hkv => hall kv (List.mem_cons_of_mem _ hkv)),
          k₁ (fieldFor_ne_of_no_match EqualFold _ _ _
            (hall (key, v) (List.mem_cons_self _ _)))]
      · rw [h₂ (fun kv hkv => hall kv (List.mem_cons_of_mem _ hkv)),
          k₂ (fieldFor_ne_of_no_match EqualFold _ _ _
            (hall (key, v) (List.mem_cons_self _ _)))]
      · rw [h₃ (fun kv hkv => hall kv (List.mem_cons_of_mem _ hkv)),
          k₃ (fieldFor_ne_of_no_match EqualFold _ _ _
            (hall (key, v) (List.mem_cons_self _ _)))]

/-- The three nil checks of `AppConfigFromJSON`. -/
theorem AppConfigFromJSON_eq (EqualFold : String → String → Bool) (doc : JSON)
    (cfg : AppConfig) (h : AppConfigFromJSON EqualFold doc = Except.ok cfg) :
    ∃ raw, unmarshalStruct (AppConfigTarget.setField EqualFold) doc AppConfigTarget.zero
        = Except.ok raw
      ∧ cfg.Accounts = some ((raw.Accounts.map Slice.elems).getD [])
      ∧ cfg.ActivityLog = some ((raw.ActivityLog.map Slice.elems).getD [])
      ∧ cfg.HealthChecks = some ((raw.HealthChecks.map Slice.elems).getD []) := by
  unfold AppConfigFromJSON unmarshalAppConfig at h
  cases hs : unmarshalStruct (AppConfigTarget.setField EqualFold) doc AppConfigTarget.zero with
  | error e => rw [hs] at h; cases h
  | ok raw =>
    rw [hs] at h
    simp only [Except.map, Except.ok.injEq] at h
    subst h
    obtain ⟨a, l, c⟩ := raw
    refine ⟨_, rfl, ?_, ?_, ?_⟩ <;> cases a <;> cases l <;> cases c <;>
      simp [AppConfigTarget.value]

/-- C14. Every document `AppConfigFromJSON` parses gives a configuration whose
three collections are not nil, and a collection that no key of the document
names, exactly or up to case folding, is empty. The document without members
and the document with the key `accounts` only are parsed. A key that names
`accounts` up to case folding only is decoded as `accounts` is, and a key that
comes twice is decoded into the elements its first array left. -/
theorem AppConfigFromJSON_collections_not_nil (EqualFold : String → String → Bool)
    (doc : JSON) (cfg : AppConfig) (h : AppConfigFromJSON EqualFold doc = Except.ok cfg) :
    (cfg.Accounts ≠ none ∧ cfg.ActivityLog ≠ none ∧ cfg.HealthChecks ≠ none)
      ∧ (∀ members : List (String × JSON), doc = JSON.obj members →
          ((∀ kv ∈ members, kv.1 ≠ "accounts" ∧ EqualFold "accounts" kv.1 = false) →
              cfg.Accounts = some [])
            ∧ ((∀ kv ∈ members, kv.1 ≠ "activityLog" ∧ EqualFold "activityLog" kv.1 = false) →
              cfg.ActivityLog = some [])
            ∧ ((∀ kv ∈ members,
                  kv.1 ≠ "healthChecks" ∧ EqualFold "healthChecks" kv.1 = false) →
              cfg.HealthChecks = some []))
      ∧ AppConfigFromJSON EqualFold (JSON.obj []) = Except.ok NewAppConfig
      ∧ AppConfigFromJSON EqualFold documentOneAccount = Except.ok configOneAccount
      ∧ (∀ key : String, key ∉ ["accounts", "activityLog", "healthChecks"] →
          EqualFold "accounts" key = true →
          AppConfigFromJSON EqualFold
              (JSON.obj [(key, JSON.arr [JSON.obj [("name", JSON.str "test")]])])
            = Except.ok configOneAccount)
      ∧ AppConfigFromJSON EqualFold documentAccountsTwice
        = Except.ok { Accounts := some [accountWithEmail "b" "a@x.com" "github"],
                      ActivityLog := some [], HealthChecks := some [] } := by
  obtain ⟨raw, hraw, hA, hL, hH⟩ := AppConfigFromJSON_eq EqualFold doc cfg h
  refine ⟨⟨by rw [hA]; simp, by rw [hL]; simp, by rw [hH]; simp⟩, ?_, rfl, rfl, ?_, rfl⟩
  · intro members hdoc
    subst hdoc
    simp only [unmarshalStruct] at hraw
    obtain ⟨k₁, k₂, k₃⟩ :=
      AppConfigTarget_unmarshalMembers_keeps EqualFold members AppConfigTarget.zero raw hraw
    refine ⟨fun hall => ?_, fun hall => ?_, fun hall => ?_⟩
    · rw [hA, k₁ hall]; rfl
    · rw [hL, k₂ hall]; rfl
    · rw [hH, k₃ hall]; rfl
  · intro key hkey hfold
    have hfield : fieldFor EqualFold ["accounts", "activityLog", "healthChecks"] key
        = some "accounts" :=
      fieldFor_fold EqualFold _ key "accounts" hkey (by simp [List.find?, hfold])
    have k₁ := fieldFor_of_mem EqualFold
      ["name", "gitUserName", "gitEmail", "ssh", "token", "platform"] "name" (by decide)
    simp [AppConfigFromJSON, unmarshalAppConfig, unmarshalStruct, unmarshalMembers,
      AppConfigTarget.setField, hfield, unmarshalSlice, unmarshalElements, Account.setField,
      k₁, unmarshalString, Except.map, AppConfigTarget.zero, AppConfigTarget.value,
      Account.zero, configOneAccount, accountNamed]

/-- C14, on the document of `TestAppConfigFromJSONWithMissingFields`: the
activity log and the health checks, which are missing, are empty; and on the
same document with the key written `ACCOUNTS`. -/
theorem AppConfigFromJSON_collections_not_nil_witness :
    (configOneAccount.ActivityLog = some [] ∧ configOneAccount.HealthChecks = some [])
      ∧ AppConfigFromJSON EqualFoldASCII
          (JSON.obj [("ACCOUNTS", JSON.arr [JSON.obj [("name", JSON.str "test")]])])
        = Except.ok configOneAccount :=
  ⟨⟨((AppConfigFromJSON_collections_not_nil EqualFoldASCII documentOneAccount
        configOneAccount rfl).2.1
        [("accounts", JSON.arr [JSON.obj [("name", JSON.str "test")]])] rfl).2.1
        (by decide),
     ((AppConfigFromJSON_collections_not_nil EqualFoldASCII documentOneAccount
        configOneAccount rfl).2.1
        [("accounts", JSON.arr [JSON.obj [("name", JSON.str "test")]])] rfl).2.2
        (by decide)⟩,
   (AppConfigFromJSON_collections_not_nil EqualFoldASCII documentOneAccount
      configOneAccount rfl).2.2.2.2.1 "ACCOUNTS" (by decide) (by decide)⟩

/-! ## Equality and copies of accounts -/

theorem Account_Equals_iff_eq (a other : Option Account) :
    Account.Equals a other = true ↔ a = other := by
  cases a with
  | none => cases other <;> simp [Account.Equals]
  | some a =>
    cases other with
    | none => simp [Account.Equals]
    | some b =>
      obtain ⟨n₁, u₁, e₁, s₁, t₁, p₁⟩ := a
      obtain ⟨n₂, u₂, e₂, s₂, t₂, p₂⟩ := b
      rcases s₁ with _ | ⟨k₁, h₁⟩ <;> rcases s₂ with _ | ⟨k₂, h₂⟩ <;>
      rcases t₁ with _ | ⟨x₁, y₁⟩ <;> rcases t₂ with _ | ⟨x₂, y₂⟩ <;>
      rcases p₁ with _ | ⟨a₁, b₁, c₁⟩ <;> rcases p₂ with _ | ⟨a₂, b₂, c₂⟩ <;>
        simp [Account.Equals] <;> tauto

theorem SshConfig_option_eq_iff (s t : Option SshConfig) :
    s = t ↔ (s = none ∧ t = none)
      ∨ ∃ x y, s = some x ∧ t = some y ∧ x.KeyPath = y.KeyPath
          ∧ x.HostAlias = y.HostAlias := by
  rcases s with _ | ⟨k₁, h₁⟩ <;> rcases t with _ | ⟨k₂, h₂⟩ <;> simp

theorem TokenConfig_option_eq_iff (s t : Option TokenConfig) :
    s = t ↔ (s = none ∧ t = none)
      ∨ ∃ x y, s = some x ∧ t = some y ∧ x.Username = y.Username
          ∧ x.Token = y.Token := by
  rcases s with _ | ⟨k₁, h₁⟩ <;> rcases t with _ | ⟨k₂, h₂⟩ <;> simp

theorem PlatformConfig_option_eq_iff (s t : Option PlatformConfig) :
    s = t ↔ (s = none ∧ t = none)
      ∨ ∃ x y, s = some x ∧ t = some y ∧ x.Type_ = y.Type_ ∧ x.Domain = y.Domain
          ∧ x.ApiUrl = y.ApiUrl := by
  rcases s with _ | ⟨a₁, b₁, c₁⟩ <;> rcases t with _ | ⟨a₂, b₂, c₂⟩ <;> simp

/-- C15. `Equals` is true exactly when both accounts are nil, or both are not
nil, have equal `Name`, `GitUserName` and `GitEmail`, and each of `SSH`,
`Token` and `Platform` is absent in both or present in both with all fields
equal. An account without SSH config is not equal to one with an SSH config,
whatever the fields of that config are, and a nil account is equal to nil
only. -/
theorem Account_Equals_field_for_field (a other : Option Account) :
    (Account.Equals a other = true ↔
        (a = none ∧ other = none)
          ∨ ∃ x y : Account, a = some x ∧ other = some y
              ∧ x.Name = y.Name ∧ x.GitUserName = y.GitUserName ∧ x.GitEmail = y.GitEmail
              ∧ ((x.SSH = none ∧ y.SSH = none)
                  ∨ ∃ s t, x.SSH = some s ∧ y.SSH = some t
                      ∧ s.KeyPath = t.KeyPath ∧ s.HostAlias = t.HostAlias)
              ∧ ((x.Token = none ∧ y.Token = none)
                  ∨ ∃ s t, x.Token = some s ∧ y.Token = some t
                      ∧ s.Username = t.Username ∧ s.Token = t.Token)
              ∧ ((x.Platform = none ∧ y.Platform = none)
                  ∨ ∃ s t, x.Platform = some s ∧ y.Platform = some t
                      ∧ s.Type_ = t.Type_ ∧ s.Domain = t.Domain ∧ s.ApiUrl = t.ApiUrl))
      ∧ (∀ (x y : Account) (s : SshConfig), x.SSH = none → y.SSH = some s →
          Account.Equals (some x) (some y) = false)
      ∧ (∀ x : Account, Account.Equals none (some x) = false
          ∧ Account.Equals (some x) none = false)
      ∧ Account.Equals none none = true := by
  refine ⟨?_, ?_, fun x => ⟨rfl, rfl⟩, rfl⟩
  · rw [Account_Equals_iff_eq]
    cases a with
    | none => cases other <;> simp
    | some a =>
      cases other with
      | none => simp
      | some b =>
        obtain ⟨n₁, u₁, e₁, s₁, t₁, p₁⟩ := a
        obtain ⟨n₂, u₂, e₂, s₂, t₂, p₂⟩ := b
        simp only [Option.some.injEq, Account.mk.injEq, false_and, reduceCtorEq,
          exists_and_left, false_or, SshConfig_option_eq_iff s₁ s₂,
          TokenConfig_option_eq_iff t₁ t₂, PlatformConfig_option_eq_iff p₁ p₂]
        constructor
        · rintro ⟨h₁, h₂, h₃, h₄, h₅, h₆⟩
          exact ⟨_, rfl, _, rfl, h₁, h₂, h₃, h₄, h₅, h₆⟩
        · rintro ⟨x, hx, y, hy, h₁, h₂, h₃, h₄, h₅, h₆⟩
          subst hx
          subst hy
          exact ⟨h₁, h₂, h₃, h₄, h₅, h₆⟩
  · intro x y s hx hy
    rw [Bool.eq_false_iff]
    intro h
    have := (Account_Equals_iff_eq _ _).1 h
    simp only [Option.some.injEq] at this
    rw [this, hy] at hx
    cases hx

/-- C15, on the accounts of `TestAccountEqualsWithOptionalFields`: an account
without SSH config and one whose SSH config has empty fields. -/
theorem Account_Equals_field_for_field_witness :
    Account.Equals (some (accountNamed "test"))
      (some { accountNamed "test" with SSH := some { KeyPath := "", HostAlias := "" } })
      = false :=
  (Account_Equals_field_for_field none none).2.1 (accountNamed "test")
    { accountNamed "test" with SSH := some { KeyPath := "", HostAlias := "" } }
    { KeyPath := "", HostAlias := "" } rfl rfl

theorem Account_Clone_eq (a : Account) : a.Clone = a := by
  obtain ⟨n, u, e, s, t, p⟩ := a
  cases s <;> cases t <;> cases p <;> rfl

/-- C16. For every account, with any combination of present and absent SSH,
token and platform sub-objects, `a.Equals(a.Clone())` is true, and the clone
has each sub-object exactly when `a` has it. -/
theorem Account_Equals_Clone (a : Account) :
    Account.Equals (some a) (some a.Clone) = true
      ∧ (a.Clone.SSH.isSome = a.SSH.isSome)
      ∧ (a.Clone.Token.isSome = a.Token.isSome)
      ∧ (a.Clone.Platform.isSome = a.Platform.isSome) := by
  rw [Account_Clone_eq]
  exact ⟨Account_Equals_self a, rfl, rfl, rfl⟩

/-! ## Platforms -/

theorem containsChars_iff_occurs (s sub : List Char) :
    containsChars s sub = true ↔ sub <:+: s := by
  induction s with
  | nil =>
    simp [containsChars, List.isEmpty_iff]
  | cons c s ih =>
    simp only [containsChars, Bool.or_eq_true, ih, List.isPrefixOf_iff_prefix,
      List.infix_cons_iff]

theorem ToLower_data (lower : Char → Char) (s : String) :
    (ToLower lower s).data = s.data.map lower := rfl

theorem ToLower_append (lower : Char → Char) (s t : String) :
    ToLower lower (s ++ t) = ToLower lower s ++ ToLower lower t := by
  apply String.ext
  simp [ToLower_data, String.data_append]

theorem ToLower_of_ascii (lower : Char → Char) (hlow : LowersASCII lower) (s : String)
    (hs : ∀ c ∈ s.data, c.toNat < 128) : ToLower lower s = ToLower Char.toLower s := by
  apply String.ext
  rw [ToLower_data, ToLower_data]
  exact List.map_congr_left (fun c hc => hlow c (hs c hc))

theorem LowersASCII_toLower : LowersASCII Char.toLower := fun _ _ => rfl

theorem Contains_append_left (s t m : String) (h : Contains t m = true) :
    Contains (s ++ t) m = true := by
  unfold Contains at h ⊢
  rw [containsChars_iff_occurs] at h ⊢
  rw [String.data_append]
  exact List.IsInfix.trans h (List.suffix_append _ _).isInfix

theorem Contains_append_right (s t m : String) (h : Contains s m = true) :
    Contains (s ++ t) m = true := by
  unfold Contains at h ⊢
  rw [containsChars_iff_occurs] at h ⊢
  rw [String.data_append]
  exact List.IsInfix.trans h (List.prefix_append _ _).isInfix

theorem Contains_self (m : String) : Contains m m = true := by
  unfold Contains
  rw [containsChars_iff_occurs]

theorem platformRegistry_lookup_isSome (key : String) :
    (platformRegistry.lookup key).isSome = true ↔ key ∈ GetSupportedPlatforms := by
  simp only [platformRegistry, GetSupportedPlatforms, List.lookup, PlatformGitHub,
    PlatformGitLab, PlatformBitbucket, PlatformGitea, PlatformCodeberg, PlatformOther]
  by_cases h₁ : key = "github"
  · simp [h₁]
  by_cases h₂ : key = "gitlab"
  · simp [h₂]
  by_cases h₃ : key = "bitbucket"
  · simp [h₃]
  by_cases h₄ : key = "gitea"
  · simp [h₄]
  by_cases h₅ : key = "codeberg"
  · simp [h₅]
  by_cases h₆ : key = "other"
  · simp [h₆]
  have b₁ : (key == "github") = false := by simpa using h₁
  have b₂ : (key == "gitlab") = false := by simpa using h₂
  have b₃ : (key == "bitbucket") = false := by simpa using h₃
  have b₄ : (key == "gitea") = false := by simpa using h₄
  have b₅ : (key == "codeberg") = false := by simpa using h₅
  have b₆ : (key == "other") = false := by simpa using h₆
  simp [b₁, b₂, b₃, b₄, b₅, b₆, h₁, h₂, h₃, h₄, h₅, h₆]

theorem IsValidPlatform_of_supported (lower : Char → Char) (hlow : LowersASCII lower)
    (q : String) (hq : q ∈ GetSupportedPlatforms) : IsValidPlatform lower q = true := by
  have hfix : ToLower lower q = q := by
    simp only [GetSupportedPlatforms, PlatformGitHub, PlatformGitLab, PlatformBitbucket,
      PlatformGitea, PlatformCodeberg, PlatformOther, List.mem_cons, List.mem_singleton,
      List.not_mem_nil, or_false] at hq
    rcases hq with rfl | rfl | rfl | rfl | rfl | rfl <;>
    · rw [ToLower_of_ascii lower hlow _ (by decide)]
      decide
  unfold IsValidPlatform
  rw [hfix]
  exact (platformRegistry_lookup_isSome q).2 hq

/-- C17. `GetSupportedPlatforms` is the list github, gitlab, bitbucket, gitea,
codeberg, other, without repetition, and `IsValidPlatform(p)` is true exactly
when the lower-cased `p` is in that list; so it depends on `p` through its
lower-cased form only, and the empty string is invalid. For a rune map that
lower-cases ASCII as `unicode.ToLower` does, `invalid` is invalid and `GITHUB`
is valid. -/
theorem IsValidPlatform_iff_supported (lower : Char → Char) (p : String) :
    GetSupportedPlatforms = ["github", "gitlab", "bitbucket", "gitea", "codeberg", "other"]
      ∧ GetSupportedPlatforms.Nodup
      ∧ (IsValidPlatform lower p = true ↔ ToLower lower p ∈ GetSupportedPlatforms)
      ∧ (∀ q : String, ToLower lower q = ToLower lower p →
          IsValidPlatform lower q = IsValidPlatform lower p)
      ∧ IsValidPlatform lower "" = false
      ∧ (LowersASCII lower →
          IsValidPlatform lower "invalid" = false ∧ IsValidPlatform lower "GITHUB" = true) := by
  refine ⟨rfl, by decide, platformRegistry_lookup_isSome (ToLower lower p), ?_, ?_, ?_⟩
  · intro q hq
    simp only [IsValidPlatform, hq]
  · have h0 : ToLower lower "" = "" := rfl
    unfold IsValidPlatform
    rw [h0]
    decide
  · intro hlow
    constructor
    · unfold IsValidPlatform
      rw [ToLower_of_ascii lower hlow _ (by decide)]
      decide
    · unfold IsValidPlatform
      rw [ToLower_of_ascii lower hlow _ (by decide)]
      decide

/-- C17, on the names of `TestIsValidPlatform`: `GitLab` and `gitlab` have the
same lower-cased form, and the same validity; `invalid` is not valid and
`GITHUB` is. -/
theorem IsValidPlatform_iff_supported_witness :
    IsValidPlatform Char.toLower "GitLab" = IsValidPlatform Char.toLower "gitlab"
      ∧ (IsValidPlatform Char.toLower "invalid" = false
          ∧ IsValidPlatform Char.toLower "GITHUB" = true) :=
  ⟨(IsValidPlatform_iff_supported Char.toLower "gitlab").2.2.2.1 "GitLab" (by decide),
   (IsValidPlatform_iff_supported Char.toLower "gitlab").2.2.2.2.2 (fun _ _ => rfl)⟩

/-- C18, counterexample. The list `GetSupportedPlatforms` returns has six
entries, not five: `codeberg` is one of them. -/
theorem GetSupportedPlatforms_length_ne_five :
    GetSupportedPlatforms.length ≠ 5 ∧ "codeberg" ∈ GetSupportedPlatforms := by
  decide

/-- C18 (amended). `GetSupportedPlatforms` returns a list of exactly 6
platform types, and that list contains github, gitlab, bitbucket, gitea,
codeberg and other. -/
theorem GetSupportedPlatforms_six :
    GetSupportedPlatforms.length = 6
      ∧ PlatformGitHub ∈ GetSupportedPlatforms
      ∧ PlatformGitLab ∈ GetSupportedPlatforms
      ∧ PlatformBitbucket ∈ GetSupportedPlatforms
      ∧ PlatformGitea ∈ GetSupportedPlatforms
      ∧ PlatformCodeberg ∈ GetSupportedPlatforms
      ∧ PlatformOther ∈ GetSupportedPlatforms := by
  decide

theorem DetectPlatformFromURL_github (lower : Char → Char) (url : String)
    (h : Contains (ToLower lower url) "github.com" = true) :
    DetectPlatformFromURL lower url = "github" := by
  simp [DetectPlatformFromURL, h, PlatformGitHub]

theorem DetectPlatformFromURL_gitlab (lower : Char → Char) (url : String)
    (h : Contains (ToLower lower url) "gitlab.com" = true)
    (h₁ : Contains (ToLower lower url) "github.com" = false)
    (h₂ : Contains (ToLower lower url) "github:" = false) :
    DetectPlatformFromURL lower url = "gitlab" := by
  simp [DetectPlatformFromURL, h, h₁, h₂, PlatformGitLab]

theorem DetectPlatformFromURL_bitbucket (lower : Char → Char) (url : String)
    (h : Contains (ToLower lower url) "bitbucket.org" = true)
    (h₁ : Contains (ToLower lower url) "github.com" = false)
    (h₂ : Contains (ToLower lower url) "github:" = false)
    (h₃ : Contains (ToLower lower url) "gitlab.com" = false)
    (h₄ : Contains (ToLower lower url) "gitlab:" = false) :
    DetectPlatformFromURL lower url = "bitbucket" := by
  simp [DetectPlatformFromURL, h, h₁, h₂, h₃, h₄, PlatformBitbucket]

theorem Contains_host_in_forms (lower : Char → Char) (host path marker : String)
    (h : ToLower lower host = marker)
    (url : String) (hurl : url ∈ remoteURLForms host path) :
    Contains (ToLower lower url) marker = true := by
  simp only [remoteURLForms, List.mem_cons, List.mem_singleton, List.not_mem_nil,
    or_false] at hurl
  rcases hurl with rfl | rfl | rfl <;>
  · simp only [ToLower_append, h]
    apply Contains_append_right
    apply Contains_append_right
    apply Contains_append_left
    exact Contains_self marker

/-- C19 (amended). For a host `H` that is `github.com` in any letter case,
`DetectPlatformFromURL` returns github for the URLs `https://H/path`,
`git@H:path` and `ssh://git@H/path`, whatever the path is. For `gitlab.com` it
returns gitlab when the lower-cased URL contains neither `github.com` nor
`github:`; for `bitbucket.org` it returns bitbucket when the lower-cased URL
contains none of `github.com`, `github:`, `gitlab.com`, `gitlab:`. A URL whose
lower-cased form contains none of the eight markers gives other. -/
theorem DetectPlatformFromURL_known_hosts (lower : Char → Char) (H path : String) :
    (ToLower lower H = "github.com" →
        ∀ url ∈ remoteURLForms H path, DetectPlatformFromURL lower url = "github")
      ∧ (ToLower lower H = "gitlab.com" →
          ∀ url ∈ remoteURLForms H path,
            Contains (ToLower lower url) "github.com" = false →
            Contains (ToLower lower url) "github:" = false →
            DetectPlatformFromURL lower url = "gitlab")
      ∧ (ToLower lower H = "bitbucket.org" →
          ∀ url ∈ remoteURLForms H path,
            Contains (ToLower lower url) "github.com" = false →
            Contains (ToLower lower url) "github:" = false →
            Contains (ToLower lower url) "gitlab.com" = false →
            Contains (ToLower lower url) "gitlab:" = false →
            DetectPlatformFromURL lower url = "bitbucket")
      ∧ (∀ url : String,
          Contains (ToLower lower url) "github.com" = false →
          Contains (ToLower lower url) "github:" = false →
          Contains (ToLower lower url) "gitlab.com" = false →
          Contains (ToLower lower url) "gitlab:" = false →
          Contains (ToLower lower url) "bitbucket.org" = false →
          Contains (ToLower lower url) "bitbucket:" = false →
          Contains (ToLower lower url) "codeberg.org" = false →
          Contains (ToLower lower url) "gitea" = false →
          DetectPlatformFromURL lower url = "other") := by
  refine ⟨?_, ?_, ?_, ?_⟩
  · intro hH url hurl
    exact DetectPlatformFromURL_github lower url (Contains_host_in_forms lower H path _ hH url hurl)
  · intro hH url hurl h₁ h₂
    exact DetectPlatformFromURL_gitlab lower url (Contains_host_in_forms lower H path _ hH url hurl) h₁ h₂
  · intro hH url hurl h₁ h₂ h₃ h₄
    exact DetectPlatformFromURL_bitbucket lower url
      (Contains_host_in_forms lower H path _ hH url hurl) h₁ h₂ h₃ h₄
  · intro url h₁ h₂ h₃ h₄ h₅ h₆ h₇ h₈
    simp [DetectPlatformFromURL, h₁, h₂, h₃, h₄, h₅, h₆, h₇, h₈, PlatformOther]

/-- C19, counterexample. The host is `gitlab.com`, respectively
`bitbucket.org`, and the path holds a marker that is tested earlier: the
result is github, respectively gitlab. A URL in capitals contains none of the
markers as written, and the result is github, not other. -/
theorem DetectPlatformFromURL_path_decides :
    "https://gitlab.com/user/github.com.git" ∈ remoteURLForms "gitlab.com" "user/github.com.git"
      ∧ DetectPlatformFromURL Char.toLower "https://gitlab.com/user/github.com.git" = "github"
      ∧ "git@bitbucket.org:team/gitlab.com-mirror.git"
          ∈ remoteURLForms "bitbucket.org" "team/gitlab.com-mirror.git"
      ∧ DetectPlatformFromURL Char.toLower "git@bitbucket.org:team/gitlab.com-mirror.git" = "gitlab"
      ∧ Contains "HTTPS://GITHUB.COM/USER/REPO.GIT" "github.com" = false
      ∧ Contains "HTTPS://GITHUB.COM/USER/REPO.GIT" "github:" = false
      ∧ DetectPlatformFromURL Char.toLower "HTTPS://GITHUB.COM/USER/REPO.GIT" = "github" := by
  decide

/-- C19, on the URLs of `TestDetectPlatformFromURL`. -/
theorem DetectPlatformFromURL_known_hosts_witness :
    (∀ url ∈ remoteURLForms "GitHub.com" "user/repo.git",
        DetectPlatformFromURL Char.toLower url = "github")
      ∧ DetectPlatformFromURL Char.toLower "git@gitlab.com:user/repo.git" = "gitlab"
      ∧ DetectPlatformFromURL Char.toLower "https://bitbucket.org/user/repo.git" = "bitbucket"
      ∧ DetectPlatformFromURL Char.toLower "https://custom.git.server/user/repo.git" = "other" :=
  ⟨(DetectPlatformFromURL_known_hosts Char.toLower "GitHub.com" "user/repo.git").1 (by decide),
   (DetectPlatformFromURL_known_hosts Char.toLower "gitlab.com" "user/repo.git").2.1 (by decide)
      "git@gitlab.com:user/repo.git" (by decide) (by decide) (by decide),
   (DetectPlatformFromURL_known_hosts Char.toLower "bitbucket.org" "user/repo.git").2.2.1 (by decide)
      "https://bitbucket.org/user/repo.git" (by decide) (by decide) (by decide) (by decide)
      (by decide),
   (DetectPlatformFromURL_known_hosts Char.toLower "" "").2.2.2
      "https://custom.git.server/user/repo.git" (by decide) (by decide) (by decide)
      (by decide) (by decide) (by decide) (by decide) (by decide)⟩

/-- C20, counterexample. The URL `https://codeberg.org/user/repo.git` contains
`codeberg.org` and none of the github, gitlab and bitbucket markers;
`DetectPlatformFromURL` returns codeberg for it, not gitea. -/
theorem DetectPlatformFromURL_codeberg_not_gitea :
    Contains (ToLower Char.toLower "https://codeberg.org/user/repo.git") "codeberg.org" = true
      ∧ Contains (ToLower Char.toLower "https://codeberg.org/user/repo.git") "github.com" = false
      ∧ Contains (ToLower Char.toLower "https://codeberg.org/user/repo.git") "github:" = false
      ∧ Contains (ToLower Char.toLower "https://codeberg.org/user/repo.git") "gitlab.com" = false
      ∧ Contains (ToLower Char.toLower "https://codeberg.org/user/repo.git") "gitlab:" = false
      ∧ Contains (ToLower Char.toLower "https://codeberg.org/user/repo.git") "bitbucket.org" = false
      ∧ Contains (ToLower Char.toLower "https://codeberg.org/user/repo.git") "bitbucket:" = false
      ∧ DetectPlatformFromURL Char.toLower "https://codeberg.org/user/repo.git" = "codeberg"
      ∧ DetectPlatformFromURL Char.toLower "https://codeberg.org/user/repo.git" ≠ "gitea" := by
  decide

/-- C20 (amended). For every URL whose lower-cased form contains `codeberg.org`
and none of the github, gitlab and bitbucket markers, `DetectPlatformFromURL`
returns codeberg; it returns gitea for the URLs that contain `gitea` and none
of these markers nor `codeberg.org`. -/
theorem DetectPlatformFromURL_codeberg (lower : Char → Char) (url : String)
    (h₁ : Contains (ToLower lower url) "github.com" = false)
    (h₂ : Contains (ToLower lower url) "github:" = false)
    (h₃ : Contains (ToLower lower url) "gitlab.com" = false)
    (h₄ : Contains (ToLower lower url) "gitlab:" = false)
    (h₅ : Contains (ToLower lower url) "bitbucket.org" = false)
    (h₆ : Contains (ToLower lower url) "bitbucket:" = false) :
    (Contains (ToLower lower url) "codeberg.org" = true →
        DetectPlatformFromURL lower url = "codeberg")
      ∧ (Contains (ToLower lower url) "codeberg.org" = false →
          Contains (ToLower lower url) "gitea" = true →
          DetectPlatformFromURL lower url = "gitea") := by
  constructor
  · intro h
    simp [DetectPlatformFromURL, h₁, h₂, h₃, h₄, h₅, h₆, h, PlatformCodeberg]
  · intro h₇ h
    simp [DetectPlatformFromURL, h₁, h₂, h₃, h₄, h₅, h₆, h₇, h, PlatformGitea]

/-- C20, on the two URLs of `TestDetectPlatformFromURL`. -/
theorem DetectPlatformFromURL_codeberg_witness :
    DetectPlatformFromURL Char.toLower "https://codeberg.org/user/repo.git" = "codeberg"
      ∧ DetectPlatformFromURL Char.toLower "https://gitea.example.com/user/repo.git" = "gitea" :=
  ⟨(DetectPlatformFromURL_codeberg Char.toLower "https://codeberg.org/user/repo.git" (by decide)
      (by decide) (by decide) (by decide) (by decide) (by decide)).1 (by decide),
   (DetectPlatformFromURL_codeberg Char.toLower "https://gitea.example.com/user/repo.git" (by decide)
      (by decide) (by decide) (by decide) (by decide) (by decide)).2 (by decide)
      (by decide)⟩

/-! ## Detection and loading on concrete inputs -/

/-- C12, on one account that matches the repository on the email alone, with
weight 30 for the email and a floor of 50: it is the result, and it is not
active. -/
theorem DetectActiveWithScore_below_floor_inactive_witness :
    (∃ ms, DetectActiveWithScore emailOnlyMatches exampleWeight 50 "a@x.com"
        [accountWithEmail "work" "a@x.com" "github"] = some ms)
      ∧ (emailOnlyResult.IsActive = false
          ∧ statusShowsActive (some emailOnlyResult) = false) :=
  ⟨(DetectActiveWithScore_below_floor_inactive emailOnlyMatches exampleWeight 50
      "a@x.com" [accountWithEmail "work" "a@x.com" "github"]).1 (by decide),
   ((DetectActiveWithScore_below_floor_inactive emailOnlyMatches exampleWeight 50
      "a@x.com" [accountWithEmail "work" "a@x.com" "github"]).2
      emailOnlyResult (by decide)).2.2.2 MatchField.email rfl (by decide)⟩

/-- C13, on four disks: no file; a legacy file only; an unreadable primary
file beside a legacy file; a legacy file that is not JSON. -/
theorem Load_primary_then_legacy_witness :
    ((ConfigManager.Load EqualFoldASCII configManagerExample readNothing).result = Except.ok NewAppConfig
        ∧ (ConfigManager.Load EqualFoldASCII configManagerExample readNothing).saved = none)
      ∧ ((ConfigManager.Load EqualFoldASCII configManagerExample readLegacyOnly).result
            = Except.ok { Accounts := some [], ActivityLog := none, HealthChecks := none }
          ∧ (ConfigManager.Load EqualFoldASCII configManagerExample readLegacyOnly).saved
            = some { Accounts := some [], ActivityLog := none, HealthChecks := none })
      ∧ ((ConfigManager.Load EqualFoldASCII configManagerExample readPrimaryUnreadable).result
            = Except.error (LoadError.readError "permission denied")
          ∧ (ConfigManager.Load EqualFoldASCII configManagerExample readPrimaryUnreadable).saved = none)
      ∧ ((ConfigManager.Load EqualFoldASCII configManagerExample readLegacyInvalid).result
            = Except.error (LoadError.unmarshalError "invalid character")
          ∧ (ConfigManager.Load EqualFoldASCII configManagerExample readLegacyInvalid).saved = none) :=
  ⟨(Load_primary_then_legacy EqualFoldASCII configManagerExample readNothing).1 rfl rfl,
   (Load_primary_then_legacy EqualFoldASCII configManagerExample readLegacyOnly).2.1
      { Accounts := some [], ActivityLog := none, HealthChecks := none } rfl rfl,
   (Load_primary_then_legacy EqualFoldASCII configManagerExample readPrimaryUnreadable).2.2.1
      (LoadError.readError "permission denied") rfl rfl readPrimaryUnreadable rfl,
   (Load_primary_then_legacy EqualFoldASCII configManagerExample readLegacyInvalid).2.2.2
      (LoadError.unmarshalError "invalid character") rfl rfl rfl⟩

theorem platformRegistry_lookup_Type (key : String) (info : PlatformInfo)
    (h : platformRegistry.lookup key = some info) :
    info.Type_ = key ∧ key ∈ GetSupportedPlatforms := by
  have hmem : key ∈ GetSupportedPlatforms := by
    rw [← platformRegistry_lookup_isSome, h]; rfl
  refine ⟨?_, hmem⟩
  simp only [GetSupportedPlatforms, PlatformGitHub, PlatformGitLab, PlatformBitbucket,
    PlatformGitea, PlatformCodeberg, PlatformOther, List.mem_cons, List.mem_singleton,
    List.not_mem_nil, or_false] at hmem
  rcases hmem with rfl | rfl | rfl | rfl | rfl | rfl <;>
  · have h' := h
    simp only [platformRegistry, List.lookup, PlatformGitHub, PlatformGitLab,
      PlatformBitbucket, PlatformGitea, PlatformCodeberg, PlatformOther] at h'
    have := Option.some.inj (h'.symm.trans (by rfl))
    rw [this]

/-- C21. `GetPlatformInfo(p)` is the registry entry of the lower-cased `p`
when that is a supported platform, with that lower-cased name as its type,
and the entry `Other` (icon `IconOther`, name `Other`) for every other string.
`GetPlatformIcon` and `GetPlatformName` depend on `p` through its lower-cased
form only, and the type returned is one of the supported platforms; it is a
valid platform for a rune map that lower-cases ASCII as `unicode.ToLower`
does. -/
theorem GetPlatformInfo_registry_or_other (lower : Char → Char) (p : String) :
    (ToLower lower p ∈ GetSupportedPlatforms →
        platformRegistry.lookup (ToLower lower p) = some (GetPlatformInfo lower p)
          ∧ (GetPlatformInfo lower p).Type_ = ToLower lower p)
      ∧ (ToLower lower p ∉ GetSupportedPlatforms →
          GetPlatformInfo lower p
            = { Type_ := PlatformOther, Icon := IconOther, Name := "Other", Domain := "" })
      ∧ (∀ q : String, ToLower lower q = ToLower lower p →
          GetPlatformInfo lower q = GetPlatformInfo lower p
            ∧ GetPlatformIcon lower q = GetPlatformIcon lower p
            ∧ GetPlatformName lower q = GetPlatformName lower p)
      ∧ (GetPlatformInfo lower p).Type_ ∈ GetSupportedPlatforms
      ∧ (LowersASCII lower → IsValidPlatform lower (GetPlatformInfo lower p).Type_ = true) := by
  have hsome : ToLower lower p ∈ GetSupportedPlatforms →
      platformRegistry.lookup (ToLower lower p) = some (GetPlatformInfo lower p)
        ∧ (GetPlatformInfo lower p).Type_ = ToLower lower p := by
    intro hmem
    have hs := (platformRegistry_lookup_isSome (ToLower lower p)).2 hmem
    cases hl : platformRegistry.lookup (ToLower lower p) with
    | none => rw [hl] at hs; cases hs
    | some info =>
      have hinfo : GetPlatformInfo lower p = info := by simp [GetPlatformInfo, hl]
      rw [hinfo]
      exact ⟨rfl, (platformRegistry_lookup_Type _ _ hl).1⟩
  have hnone : ToLower lower p ∉ GetSupportedPlatforms →
      GetPlatformInfo lower p
        = { Type_ := PlatformOther, Icon := IconOther, Name := "Other", Domain := "" } := by
    intro hmem
    cases hl : platformRegistry.lookup (ToLower lower p) with
    | some info =>
      exact absurd ((platformRegistry_lookup_isSome (ToLower lower p)).1 (by rw [hl]; rfl)) hmem
    | none =>
      simp only [GetPlatformInfo, hl]
      rfl
  have htype : (GetPlatformInfo lower p).Type_ ∈ GetSupportedPlatforms := by
    by_cases hmem : ToLower lower p ∈ GetSupportedPlatforms
    · rw [(hsome hmem).2]
      exact hmem
    · rw [hnone hmem]
      decide
  refine ⟨hsome, hnone, ?_, htype, fun hlow => IsValidPlatform_of_supported lower hlow _ htype⟩
  intro q hq
  have : GetPlatformInfo lower q = GetPlatformInfo lower p := by
    simp only [GetPlatformInfo, hq]
  simp only [GetPlatformIcon, GetPlatformName, this]
  exact ⟨trivial, trivial, trivial⟩

/-- C21, on the names of `TestGetPlatformInfo`: `GITHUB` has the entry of
`github`, `unknown` has the entry `Other`, and the type returned for `GitLab`
is its lower-cased form, a valid platform. -/
theorem GetPlatformInfo_registry_or_other_witness :
    (GetPlatformInfo Char.toLower "GITHUB" = GetPlatformInfo Char.toLower "github"
        ∧ GetPlatformIcon Char.toLower "GITHUB" = GetPlatformIcon Char.toLower "github"
        ∧ GetPlatformName Char.toLower "GITHUB" = GetPlatformName Char.toLower "github")
      ∧ GetPlatformInfo Char.toLower "unknown"
        = { Type_ := PlatformOther, Icon := IconOther, Name := "Other", Domain := "" }
      ∧ (platformRegistry.lookup (ToLower Char.toLower "GitLab")
            = some (GetPlatformInfo Char.toLower "GitLab")
          ∧ (GetPlatformInfo Char.toLower "GitLab").Type_ = ToLower Char.toLower "GitLab")
      ∧ IsValidPlatform Char.toLower (GetPlatformInfo Char.toLower "GitLab").Type_ = true :=
  ⟨(GetPlatformInfo_registry_or_other Char.toLower "github").2.2.1 "GITHUB" (by decide),
   (GetPlatformInfo_registry_or_other Char.toLower "unknown").2.1 (by decide),
   (GetPlatformInfo_registry_or_other Char.toLower "GitLab").1 (by decide),
   (GetPlatformInfo_registry_or_other Char.toLower "GitLab").2.2.2.2 (fun _ _ => rfl)⟩

theorem HasPrefix_iff (s pre : String) : HasPrefix s pre = true ↔ pre.data <+: s.data := by
  simp [HasPrefix]

theorem HasSuffix_iff (s suffix : String) :
    HasSuffix s suffix = true ↔ suffix.data <:+ s.data := by
  simp [HasSuffix]

theorem HasPrefix_append (s t pre : String) (h : HasPrefix s pre = true) :
    HasPrefix (s ++ t) pre = true := by
  rw [HasPrefix_iff] at h ⊢
  rw [String.data_append]
  exact h.trans (List.prefix_append _ _)

theorem HasSuffix_WithGitSuffix (s : String) : HasSuffix (WithGitSuffix s) ".git" = true := by
  unfold WithGitSuffix
  split
  · assumption
  · rw [HasSuffix_iff, String.data_append]
    exact List.suffix_append _ _

theorem HasPrefix_WithGitSuffix (s pre : String) (h : HasPrefix s pre = true) :
    HasPrefix (WithGitSuffix s) pre = true := by
  unfold WithGitSuffix
  split
  · exact h
  · exact HasPrefix_append s ".git" pre h

theorem WithGitSuffix_idem (s : String) : WithGitSuffix (WithGitSuffix s) = WithGitSuffix s := by
  have h := HasSuffix_WithGitSuffix s
  generalize WithGitSuffix s = n at h
  simp [WithGitSuffix, h]

theorem TrimSuffix_hash_data (t : String) :
    t.data = (TrimSuffix t "#").data ∨ t.data = (TrimSuffix t "#").data ++ ['#'] := by
  unfold TrimSuffix
  split
  · rename_i h
    rw [HasSuffix_iff] at h
    obtain ⟨x, hx⟩ := h
    right
    have hd : ("#" : String).data = ['#'] := rfl
    rw [hd] at hx
    simp [← hx]
  · left; rfl

theorem HasPrefix_TrimSuffix_hash (t pre : String) (hpre : '#' ∉ pre.data) :
    HasPrefix (TrimSuffix t "#") pre = HasPrefix t pre := by
  rcases TrimSuffix_hash_data t with h | h
  · simp only [HasPrefix, h]
  · rw [Bool.eq_iff_iff, HasPrefix_iff, HasPrefix_iff, h]
    constructor
    · intro hp
      exact hp.trans (List.prefix_append _ _)
    · intro hp
      rcases List.prefix_concat_iff.1 hp with heq | hp
      · exact absurd (by rw [heq]; simp) hpre
      · exact hp

theorem TrimSpace_eq_self (s : String) (c d : Char) (rest : List Char)
    (hhead : s.data = c :: rest) (hc : isSpace c = false)
    (hlast : s.data.getLast? = some d) (hd : isSpace d = false) :
    TrimSpace s = s := by
  apply String.ext
  simp only [TrimSpace]
  have h₁ : s.data.dropWhile isSpace = s.data := by
    rw [hhead, List.dropWhile_cons_of_neg (by simp [hc])]
  rw [h₁]
  obtain ⟨init, hinit⟩ : ∃ init, s.data = init ++ [d] := by
    have := List.getLast?_eq_some_iff.1 hlast
    obtain ⟨ys, hys⟩ := this
    exact ⟨ys, hys⟩
  rw [hinit, List.reverse_append, List.reverse_singleton, List.singleton_append,
    List.dropWhile_cons_of_neg (by simp [hd])]
  simp

theorem getLast?_of_suffix (l suf : List Char) (d : Char) (h : suf <:+ l)
    (hd : suf.getLast? = some d) : l.getLast? = some d := by
  obtain ⟨x, hx⟩ := h
  rw [← hx]
  cases suf with
  | nil => simp at hd
  | cons a as =>
    rw [List.getLast?_append_of_ne_nil _ (by simp)]
    exact hd

theorem head?_of_HasPrefix (s pre : String) (c : Char) (h : HasPrefix s pre = true)
    (hc : pre.data.head? = some c) : ∃ rest, s.data = c :: rest := by
  rw [HasPrefix_iff] at h
  obtain ⟨x, hx⟩ := h
  cases hp : pre.data with
  | nil => rw [hp] at hc; cases hc
  | cons a as =>
    rw [hp] at hc hx
    simp only [List.head?_cons, Option.some.injEq] at hc
    subst hc
    exact ⟨as ++ x, by rw [← hx]; rfl⟩

theorem NormalizeURL_fixed (n pre : String) (c : Char)
    (hpre : HasPrefix n pre = true) (hc : pre.data.head? = some c)
    (hspace : isSpace c = false) (hsuf : HasSuffix n ".git" = true) :
    TrimSuffix (TrimSpace n) "#" = n ∧ n ≠ "" := by
  obtain ⟨rest, hrest⟩ := head?_of_HasPrefix n pre c hpre hc
  have hlast : n.data.getLast? = some 't' :=
    getLast?_of_suffix n.data ".git".data 't' ((HasSuffix_iff _ _).1 hsuf) rfl
  have htrim : TrimSpace n = n :=
    TrimSpace_eq_self n c 't' rest hrest hspace hlast (by decide)
  have hne : n ≠ "" := by
    intro h
    rw [h] at hrest
    cases hrest
  refine ⟨?_, hne⟩
  rw [htrim]
  unfold TrimSuffix
  split
  · rename_i hh
    have := getLast?_of_suffix n.data "#".data '#' ((HasSuffix_iff _ _).1 hh) rfl
    rw [hlast] at this
    exact absurd this (by decide)
  · rfl

theorem not_HasPrefix_of_head (s pre : String) (c d : Char) (rest : List Char)
    (hs : s.data = c :: rest) (hd : pre.data.head? = some d) (hne : c ≠ d) :
    HasPrefix s pre = false := by
  rw [Bool.eq_false_iff]
  intro h
  obtain ⟨rest', hrest'⟩ := head?_of_HasPrefix s pre d h hd
  rw [hs] at hrest'
  simp only [List.cons.injEq] at hrest'
  exact hne hrest'.1

/-- When `NormalizeURL` succeeds and what it returns, in terms of the input
with the white space at both ends removed. -/
theorem NormalizeURL_success_shape (u : String) :
    ((∃ r, NormalizeURL u = Except.ok r)
        ↔ (HasPrefix (TrimSpace u) "git@" = true ∨ HasPrefix (TrimSpace u) "ssh://" = true
            ∨ HasPrefix (TrimSpace u) "http://" = true
            ∨ HasPrefix (TrimSpace u) "https://" = true))
      ∧ ∀ (n : String) (isSSH : Bool), NormalizeURL u = Except.ok (n, isSSH) →
          HasSuffix n ".git" = true
            ∧ (HasSuffix (TrimSuffix (TrimSpace u) "#") ".git" = true →
                n = TrimSuffix (TrimSpace u) "#")
            ∧ (HasSuffix (TrimSuffix (TrimSpace u) "#") ".git" = false →
                n = TrimSuffix (TrimSpace u) "#" ++ ".git")
            ∧ (isSSH = true ↔ (HasPrefix (TrimSpace u) "git@" = true
                ∨ HasPrefix (TrimSpace u) "ssh://" = true))
            ∧ NormalizeURL n = Except.ok (n, isSSH) := by
  have e₁ := HasPrefix_TrimSuffix_hash (TrimSpace u) "git@" (by decide)
  have e₂ := HasPrefix_TrimSuffix_hash (TrimSpace u) "ssh://" (by decide)
  have e₃ := HasPrefix_TrimSuffix_hash (TrimSpace u) "http://" (by decide)
  have e₄ := HasPrefix_TrimSuffix_hash (TrimSpace u) "https://" (by decide)
  by_cases hu : u = ""
  · subst hu
    constructor
    · constructor
      · rintro ⟨r, hr⟩
        simp [NormalizeURL] at hr
      · intro h
        have hno : ¬ (HasPrefix (TrimSpace "") "git@" = true
            ∨ HasPrefix (TrimSpace "") "ssh://" = true
            ∨ HasPrefix (TrimSpace "") "http://" = true
            ∨ HasPrefix (TrimSpace "") "https://" = true) := by decide
        exact absurd h hno
    · intro n isSSH h
      simp [NormalizeURL] at h
  · generalize ht : TrimSuffix (TrimSpace u) "#" = t at e₁ e₂ e₃ e₄
    have hN : NormalizeURL u
        = if HasPrefix t "git@" || HasPrefix t "ssh://" then
            Except.ok (WithGitSuffix t, true)
          else if HasPrefix t "http://" || HasPrefix t "https://" then
            Except.ok (WithGitSuffix t, false)
          else Except.error ("invalid git URL format: " ++ t) := by
      simp only [NormalizeURL, hu, if_false, ht]
    rw [hN, ← e₁, ← e₂, ← e₃, ← e₄]
    have hW₁ : HasSuffix t ".git" = true → WithGitSuffix t = t := by
      intro h; simp [WithGitSuffix, h]
    have hW₂ : HasSuffix t ".git" = false → WithGitSuffix t = t ++ ".git" := by
      intro h; simp [WithGitSuffix, h]
    by_cases hssh : (HasPrefix t "git@" || HasPrefix t "ssh://") = true
    · rw [if_pos hssh]
      have hor : HasPrefix t "git@" = true ∨ HasPrefix t "ssh://" = true := by
        simpa using hssh
      refine ⟨⟨fun _ => ?_, fun _ => ⟨_, rfl⟩⟩, ?_⟩
      · rcases hor with h | h
        · exact Or.inl h
        · exact Or.inr (Or.inl h)
      · intro n isSSH h
        simp only [Except.ok.injEq, Prod.mk.injEq] at h
        obtain ⟨hn, hb⟩ := h
        subst hn
        subst hb
        have hsuf := HasSuffix_WithGitSuffix t
        have hfix : TrimSuffix (TrimSpace (WithGitSuffix t)) "#" = WithGitSuffix t
            ∧ WithGitSuffix t ≠ "" := by
          rcases hor with h | h
          · exact NormalizeURL_fixed _ "git@" 'g' (HasPrefix_WithGitSuffix _ _ h) rfl
              (by decide) hsuf
          · exact NormalizeURL_fixed _ "ssh://" 's' (HasPrefix_WithGitSuffix _ _ h) rfl
              (by decide) hsuf
        have hssh' : (HasPrefix (WithGitSuffix t) "git@"
            || HasPrefix (WithGitSuffix t) "ssh://") = true := by
          rcases hor with h | h
          · simp [HasPrefix_WithGitSuffix _ _ h]
          · simp [HasPrefix_WithGitSuffix _ _ h]
        refine ⟨hsuf, hW₁, hW₂, ⟨fun _ => hor, fun _ => rfl⟩, ?_⟩
        simp only [NormalizeURL, hfix.2, if_false, hfix.1, hssh', if_true,
          WithGitSuffix_idem]
    · rw [if_neg hssh]
      have hnor : HasPrefix t "git@" = false ∧ HasPrefix t "ssh://" = false := by
        simpa using hssh
      by_cases hhttp : (HasPrefix t "http://" || HasPrefix t "https://") = true
      · rw [if_pos hhttp]
        have hor : HasPrefix t "http://" = true ∨ HasPrefix t "https://" = true := by
          simpa using hhttp
        refine ⟨⟨fun _ => ?_, fun _ => ⟨_, rfl⟩⟩, ?_⟩
        · rcases hor with h | h
          · exact Or.inr (Or.inr (Or.inl h))
          · exact Or.inr (Or.inr (Or.inr h))
        · intro n isSSH h
          simp only [Except.ok.injEq, Prod.mk.injEq] at h
          obtain ⟨hn, hb⟩ := h
          subst hn
          subst hb
          have hsuf := HasSuffix_WithGitSuffix t
          have hpre : ∃ pre : String, HasPrefix (WithGitSuffix t) pre = true
              ∧ pre.data.head? = some 'h' := by
            rcases hor with h | h
            · exact ⟨"http://", HasPrefix_WithGitSuffix _ _ h, rfl⟩
            · exact ⟨"https://", HasPrefix_WithGitSuffix _ _ h, rfl⟩
          obtain ⟨pre, hpre₁, hpre₂⟩ := hpre
          have hfix := NormalizeURL_fixed _ pre 'h' hpre₁ hpre₂ (by decide) hsuf
          obtain ⟨rest, hrest⟩ := head?_of_HasPrefix _ pre 'h' hpre₁ hpre₂
          have hg := not_HasPrefix_of_head (WithGitSuffix t) "git@" 'h' 'g' rest hrest rfl
            (by decide)
          have hs := not_HasPrefix_of_head (WithGitSuffix t) "ssh://" 'h' 's' rest hrest rfl
            (by decide)
          have hhttp' : (HasPrefix (WithGitSuffix t) "http://"
              || HasPrefix (WithGitSuffix t) "https://") = true := by
            rcases hor with h | h
            · simp [HasPrefix_WithGitSuffix _ _ h]
            · simp [HasPrefix_WithGitSuffix _ _ h]
          refine ⟨hsuf, hW₁, hW₂, ⟨fun h => Bool.noConfusion h, fun h => ?_⟩, ?_⟩
          · rcases h with h | h
            · rw [hnor.1] at h; cases h
            · rw [hnor.2] at h; cases h
          · simp only [NormalizeURL, hfix.2, if_false, hfix.1, hg, hs, hhttp',
              Bool.or_self, if_true, WithGitSuffix_idem]
            rfl
      · rw [if_neg hhttp]
        have hnhttp : HasPrefix t "http://" = false ∧ HasPrefix t "https://" = false := by
          simpa using hhttp
        refine ⟨⟨fun h => ?_, fun h => ?_⟩, ?_⟩
        · obtain ⟨r, hr⟩ := h
          cases hr
        · rcases h with h | h | h | h
          · rw [hnor.1] at h; cases h
          · rw [hnor.2] at h; cases h
          · rw [hnhttp.1] at h; cases h
          · rw [hnhttp.2] at h; cases h
        · intro n isSSH h
          cases h

theorem GetPlatformURLConfig_formats (lower : Char → Char) (platform : String) :
    (GetPlatformURLConfig lower platform).SSHFormat = "git@%s:%s"
      ∧ (GetPlatformURLConfig lower platform).HTTPSFormat = "https://%s/%s" := by
  simp only [GetPlatformURLConfig, platformURLConfigs, List.lookup]
  generalize ToLower lower platform = key
  by_cases h₁ : key = "github"
  · subst h₁; exact ⟨rfl, rfl⟩
  by_cases h₂ : key = "gitlab"
  · subst h₂; exact ⟨rfl, rfl⟩
  by_cases h₃ : key = "bitbucket"
  · subst h₃; exact ⟨rfl, rfl⟩
  by_cases h₄ : key = "gitea"
  · subst h₄; exact ⟨rfl, rfl⟩
  by_cases h₅ : key = "codeberg"
  · subst h₅; exact ⟨rfl, rfl⟩
  by_cases h₆ : key = "other"
  · subst h₆; exact ⟨rfl, rfl⟩
  have b₁ : (key == "github") = false := by simpa using h₁
  have b₂ : (key == "gitlab") = false := by simpa using h₂
  have b₃ : (key == "bitbucket") = false := by simpa using h₃
  have b₄ : (key == "gitea") = false := by simpa using h₄
  have b₅ : (key == "codeberg") = false := by simpa using h₅
  have b₆ : (key == "other") = false := by simpa using h₆
  simp only [b₁, b₂, b₃, b₄, b₅, b₆]
  exact ⟨rfl, rfl⟩

theorem Sprintf_ssh (domain repoPath : String) :
    Sprintf "git@%s:%s" [domain, repoPath] = "git@" ++ domain ++ ":" ++ repoPath := by
  apply String.ext
  simp [Sprintf, String.data_append, sprintfChars]

theorem Sprintf_https (domain repoPath : String) :
    Sprintf "https://%s/%s" [domain, repoPath] = "https://" ++ domain ++ "/" ++ repoPath := by
  apply String.ext
  simp [Sprintf, String.data_append, sprintfChars]

theorem suffix_of_append_sep (s x y : List Char) (sep : Char) (hsep : sep ∉ s)
    (h : s <:+ x ++ sep :: y) : s <:+ y := by
  obtain ⟨pre, hpre⟩ := h
  rcases List.append_eq_append_iff.1 hpre with ⟨a', _, hs⟩ | ⟨c', _, hs⟩
  · rw [hs] at hsep
    exact absurd (List.mem_append_right _ (List.mem_cons_self _ _)) hsep
  · cases c' with
    | nil =>
      simp only [List.nil_append] at hs
      rw [← hs] at hsep
      exact absurd (List.mem_cons_self _ _) hsep
    | cons a as =>
      simp only [List.cons_append, List.cons.injEq] at hs
      exact ⟨as, hs.2.symm⟩

theorem HasSuffix_owner_repo (o r : String) (hr : HasSuffix r ".git" = false) :
    HasSuffix (o ++ "/" ++ r) ".git" = false := by
  rw [Bool.eq_false_iff] at hr ⊢
  intro h
  apply hr
  rw [HasSuffix_iff] at h ⊢
  have hd : (o ++ "/" ++ r).data = o.data ++ '/' :: r.data := by
    simp [String.data_append]
  rw [hd] at h
  exact suffix_of_append_sep _ _ _ '/' (by decide) h

theorem BuildRemoteURL_eq (lower : Char → Char) (platform d o r : String) (useSSH : Bool)
    (hd : d ≠ "")
    (hr : HasSuffix r ".git" = false) :
    BuildRemoteURL lower platform d (o ++ "/" ++ r) useSSH
      = if useSSH then "git@" ++ d ++ ":" ++ (o ++ "/" ++ r ++ ".git")
        else "https://" ++ d ++ "/" ++ (o ++ "/" ++ r ++ ".git") := by
  simp only [BuildRemoteURL, hd, if_false, HasSuffix_owner_repo o r hr, Bool.not_false,
    if_true, (GetPlatformURLConfig_formats lower platform).1,
    (GetPlatformURLConfig_formats lower platform).2, Sprintf_ssh, Sprintf_https]

theorem takeWhile_ne_sep (d rest : List Char) (sep : Char) (hsep : sep ∉ d) :
    (d ++ sep :: rest).takeWhile (fun c => c ≠ sep) = d := by
  rw [List.takeWhile_append_of_pos]
  · simp
  · intro a ha
    simp only [ne_eq, decide_not, Bool.not_eq_true', decide_eq_false_iff_not]
    intro h
    exact hsep (h ▸ ha)

theorem matchHostPath_built (pre d path : List Char) (sep : Char) (hd : d ≠ [])
    (hsep : sep ∉ d) :
    matchHostPath pre sep (pre ++ (d ++ sep :: path))
      = match matchLazyPath path with
        | some group => some (d, group)
        | none => none := by
  unfold matchHostPath
  have hp : pre.isPrefixOf (pre ++ (d ++ sep :: path)) = true := by
    rw [List.isPrefixOf_iff_prefix]
    exact List.prefix_append _ _
  simp only [hp, if_true, List.drop_left, takeWhile_ne_sep d path sep hsep, hd, if_false]

theorem matchHostPath_no_prefix (pre text : List Char) (sep : Char)
    (h : pre.isPrefixOf text = false) : matchHostPath pre sep text = none := by
  simp [matchHostPath, h]

theorem matchLazyPath_git (p : List Char) (hp : p ≠ []) (hnl : '\n' ∉ p) :
    matchLazyPath (p ++ ['.', 'g', 'i', 't']) = some p := by
  unfold matchLazyPath
  have h₁ : (p ++ ['.', 'g', 'i', 't']).contains '\n' = false := by
    rw [Bool.eq_false_iff]
    intro h
    rw [List.contains_iff_exists_mem_beq] at h
    obtain ⟨a', h, ha'⟩ := h
    have ha'' : '\n' = a' := by simpa using ha'
    subst ha''
    rcases List.mem_append.1 h with h | h
    · exact hnl h
    · revert h; decide
  have h₂ : p ++ ['.', 'g', 'i', 't'] ≠ [] := by simp
  have h₃ : (".git".data.isSuffixOf (p ++ ['.', 'g', 'i', 't'])) = true := by
    rw [List.isSuffixOf_iff_suffix]
    exact List.suffix_append _ _
  have h₄ : (p ++ ['.', 'g', 'i', 't']).length > 4 := by
    have : 0 < p.length := List.length_pos.2 hp
    simp only [List.length_append, List.length_cons, List.length_nil]
    omega
  simp only [h₁, h₂, h₃, h₄, if_false, decide_True, Bool.and_self, if_true]
  simp

theorem splitChars_no_sep (sep : Char) (l : List Char) (h : sep ∉ l) :
    splitChars sep l = [l] := by
  induction l with
  | nil => rfl
  | cons c cs ih =>
    have hc : c ≠ sep := fun hc => h (hc ▸ List.mem_cons_self _ _)
    have hcs : sep ∉ cs := fun hm => h (List.mem_cons_of_mem _ hm)
    simp [splitChars, hc, ih hcs]

theorem splitChars_append_sep (sep : Char) (x y : List Char) (h : sep ∉ x) :
    splitChars sep (x ++ sep :: y) = x :: splitChars sep y := by
  induction x with
  | nil => simp [splitChars]
  | cons c cs ih =>
    have hc : c ≠ sep := fun hc => h (hc ▸ List.mem_cons_self _ _)
    have hcs : sep ∉ cs := fun hm => h (List.mem_cons_of_mem _ hm)
    simp [splitChars, hc, ih hcs]

theorem TrimSuffix_of_not_HasSuffix (s suffix : String) (h : HasSuffix s suffix = false) :
    TrimSuffix s suffix = s := by
  simp [TrimSuffix, h]

theorem ownerRepoOf_owner_repo (o r : String) (ho : '/' ∉ o.data) (hr : '/' ∉ r.data)
    (hgit : HasSuffix r ".git" = false) :
    ownerRepoOf (o.data ++ '/' :: r.data) = some (o, r) := by
  unfold ownerRepoOf
  rw [splitChars_append_sep '/' _ _ ho, splitChars_no_sep '/' _ hr]
  simp [TrimSuffix_of_not_HasSuffix r ".git" hgit]

theorem TrimSpace_of_prefix_suffix (n pre : String) (c : Char)
    (hpre : HasPrefix n pre = true) (hc : pre.data.head? = some c)
    (hspace : isSpace c = false) (hsuf : HasSuffix n ".git" = true) :
    TrimSpace n = n := by
  obtain ⟨rest, hrest⟩ := head?_of_HasPrefix n pre c hpre hc
  have hlast : n.data.getLast? = some 't' :=
    getLast?_of_suffix n.data ".git".data 't' ((HasSuffix_iff _ _).1 hsuf) rfl
  exact TrimSpace_eq_self n c 't' rest hrest hspace hlast (by decide)

theorem NormalizeURL_ssh_fixed (n : String) (hpre : HasPrefix n "git@" = true)
    (hsuf : HasSuffix n ".git" = true) : NormalizeURL n = Except.ok (n, true) := by
  have hfix := NormalizeURL_fixed n "git@" 'g' hpre rfl (by decide) hsuf
  simp [NormalizeURL, hfix.1, hfix.2, hpre, WithGitSuffix, hsuf]

theorem NormalizeURL_https_fixed (n : String) (hpre : HasPrefix n "https://" = true)
    (hsuf : HasSuffix n ".git" = true) : NormalizeURL n = Except.ok (n, false) := by
  have hfix := NormalizeURL_fixed n "https://" 'h' hpre rfl (by decide) hsuf
  obtain ⟨rest, hrest⟩ := head?_of_HasPrefix n "https://" 'h' hpre rfl
  have hg := not_HasPrefix_of_head n "git@" 'h' 'g' rest hrest rfl (by decide)
  have hs := not_HasPrefix_of_head n "ssh://" 'h' 's' rest hrest rfl (by decide)
  simp [NormalizeURL, hfix.1, hfix.2, hpre, hg, hs, WithGitSuffix, hsuf]

theorem sshURL_data (d o r : String) :
    ("git@" ++ d ++ ":" ++ (o ++ "/" ++ r ++ ".git")).data
      = ['g', 'i', 't', '@'] ++ (d.data ++ ':' :: ((o.data ++ '/' :: r.data)
          ++ ['.', 'g', 'i', 't'])) := by
  simp [String.data_append]

theorem httpsURL_data (d o r : String) :
    ("https://" ++ d ++ "/" ++ (o ++ "/" ++ r ++ ".git")).data
      = ['h', 't', 't', 'p', 's', ':', '/', '/'] ++ (d.data ++ '/' :: ((o.data ++ '/' :: r.data)
          ++ ['.', 'g', 'i', 't'])) := by
  simp [String.data_append]

theorem data_ne_nil (s : String) (h : s ≠ "") : s.data ≠ [] := by
  intro hd
  apply h
  apply String.ext
  rw [hd]

theorem no_linefeed (o r : String) (ho : ∀ c ∈ o.data, isSpace c = false)
    (hr : ∀ c ∈ r.data, isSpace c = false) : '\n' ∉ o.data ++ '/' :: r.data := by
  intro h
  rcases List.mem_append.1 h with h | h
  · exact absurd (ho _ h) (by decide)
  · rcases List.mem_cons.1 h with h | h
    · exact absurd h (by decide)
    · exact absurd (hr _ h) (by decide)

/-- C23. For every platform, every domain `d` that is not empty and contains
neither `:` nor `/`, every owner `o` and repository name `r` that contain no
`/` and no white space (so no line feed), with `r` not ending in `.git`, and
both values of `useSSH`: the URL `BuildRemoteURL` builds for `o/r` is
`git@d:o/r.git` for SSH and `https://d/o/r.git` otherwise, and `ParseURL` of it
succeeds with that owner, repository, host and `IsSSH`. An owner and a name
that are not empty are a case of this. -/
theorem ParseURL_BuildRemoteURL (lower : Char → Char) (platform d o r : String) (useSSH : Bool)
    (hd : d ≠ "") (hd₁ : ':' ∉ d.data) (hd₂ : '/' ∉ d.data)
    (ho₁ : '/' ∉ o.data) (ho₂ : ∀ c ∈ o.data, isSpace c = false)
    (hr₁ : '/' ∉ r.data) (hr₂ : ∀ c ∈ r.data, isSpace c = false)
    (hr₃ : HasSuffix r ".git" = false) :
    BuildRemoteURL lower platform d (o ++ "/" ++ r) useSSH
        = (if useSSH then "git@" ++ d ++ ":" ++ (o ++ "/" ++ r ++ ".git")
           else "https://" ++ d ++ "/" ++ (o ++ "/" ++ r ++ ".git"))
      ∧ ∃ info : URLInfo,
          ParseURL lower (BuildRemoteURL lower platform d (o ++ "/" ++ r) useSSH) = Except.ok info
            ∧ info.Owner = o ∧ info.Repo = r ∧ info.Host = d ∧ info.IsSSH = useSSH := by
  have hbuild := BuildRemoteURL_eq lower platform d o r useSSH hd hr₃
  refine ⟨hbuild, ?_⟩
  rw [hbuild]
  have hdn := data_ne_nil d hd
  have hpath : o.data ++ '/' :: r.data ≠ [] := by simp
  have hlazy := matchLazyPath_git (o.data ++ '/' :: r.data) hpath (no_linefeed o r ho₂ hr₂)
  have howner := ownerRepoOf_owner_repo o r ho₁ hr₁ hr₃
  cases useSSH with
  | true =>
    simp only [if_true]
    generalize hS : "git@" ++ d ++ ":" ++ (o ++ "/" ++ r ++ ".git") = S
    have hdata : S.data = ['g', 'i', 't', '@'] ++ (d.data ++ ':' :: ((o.data ++ '/' :: r.data)
        ++ ['.', 'g', 'i', 't'])) := by
      rw [← hS]; exact sshURL_data d o r
    have hpre : HasPrefix S "git@" = true := by
      rw [HasPrefix_iff, hdata]
      exact List.prefix_append _ _
    have hsuf : HasSuffix S ".git" = true := by
      rw [HasSuffix_iff, hdata]
      exact ⟨['g', 'i', 't', '@'] ++ (d.data ++ ':' :: (o.data ++ '/' :: r.data)), by simp⟩
    have hne : S ≠ "" := (NormalizeURL_fixed S "git@" 'g' hpre rfl (by decide) hsuf).2
    have htrim := TrimSpace_of_prefix_suffix S "git@" 'g' hpre rfl (by decide) hsuf
    have hmatch : sshPattern S.data = some (d.data, o.data ++ '/' :: r.data) := by
      rw [hdata]
      unfold sshPattern
      have := matchHostPath_built ['g', 'i', 't', '@'] d.data
        ((o.data ++ '/' :: r.data) ++ ['.', 'g', 'i', 't']) ':' hdn hd₁
      rw [hlazy] at this
      exact this
    have hrepo : ParseRepoFromURL S = Except.ok (o, r) := by
      simp only [ParseRepoFromURL, hne, if_false, htrim, tryPattern, hmatch, howner]
    have hhost : detectHost S = d := by
      simp only [detectHost, hpre, if_true, hdata]
      apply String.ext
      show (List.drop 4 (['g', 'i', 't', '@'] ++ (d.data ++ ':' :: _))).takeWhile _ = d.data
      exact takeWhile_ne_sep d.data _ ':' hd₁
    refine ⟨{ URL := S, IsSSH := true, Host := detectHost S, Owner := o, Repo := r,
              Platform := detectPlatform lower (detectHost S) }, ?_, rfl, rfl, hhost, rfl⟩
    simp only [ParseURL, NormalizeURL_ssh_fixed S hpre hsuf, hrepo]
  | false =>
    simp only [Bool.false_eq_true, if_false]
    generalize hS : "https://" ++ d ++ "/" ++ (o ++ "/" ++ r ++ ".git") = S
    have hdata : S.data = ['h', 't', 't', 'p', 's', ':', '/', '/']
        ++ (d.data ++ '/' :: ((o.data ++ '/' :: r.data) ++ ['.', 'g', 'i', 't'])) := by
      rw [← hS]; exact httpsURL_data d o r
    have hpre : HasPrefix S "https://" = true := by
      rw [HasPrefix_iff, hdata]
      exact List.prefix_append _ _
    have hsuf : HasSuffix S ".git" = true := by
      rw [HasSuffix_iff, hdata]
      exact ⟨['h', 't', 't', 'p', 's', ':', '/', '/']
        ++ (d.data ++ '/' :: (o.data ++ '/' :: r.data)), by simp⟩
    have hne : S ≠ "" := (NormalizeURL_fixed S "https://" 'h' hpre rfl (by decide) hsuf).2
    have htrim := TrimSpace_of_prefix_suffix S "https://" 'h' hpre rfl (by decide) hsuf
    obtain ⟨rest, hrest⟩ := head?_of_HasPrefix S "https://" 'h' hpre rfl
    have hg : HasPrefix S "git@" = false :=
      not_HasPrefix_of_head S "git@" 'h' 'g' rest hrest rfl (by decide)
    have hs : HasPrefix S "ssh://git@" = false :=
      not_HasPrefix_of_head S "ssh://git@" 'h' 's' rest hrest rfl (by decide)
    have hm₁ : sshPattern S.data = none := matchHostPath_no_prefix _ _ _ hg
    have hm₂ : sshURLPattern S.data = none := matchHostPath_no_prefix _ _ _ hs
    have hmatch : httpsPattern S.data = some (d.data, o.data ++ '/' :: r.data) := by
      rw [hdata]
      unfold httpsPattern
      have := matchHostPath_built ['h', 't', 't', 'p', 's', ':', '/', '/'] d.data
        ((o.data ++ '/' :: r.data) ++ ['.', 'g', 'i', 't']) '/' hdn hd₂
      rw [hlazy] at this
      have hlit : ("https://" : String).data = ['h', 't', 't', 'p', 's', ':', '/', '/'] := rfl
      rw [hlit, this]
    have hrepo : ParseRepoFromURL S = Except.ok (o, r) := by
      simp only [ParseRepoFromURL, hne, if_false, htrim, tryPattern, hm₁, hm₂, hmatch,
        howner]
    have hhost : detectHost S = d := by
      have htw : (List.drop 8 S.data).takeWhile (fun c => c ≠ '/') = d.data := by
        rw [hdata]
        show (List.drop 8 (['h', 't', 't', 'p', 's', ':', '/', '/']
          ++ (d.data ++ '/' :: _))).takeWhile _ = d.data
        exact takeWhile_ne_sep d.data _ '/' hd₂
      simp only [detectHost, hg, hs, hpre, if_true, htw, hdn, if_false, Bool.false_eq_true]
    refine ⟨{ URL := S, IsSSH := false, Host := detectHost S, Owner := o, Repo := r,
              Platform := detectPlatform lower (detectHost S) }, ?_, rfl, rfl, hhost, rfl⟩
    simp only [ParseURL, NormalizeURL_https_fixed S hpre hsuf, hrepo]

/-- C24, the code at the failing input. The store holds `work` and `personal`,
whose names are distinct under case folding. The user selects the second
account and enters the label `Work`: `runEditAccount` stores it, and the names
`work` and `Work` are no longer distinct. The check `runAddAccount` makes
before it accepts a label, `CheckNameDuplicate`, rejects `Work` for this
store. -/
theorem runEditAccount_creates_duplicate_name :
    namesDistinct EqualFoldASCII [accountNamed "work", accountNamed "personal"]
      ∧ runEditAccount answerWork [accountNamed "work", accountNamed "personal"]
          (Except.ok 1) = [accountNamed "work", accountNamed "Work"]
      ∧ ¬ namesDistinct EqualFoldASCII
          (runEditAccount answerWork [accountNamed "work", accountNamed "personal"]
            (Except.ok 1))
      ∧ CheckNameDuplicate EqualFoldASCII [accountNamed "work", accountNamed "personal"]
          "Work" = true := by
  unfold namesDistinct
  decide

/-- C25, the code at the failing input. For `codeberg` and an empty domain,
`GetPlatformSSHHost` returns `github.com`, while `GetDefaultDomain` returns
`codeberg.org`, the host `BuildSSHRemoteURL` puts in the URL. For `github`,
`gitlab` and `bitbucket` the two agree. -/
theorem GetPlatformSSHHost_codeberg_is_github :
    GetPlatformSSHHost "codeberg" "" = "github.com"
      ∧ GetDefaultDomain Char.toLower "codeberg" = "codeberg.org"
      ∧ BuildSSHRemoteURL Char.toLower "codeberg" "" "o/r" = "git@codeberg.org:o/r.git"
      ∧ GetPlatformSSHHost "github" "" = GetDefaultDomain Char.toLower "github"
      ∧ GetPlatformSSHHost "gitlab" "" = GetDefaultDomain Char.toLower "gitlab"
      ∧ GetPlatformSSHHost "bitbucket" "" = GetDefaultDomain Char.toLower "bitbucket" := by
  decide

theorem TrimSpace_occurs (u : String) : (TrimSpace u).data <:+: u.data := by
  simp only [TrimSpace]
  have h₁ : (u.data.dropWhile isSpace) <:+ u.data := List.dropWhile_suffix _
  have h₂ : ((u.data.dropWhile isSpace).reverse.dropWhile isSpace).reverse
      <+: u.data.dropWhile isSpace := by
    have := List.dropWhile_suffix (l := (u.data.dropWhile isSpace).reverse) isSpace
    have := List.reverse_prefix.2 this
    simpa using this
  exact h₂.isInfix.trans h₁.isInfix

theorem TrimSuffix_occurs (t suffix : String) : (TrimSuffix t suffix).data <+: t.data := by
  unfold TrimSuffix
  split
  · exact List.take_prefix _ _
  · exact List.prefix_refl _

theorem NormalizeURL_shape (u n : String) (isSSH : Bool)
    (h : NormalizeURL u = Except.ok (n, isSSH)) :
    ∃ t : String, t.data <:+: u.data ∧ HasSuffix n ".git" = true
      ∧ (n.data = t.data ∨ n.data = t.data ++ ['.', 'g', 'i', 't']) := by
  refine ⟨TrimSuffix (TrimSpace u) "#",
    (TrimSuffix_occurs _ _).isInfix.trans (TrimSpace_occurs u), ?_⟩
  have hn : n = WithGitSuffix (TrimSuffix (TrimSpace u) "#") := by
    unfold NormalizeURL at h
    split at h
    · cases h
    · simp only at h
      split at h
      · simp only [Except.ok.injEq, Prod.mk.injEq] at h
        exact h.1.symm
      · split at h
        · simp only [Except.ok.injEq, Prod.mk.injEq] at h
          exact h.1.symm
        · cases h
  rw [hn]
  refine ⟨HasSuffix_WithGitSuffix _, ?_⟩
  unfold WithGitSuffix
  split
  · exact Or.inl rfl
  · right
    simp [String.data_append]

theorem dropWhile_head_not (p : Char → Bool) (l : List Char) (c : Char) (tail : List Char)
    (h : l.dropWhile p = c :: tail) : p c = false := by
  induction l with
  | nil => simp at h
  | cons a as ih =>
    by_cases ha : p a = true
    · rw [List.dropWhile_cons_of_pos ha] at h
      exact ih h
    · rw [List.dropWhile_cons_of_neg ha] at h
      simp only [List.cons.injEq] at h
      rw [← h.1]
      simpa using ha

theorem host_occurs (init rest t : List Char) (c₀ sep : Char)
    (hc₀ : c₀ ∉ ['.', 'g', 'i', 't']) (hsep : sep ∉ ['.', 'g', 'i', 't'])
    (hsuf : ['.', 'g', 'i', 't'] <:+ init ++ c₀ :: rest)
    (hn : init ++ c₀ :: rest = t ∨ init ++ c₀ :: rest = t ++ ['.', 'g', 'i', 't'])
    (hhost : ¬ ['.', 'g', 'i', 't'] <:+ rest.takeWhile (fun c => c ≠ sep)) :
    rest.takeWhile (fun c => c ≠ sep) <:+: t := by
  have hsplit := List.takeWhile_append_dropWhile (fun c => decide (c ≠ sep)) rest
  cases hdw : rest.dropWhile (fun c => decide (c ≠ sep)) with
  | nil =>
    rw [hdw, List.append_nil] at hsplit
    have := suffix_of_append_sep _ _ _ c₀ hc₀ hsuf
    rw [hsplit] at hhost
    exact absurd this hhost
  | cons c tail =>
    have hc : c = sep := by
      have := dropWhile_head_not _ _ _ _ hdw
      simpa using this
    subst hc
    rw [hdw] at hsplit
    have hdata : init ++ c₀ :: rest
        = (init ++ [c₀] ++ rest.takeWhile (fun x => x ≠ c)) ++ c :: tail := by
      conv_lhs => rw [← hsplit]
      simp
    rcases hn with hn | hn
    · rw [← hn, hdata]
      exact ⟨init ++ [c₀], c :: tail, by simp⟩
    · rw [hdata] at hn
      rcases List.append_eq_append_iff.1 hn with ⟨a', ht, _⟩ | ⟨c', _, hgit⟩
      · rw [ht]
        exact ⟨init ++ [c₀], a', by simp⟩
      · exfalso
        apply hsep
        rw [hgit]
        exact List.mem_append_right _ (List.mem_cons_self _ _)

theorem drop_of_HasPrefix (n pre : String) (h : HasPrefix n pre = true) :
    n.data = pre.data ++ n.data.drop pre.data.length := by
  rw [HasPrefix_iff] at h
  obtain ⟨x, hx⟩ := h
  rw [← hx]
  simp

theorem detectHost_occurs (n : String) (t : List Char)
    (hsuf : HasSuffix n ".git" = true)
    (hn : n.data = t ∨ n.data = t ++ ['.', 'g', 'i', 't'])
    (hne : detectHost n ≠ "")
    (hgit : ¬ ['.', 'g', 'i', 't'] <:+ (detectHost n).data) :
    (detectHost n).data <:+: t := by
  rw [HasSuffix_iff] at hsuf
  have hlit : (".git" : String).data = ['.', 'g', 'i', 't'] := rfl
  rw [hlit] at hsuf
  unfold detectHost at hne hgit ⊢
  split
  · rename_i hp
    rw [if_pos hp] at hgit
    have hd := drop_of_HasPrefix n "git@" hp
    have hd' : n.data = ['g', 'i', 't'] ++ '@' :: n.data.drop 4 := hd
    rw [hd'] at hsuf hn
    exact host_occurs ['g', 'i', 't'] _ t '@' ':' (by decide) (by decide) hsuf hn hgit
  · rename_i hp₁
    rw [if_neg hp₁] at hgit hne
    split
    · rename_i hp
      rw [if_pos hp] at hgit
      have hd := drop_of_HasPrefix n "ssh://git@" hp
      have hd' : n.data = ['s', 's', 'h', ':', '/', '/', 'g', 'i', 't'] ++ '@' :: n.data.drop 10 :=
        hd
      rw [hd'] at hsuf hn
      exact host_occurs _ _ t '@' '/' (by decide) (by decide) hsuf hn hgit
    · rename_i hp₂
      rw [if_neg hp₂] at hgit hne
      split
      · rename_i hp
        rw [if_pos hp] at hgit hne
        have hd := drop_of_HasPrefix n "https://" hp
        have hd' : n.data = ['h', 't', 't', 'p', 's', ':', '/'] ++ '/' :: n.data.drop 8 := hd
        rw [hd'] at hsuf hn
        by_cases hh : (n.data.drop 8).takeWhile (fun c => c ≠ '/') = []
        · simp only [hh, if_true] at hne
          exact absurd rfl hne
        · simp only [hh, if_false] at hgit ⊢
          exact host_occurs _ _ t '/' '/' (by decide) (by decide) hsuf hn hgit
      · rename_i hp₃
        rw [if_neg hp₃] at hgit hne
        split
        · rename_i hp
          rw [if_pos hp] at hgit hne
          have hd := drop_of_HasPrefix n "http://" hp
          have hd' : n.data = ['h', 't', 't', 'p', ':', '/'] ++ '/' :: n.data.drop 7 := hd
          rw [hd'] at hsuf hn
          by_cases hh : (n.data.drop 7).takeWhile (fun c => c ≠ '/') = []
          · simp only [hh, if_true] at hne
            exact absurd rfl hne
          · simp only [hh, if_false] at hgit ⊢
            exact host_occurs _ _ t '/' '/' (by decide) (by decide) hsuf hn hgit
        · rename_i hp₄
          rw [if_neg hp₄] at hne
          exact absurd rfl hne

theorem ParseURL_host (lower : Char → Char) (u : String) (info : URLInfo)
    (h : ParseURL lower u = Except.ok info) :
    ∃ n isSSH, NormalizeURL u = Except.ok (n, isSSH) ∧ info.Host = detectHost n
      ∧ info.Platform = detectPlatform lower info.Host := by
  unfold ParseURL at h
  cases hN : NormalizeURL u with
  | error e => rw [hN] at h; cases h
  | ok r =>
    obtain ⟨n, isSSH⟩ := r
    rw [hN] at h
    simp only at h
    cases hR : ParseRepoFromURL n with
    | error e => rw [hR] at h; cases h
    | ok p =>
      obtain ⟨owner, repo⟩ := p
      rw [hR] at h
      simp only [Except.ok.injEq] at h
      subst h
      exact ⟨n, isSSH, rfl, rfl, rfl⟩

theorem Contains_ToLower_host (lower : Char → Char) (hlow : LowersASCII lower) (u : String)
    (info : URLInfo) (marker : String)
    (h : ParseURL lower u = Except.ok info) (hhost : ToLower lower info.Host = marker)
    (hne : marker ≠ "") (hgit : ¬ ['.', 'g', 'i', 't'] <:+ marker.data) :
    Contains (ToLower lower u) marker = true := by
  obtain ⟨n, isSSH, hN, hH, _⟩ := ParseURL_host lower u info h
  obtain ⟨t, htu, hsuf, hn⟩ := NormalizeURL_shape u n isSSH hN
  have hne' : detectHost n ≠ "" := by
    intro h0
    rw [← hH] at h0
    rw [h0] at hhost
    exact hne (hhost.symm.trans rfl)
  have hgit' : ¬ ['.', 'g', 'i', 't'] <:+ (detectHost n).data := by
    intro hs
    apply hgit
    rw [← hhost, hH, ToLower_data]
    have := List.IsSuffix.map lower hs
    simpa [hlow '.' (by decide), hlow 'g' (by decide), hlow 'i' (by decide),
      hlow 't' (by decide)] using this
  have hocc := (detectHost_occurs n t.data hsuf hn hne' hgit').trans htu
  unfold Contains
  rw [containsChars_iff_occurs, ← hhost, hH, ToLower_data, ToLower_data]
  exact List.IsInfix.map lower hocc

/-- C26 (amended). For every URL `u` that `ParseURL` accepts and whose host is
`github.com`, `gitlab.com`, `bitbucket.org` or `codeberg.org` in any letter
case (its lower-cased form is that name), the `Platform` field of the result
equals `DetectPlatformFromURL(u)`, provided the lower-cased `u` contains none of
the markers that `DetectPlatformFromURL` tests before the marker of that host.
The rune map lower-cases ASCII as `unicode.ToLower` does. -/
theorem ParseURL_Platform_eq_DetectPlatformFromURL (lower : Char → Char)
    (hlow : LowersASCII lower) (u : String) (info : URLInfo)
    (h : ParseURL lower u = Except.ok info) :
    (ToLower lower info.Host = "github.com" →
        info.Platform = "github" ∧ DetectPlatformFromURL lower u = "github")
      ∧ (ToLower lower info.Host = "gitlab.com" →
          Contains (ToLower lower u) "github.com" = false →
          Contains (ToLower lower u) "github:" = false →
          info.Platform = "gitlab" ∧ DetectPlatformFromURL lower u = "gitlab")
      ∧ (ToLower lower info.Host = "bitbucket.org" →
          Contains (ToLower lower u) "github.com" = false →
          Contains (ToLower lower u) "github:" = false →
          Contains (ToLower lower u) "gitlab.com" = false →
          Contains (ToLower lower u) "gitlab:" = false →
          info.Platform = "bitbucket" ∧ DetectPlatformFromURL lower u = "bitbucket")
      ∧ (ToLower lower info.Host = "codeberg.org" →
          Contains (ToLower lower u) "github.com" = false →
          Contains (ToLower lower u) "github:" = false →
          Contains (ToLower lower u) "gitlab.com" = false →
          Contains (ToLower lower u) "gitlab:" = false →
          Contains (ToLower lower u) "bitbucket.org" = false →
          Contains (ToLower lower u) "bitbucket:" = false →
          info.Platform = "codeberg" ∧ DetectPlatformFromURL lower u = "codeberg") := by
  obtain ⟨n, isSSH, _, _, hP⟩ := ParseURL_host lower u info h
  refine ⟨?_, ?_, ?_, ?_⟩
  · intro hH
    have hc := Contains_ToLower_host lower hlow u info "github.com" h hH (by decide) (by decide)
    refine ⟨?_, DetectPlatformFromURL_github lower u hc⟩
    rw [hP]
    simp only [detectPlatform, hH]
    decide
  · intro hH h₁ h₂
    have hc := Contains_ToLower_host lower hlow u info "gitlab.com" h hH (by decide) (by decide)
    refine ⟨?_, DetectPlatformFromURL_gitlab lower u hc h₁ h₂⟩
    rw [hP]
    simp only [detectPlatform, hH]
    decide
  · intro hH h₁ h₂ h₃ h₄
    have hc := Contains_ToLower_host lower hlow u info "bitbucket.org" h hH (by decide) (by decide)
    refine ⟨?_, DetectPlatformFromURL_bitbucket lower u hc h₁ h₂ h₃ h₄⟩
    rw [hP]
    simp only [detectPlatform, hH]
    decide
  · intro hH h₁ h₂ h₃ h₄ h₅ h₆
    have hc := Contains_ToLower_host lower hlow u info "codeberg.org" h hH (by decide) (by decide)
    refine ⟨?_, ?_⟩
    · rw [hP]
      simp only [detectPlatform, hH]
      decide
    · simp [DetectPlatformFromURL, h₁, h₂, h₃, h₄, h₅, h₆, hc, PlatformCodeberg]

/-- C26, counterexample. `ParseURL` accepts both URLs. For the first the host
is `gitlab.com` and the path holds `github.com`: the platform of `ParseURL` is
gitlab, that of `DetectPlatformFromURL` is github. For the second the host is
the SSH alias `github-work`: the platform of `ParseURL` is github, that of
`DetectPlatformFromURL` is other. -/
theorem ParseURL_Platform_ne_DetectPlatformFromURL :
    (ParseURL Char.toLower "https://gitlab.com/user/github.com.git"
        = Except.ok { URL := "https://gitlab.com/user/github.com.git", IsSSH := false,
                      Host := "gitlab.com", Owner := "user", Repo := "github.com",
                      Platform := "gitlab" }
      ∧ DetectPlatformFromURL Char.toLower "https://gitlab.com/user/github.com.git" = "github")
    ∧ (ParseURL Char.toLower "git@github-work:o/r.git"
        = Except.ok { URL := "git@github-work:o/r.git", IsSSH := true,
                      Host := "github-work", Owner := "o", Repo := "r",
                      Platform := "github" }
      ∧ DetectPlatformFromURL Char.toLower "git@github-work:o/r.git" = "other") :=
  ⟨⟨rfl, by decide⟩, ⟨rfl, by decide⟩⟩

/-- C26, on a URL of `TestDetectPlatformFromURL` with spaces around it: host
`gitlab.com`, both detectors give gitlab. -/
theorem ParseURL_Platform_eq_DetectPlatformFromURL_witness :
    ({ URL := "git@gitlab.com:user/repo.git", IsSSH := true, Host := "gitlab.com",
       Owner := "user", Repo := "repo", Platform := "gitlab" } : URLInfo).Platform = "gitlab"
      ∧ DetectPlatformFromURL Char.toLower "  git@gitlab.com:user/repo  " = "gitlab" :=
  (ParseURL_Platform_eq_DetectPlatformFromURL Char.toLower (fun _ _ => rfl)
    "  git@gitlab.com:user/repo  "
    { URL := "git@gitlab.com:user/repo.git", IsSSH := true, Host := "gitlab.com",
      Owner := "user", Repo := "repo", Platform := "gitlab" } rfl).2.1
    (by decide) (by decide) (by decide)

/-! ## The selector -/

theorem Update_items (m : SelectorModel) (msg : Msg) : (m.Update msg).items = m.items := by
  cases msg with
  | WindowSizeMsg w h => rfl
  | other => rfl
  | KeyMsg key =>
    simp only [SelectorModel.Update]
    repeat (first | rfl | split)

theorem Update_Valid (m : SelectorModel) (msg : Msg) (h : m.Valid) : (m.Update msg).Valid := by
  obtain ⟨h0, h1, h2⟩ := h
  cases msg with
  | WindowSizeMsg w h => exact ⟨h0, h1, h2⟩
  | other => exact ⟨h0, h1, h2⟩
  | KeyMsg key =>
    simp only [SelectorModel.Update]
    repeat (first | split | (refine ⟨?_, ?_, ?_⟩ <;> simp_all <;> omega))

theorem foldl_Update_items (msgs : List Msg) (m : SelectorModel) :
    (msgs.foldl SelectorModel.Update m).items = m.items := by
  induction msgs generalizing m with
  | nil => rfl
  | cons msg rest ih => rw [List.foldl_cons, ih, Update_items]

theorem foldl_Update_Valid (msgs : List Msg) (m : SelectorModel) (h : m.Valid) :
    (msgs.foldl SelectorModel.Update m).Valid := by
  induction msgs generalizing m with
  | nil => exact h
  | cons msg rest ih => exact ih _ (Update_Valid m msg h)

theorem NewSelector_Valid (title : String) (items : List SelectorItem) (h : items ≠ []) :
    (NewSelector title items).Valid := by
  refine ⟨le_refl _, ?_, Or.inl rfl⟩
  show (0 : Int) < (items.length : Int)
  have := List.length_pos.mpr h
  omega

theorem Selected_cases (m : SelectorModel) : m.Selected = -1 ∨ m.Selected = m.selected := by
  unfold SelectorModel.Selected
  split
  · exact Or.inl rfl
  · exact Or.inr rfl

/-- C27: for a selector made by `NewSelector` from at least one item, after
any finite sequence of messages passed to `Update` (keys of any text, window
sizes, other messages) the items are unchanged, the cursor is at least 0 and
below the number of items, and `Selected` is -1 or at least 0 and below the
number of items; from there, the keys `up` and `k` with the cursor at 0 move
it to the last index, and the keys `down` and `j` with the cursor at the last
index move it to 0. -/
theorem Update_keeps_cursor_and_selection_valid (title : String)
    (items : List SelectorItem) (hne : items ≠ []) (msgs : List Msg) :
    (msgs.foldl SelectorModel.Update (NewSelector title items)).items = items
      ∧ 0 ≤ (msgs.foldl SelectorModel.Update (NewSelector title items)).cursor
      ∧ (msgs.foldl SelectorModel.Update (NewSelector title items)).cursor
          < (items.length : Int)
      ∧ ((msgs.foldl SelectorModel.Update (NewSelector title items)).Selected = -1
          ∨ (0 ≤ (msgs.foldl SelectorModel.Update (NewSelector title items)).Selected
              ∧ (msgs.foldl SelectorModel.Update (NewSelector title items)).Selected
                  < (items.length : Int)))
      ∧ ((msgs.foldl SelectorModel.Update (NewSelector title items)).cursor = 0 →
          ∀ key, key = "up" ∨ key = "k" →
            ((msgs.foldl SelectorModel.Update (NewSelector title items)).Update
              (Msg.KeyMsg key)).cursor = (items.length : Int) - 1)
      ∧ ((msgs.foldl SelectorModel.Update (NewSelector title items)).cursor
            = (items.length : Int) - 1 →
          ∀ key, key = "down" ∨ key = "j" →
            ((msgs.foldl SelectorModel.Update (NewSelector title items)).Update
              (Msg.KeyMsg key)).cursor = 0) := by
  have hitems := foldl_Update_items msgs (NewSelector title items)
  have hvalid := foldl_Update_Valid msgs _ (NewSelector_Valid title items hne)
  generalize msgs.foldl SelectorModel.Update (NewSelector title items) = m at hitems hvalid
  have hi : m.items = items := hitems
  obtain ⟨h0, h1, h2⟩ := hvalid
  rw [hi] at h1 h2
  refine ⟨hi, h0, h1, ?_, ?_, ?_⟩
  · rcases Selected_cases m with h | h
    · exact Or.inl h
    · rw [h]
      exact h2
  · intro hc key hkey
    rcases hkey with rfl | rfl <;> simp [SelectorModel.Update, hc, hi]
  · intro hc key hkey
    rcases hkey with rfl | rfl <;> simp [SelectorModel.Update, hc, hi]

/-- C27, on three items and the keys `up`, `pgdown`, `down`, `enter`: the
cursor goes 0, 2, 2, 0, and the selection is index 0. -/
theorem Update_keeps_cursor_and_selection_valid_witness :
    selectorItems ≠ []
      ∧ (selectorKeys.foldl SelectorModel.Update (NewSelector "Pick" selectorItems)).cursor = 0
      ∧ (selectorKeys.foldl SelectorModel.Update (NewSelector "Pick" selectorItems)).Selected = 0
      ∧ ((selectorKeys.foldl SelectorModel.Update (NewSelector "Pick" selectorItems)).Selected = -1
          ∨ (0 ≤ (selectorKeys.foldl SelectorModel.Update
                  (NewSelector "Pick" selectorItems)).Selected
              ∧ (selectorKeys.foldl SelectorModel.Update
                  (NewSelector "Pick" selectorItems)).Selected
                  < (selectorItems.length : Int))) :=
  ⟨by decide, by decide, by decide,
    (Update_keeps_cursor_and_selection_valid "Pick" selectorItems (by decide)
      selectorKeys).2.2.2.1⟩

theorem maxVisibleItems_range (itemCount : Nat) (height : Int) (hne : 0 < itemCount) :
    1 ≤ maxVisibleItems itemCount height
      ∧ maxVisibleItems itemCount height ≤ (itemCount : Int) := by
  simp only [maxVisibleItems, wrapInt]
  split_ifs <;> omega

theorem viewportBounds_range (itemCount : Nat) (cursor maxVisible : Int)
    (h0 : 0 ≤ cursor) (h1 : cursor < (itemCount : Int)) (hm : 1 ≤ maxVisible)
    (hn : maxVisible ≤ (itemCount : Int)) :
    0 ≤ (viewportBounds itemCount cursor maxVisible).1
      ∧ (viewportBounds itemCount cursor maxVisible).1 ≤ cursor
      ∧ cursor < (viewportBounds itemCount cursor maxVisible).2
      ∧ (viewportBounds itemCount cursor maxVisible).2 ≤ (itemCount : Int)
      ∧ (viewportBounds itemCount cursor maxVisible).2
          - (viewportBounds itemCount cursor maxVisible).1 ≤ maxVisible := by
  simp only [viewportBounds]
  split_ifs <;> simp only [] <;> omega

/-- C28: in `View`, for a list of at least one item, a cursor that is an
index of it, every stored height and every terminal height reported or not,
the viewport has `0 ≤ viewportStart ≤ cursor < viewportEnd ≤ len(items)` and
`viewportEnd - viewportStart ≤ maxVisibleItems`; so every index `i` of the item
loop, `viewportStart ≤ i < viewportEnd`, is an index of the items. -/
theorem viewport_keeps_cursor_visible (itemCount : Nat) (cursor height : Int)
    (termHeight : Option Int) (hne : 0 < itemCount) (h0 : 0 ≤ cursor)
    (h1 : cursor < (itemCount : Int)) :
    0 ≤ (viewport itemCount cursor height termHeight).1
      ∧ (viewport itemCount cursor height termHeight).1 ≤ cursor
      ∧ cursor < (viewport itemCount cursor height termHeight).2
      ∧ (viewport itemCount cursor height termHeight).2 ≤ (itemCount : Int)
      ∧ (viewport itemCount cursor height termHeight).2
          - (viewport itemCount cursor height termHeight).1
          ≤ maxVisibleItems itemCount (viewHeight height termHeight)
      ∧ ∀ i : Int, (viewport itemCount cursor height termHeight).1 ≤ i →
          i < (viewport itemCount cursor height termHeight).2 →
          0 ≤ i ∧ i < (itemCount : Int) := by
  obtain ⟨hm, hn⟩ := maxVisibleItems_range itemCount (viewHeight height termHeight) hne
  obtain ⟨a, b, c, d, e⟩ := viewportBounds_range itemCount cursor _ h0 h1 hm hn
  exact ⟨a, b, c, d, e, fun i hi hj => ⟨le_trans a hi, lt_of_lt_of_le hj d⟩⟩

/-- C28, on ten items with the cursor on the last one, first in a terminal of
24 lines that reports no size (five items fit), then with the stored height 0
and a terminal of 50 lines (all ten fit). -/
theorem viewport_keeps_cursor_visible_witness :
    (viewport 10 9 24 none = (5, 10) ∧ maxVisibleItems 10 (viewHeight 24 none) = 5)
      ∧ viewport 10 9 0 (some 50) = (0, 10)
      ∧ (viewport 10 9 24 none).1 ≤ 9 ∧ 9 < (viewport 10 9 24 none).2 :=
  ⟨⟨by decide, by decide⟩, by decide,
    (viewport_keeps_cursor_visible 10 9 24 none (by decide) (by decide) (by decide)).2.1,
    (viewport_keeps_cursor_visible 10 9 24 none (by decide) (by decide) (by decide)).2.2.1⟩

/-! ## Truncation and key file names -/

theorem visibleLengthLoop_le (runes : List Char) (inEscape : Bool) (length : Nat) :
    visibleLengthLoop inEscape length runes ≤ length + runes.length := by
  induction runes generalizing inEscape length with
  | nil => simp [visibleLengthLoop]
  | cons r rest ih =>
    simp only [visibleLengthLoop, List.length_cons]
    split_ifs
    · exact le_trans (ih _ _) (by omega)
    · exact le_trans (ih _ _) (by omega)
    · exact le_trans (ih _ _) (by omega)
    · exact le_trans (ih _ _) (by omega)

theorem visibleLength_le_length (s : String) : visibleLength s ≤ (s.data.length : Int) := by
  have := visibleLengthLoop_le s.data false 0
  unfold visibleLength
  omega

/-- C29: for every string `s` and every `maxLen` of at least 3, `truncate`
returns a string (the slice `runes[:maxLen-3]` is in range whenever it is
taken); the string is `s` when `visibleLength s ≤ maxLen`, and otherwise the
first `maxLen - 3` runes of `s`, which has that many, followed by `...`; the
visible length of the string returned is at most `maxLen`. -/
theorem truncate_within_maxLen (s : String) (maxLen : Int) (h : 3 ≤ maxLen) :
    ∃ out, truncate s maxLen = some out
      ∧ (visibleLength s ≤ maxLen → out = s)
      ∧ (maxLen < visibleLength s →
          (maxLen - 3).toNat ≤ s.data.length
            ∧ out = String.mk (s.data.take (maxLen - 3).toNat) ++ "...")
      ∧ visibleLength out ≤ maxLen := by
  by_cases hv : visibleLength s ≤ maxLen
  · refine ⟨s, by simp [truncate, hv], fun _ => rfl, fun hlt => absurd hv (not_le.mpr hlt), hv⟩
  · have hlen := visibleLength_le_length s
    have hgt : (s.data.length : Int) > maxLen - 3 := by omega
    have hin : 0 ≤ maxLen - 3 ∧ maxLen - 3 ≤ (s.data.length : Int) := by omega
    have hnat : (maxLen - 3).toNat ≤ s.data.length := by omega
    refine ⟨String.mk (s.data.take (maxLen - 3).toNat) ++ "...", ?_, fun hle => absurd hle hv,
      fun _ => ⟨hnat, rfl⟩, ?_⟩
    · simp only [truncate, hv, if_false, hgt, if_true, hin, and_self]
    · have hout := visibleLength_le_length (String.mk (s.data.take (maxLen - 3).toNat) ++ "...")
      have hl : ((String.mk (s.data.take (maxLen - 3).toNat) ++ "...").data.length : Int)
          = maxLen := by
        rw [String.data_append, List.length_append, List.length_take, min_eq_left hnat]
        show (((maxLen - 3).toNat + 3 : Nat) : Int) = maxLen
        omega
      omega

/-- C29, on the width `truncate` is called with in `renderTableRow`, 28, and
an identity of 50 runes: the first 25 runes and `...`. -/
theorem truncate_within_maxLen_witness :
    (3 : Int) ≤ colWidthIdentity - 2
      ∧ truncate "Alexandra Longname <alexandra.longname@example.com" (colWidthIdentity - 2)
          = some "Alexandra Longname <alexa..."
      ∧ ∃ out, truncate "Alexandra Longname <alexandra.longname@example.com"
          (colWidthIdentity - 2) = some out ∧ visibleLength out ≤ colWidthIdentity - 2 :=
  ⟨by decide, by decide,
    (truncate_within_maxLen "Alexandra Longname <alexandra.longname@example.com"
      (colWidthIdentity - 2) (by decide)).imp (fun _ hout => ⟨hout.1, hout.2.2.2⟩)⟩

theorem Sprintf_ed25519 (base : String) :
    Sprintf "id_ed25519_%s" [base] = "id_ed25519_" ++ base := by
  apply String.ext
  simp [Sprintf, String.data_append, sprintfChars]

theorem Sprintf_ecdsa (base : String) :
    Sprintf "id_ecdsa_%s" [base] = "id_ecdsa_" ++ base := by
  apply String.ext
  simp [Sprintf, String.data_append, sprintfChars]

theorem Sprintf_rsa (base : String) :
    Sprintf "id_rsa_%s" [base] = "id_rsa_" ++ base := by
  apply String.ext
  simp [Sprintf, String.data_append, sprintfChars]

theorem ed25519_ne_ecdsa (a b : String) : "id_ed25519_" ++ a ≠ "id_ecdsa_" ++ b := by
  intro h
  have h := congrArg String.data h
  simp [String.data_append] at h

theorem ed25519_ne_rsa (a b : String) : "id_ed25519_" ++ a ≠ "id_rsa_" ++ b := by
  intro h
  have h := congrArg String.data h
  simp [String.data_append] at h

theorem ecdsa_ne_rsa (a b : String) : "id_ecdsa_" ++ a ≠ "id_rsa_" ++ b := by
  intro h
  have h := congrArg String.data h
  simp [String.data_append] at h

theorem ed25519_append_inj (a b : String) :
    "id_ed25519_" ++ a = "id_ed25519_" ++ b ↔ a = b := by
  constructor
  · intro h
    have h := congrArg String.data h
    simp only [String.data_append, List.append_cancel_left_eq] at h
    exact String.ext h
  · rintro rfl
    rfl

theorem SuggestKeyFilenames_eq (toLower : String → String) (username label base : String)
    (hbase : base = String.mk ((toLower (if username ≠ "" then username
        else if label ≠ "" then label else "github")).data.filter isKeyNameChar)) :
    SuggestKeyFilenames toLower username label
      = if base = "github" then ["id_ed25519_" ++ base, "id_ecdsa_" ++ base, "id_rsa_" ++ base]
        else ["id_ed25519_" ++ base, "id_ecdsa_" ++ base, "id_rsa_" ++ base,
          "id_ed25519_github"] := by
  have hb : String.mk ((toLower (if (if username = "" then label else username) = ""
      then "github" else (if username = "" then label else username))).data.filter
        isKeyNameChar) = base := by
    rw [hbase]
    by_cases hu : username = "" <;> by_cases hl : label = "" <;> simp [hu, hl]
  simp only [SuggestKeyFilenames, hb, Sprintf_ed25519, Sprintf_ecdsa, Sprintf_rsa]
  have h1 := ed25519_ne_ecdsa base base
  have h2 := ed25519_ne_rsa base base
  have h3 := ecdsa_ne_rsa base base
  have h4 : "id_ed25519_github" ≠ "id_ecdsa_" ++ base := ed25519_ne_ecdsa "github" base
  have h5 : "id_ed25519_github" ≠ "id_rsa_" ++ base := ed25519_ne_rsa "github" base
  have h6 : "id_ed25519_github" = "id_ed25519_" ++ base ↔ base = "github" := by
    rw [eq_comm, show ("id_ed25519_github" : String) = "id_ed25519_" ++ "github" from rfl,
      ed25519_append_inj]
  by_cases hg : base = "github"
  · have h7 : "id_ed25519_github" = "id_ed25519_" ++ base := h6.mpr hg
    simp [uniqueLoop, h1.symm, h2.symm, h3.symm, hg, h6, h1, h2, h3, h4, h5, h7]
  · have h7 : "id_ed25519_github" ≠ "id_ed25519_" ++ base := fun h => hg (h6.mp h)
    simp [uniqueLoop, h1.symm, h2.symm, h3.symm, hg, h1, h2, h3, h4, h5, h7]

theorem isLowerKeyNameChar_no_separator (c : Char) (h : isLowerKeyNameChar c) :
    c ≠ '/' ∧ c ≠ '\\' ∧ c ≠ '.' := by
  refine ⟨?_, ?_, ?_⟩ <;> rintro rfl <;> revert h <;> decide

theorem isLowerKeyNameChar_of_filter (c : Char) (h : isKeyNameChar c = true)
    (hup : ¬('A' ≤ c ∧ c ≤ 'Z')) : isLowerKeyNameChar c := by
  simp only [isKeyNameChar, Bool.or_eq_true, Bool.and_eq_true, decide_eq_true_eq] at h
  unfold isLowerKeyNameChar
  tauto

theorem isLowerKeyNameChar_key_name (pre base : String)
    (hpre : ∀ c ∈ pre.data, isLowerKeyNameChar c) (hbase : ∀ c ∈ base.data, isLowerKeyNameChar c) :
    ∀ c ∈ (pre ++ base).data, isLowerKeyNameChar c := by
  intro c hc
  rw [String.data_append, List.mem_append] at hc
  exact hc.elim (hpre c) (hbase c)

/-- C30: for every username and label, with `base` the username if it is not
empty, else the label if it is not empty, else `github`, lower-cased and with
the characters outside `[a-zA-Z0-9_-]` removed, `SuggestKeyFilenames` returns
a list without duplicates, of length 3 (exactly when `base` is `github`) or 4,
whose first element is `id_ed25519_` followed by `base` and which contains
`id_ed25519_github`; when the lower-cased text has no letter A-Z, every
character of every name returned is one of a-z, 0-9, `_`, `-`, so none is `/`,
a backslash or a dot. -/
theorem SuggestKeyFilenames_distinct_clean_names (toLower : String → String)
    (username label raw base : String)
    (hraw : raw = if username ≠ "" then username else if label ≠ "" then label else "github")
    (hbase : base = String.mk ((toLower raw).data.filter isKeyNameChar)) :
    (SuggestKeyFilenames toLower username label).Nodup
      ∧ ((SuggestKeyFilenames toLower username label).length = 3
          ∨ (SuggestKeyFilenames toLower username label).length = 4)
      ∧ ((SuggestKeyFilenames toLower username label).length = 3 ↔ base = "github")
      ∧ (SuggestKeyFilenames toLower username label).head? = some ("id_ed25519_" ++ base)
      ∧ "id_ed25519_github" ∈ SuggestKeyFilenames toLower username label
      ∧ ((∀ c ∈ (toLower raw).data, ¬('A' ≤ c ∧ c ≤ 'Z')) →
          ∀ name ∈ SuggestKeyFilenames toLower username label, ∀ c ∈ name.data,
            isLowerKeyNameChar c ∧ c ≠ '/' ∧ c ≠ '\\' ∧ c ≠ '.') := by
  have heq := SuggestKeyFilenames_eq toLower username label base (by rw [hbase, hraw])
  have h1 := ed25519_ne_ecdsa base base
  have h2 := ed25519_ne_rsa base base
  have h3 := ecdsa_ne_rsa base base
  have h4 : "id_ecdsa_" ++ base ≠ "id_ed25519_github" := (ed25519_ne_ecdsa "github" base).symm
  have h5 : "id_rsa_" ++ base ≠ "id_ed25519_github" := (ed25519_ne_rsa "github" base).symm
  have hclean : (∀ c ∈ (toLower raw).data, ¬('A' ≤ c ∧ c ≤ 'Z')) →
      ∀ name, (name = "id_ed25519_" ++ base ∨ name = "id_ecdsa_" ++ base
          ∨ name = "id_rsa_" ++ base ∨ name = "id_ed25519_github") →
        ∀ c ∈ name.data, isLowerKeyNameChar c ∧ c ≠ '/' ∧ c ≠ '\\' ∧ c ≠ '.' := by
    intro hup name hname c hc
    have hb : ∀ c ∈ base.data, isLowerKeyNameChar c := by
      intro c hc
      rw [hbase] at hc
      obtain ⟨hmem, hkey⟩ := List.mem_filter.mp hc
      exact isLowerKeyNameChar_of_filter c hkey (hup c hmem)
    have hlow : isLowerKeyNameChar c := by
      rcases hname with rfl | rfl | rfl | rfl
      · exact isLowerKeyNameChar_key_name _ _ (by decide) hb c hc
      · exact isLowerKeyNameChar_key_name _ _ (by decide) hb c hc
      · exact isLowerKeyNameChar_key_name _ _ (by decide) hb c hc
      · revert c
        decide
    exact ⟨hlow, isLowerKeyNameChar_no_separator c hlow⟩
  rw [heq]
  by_cases hg : base = "github"
  · rw [if_pos hg]
    refine ⟨?_, Or.inl rfl, ⟨fun _ => hg, fun _ => rfl⟩, rfl, ?_, ?_⟩
    · simp [h1, h2, h3]
    · rw [hg]
      decide
    · intro hup name hname
      refine hclean hup name ?_
      simp only [List.mem_cons, List.mem_singleton, List.not_mem_nil, or_false] at hname
      tauto
  · rw [if_neg hg]
    have h7 : "id_ed25519_" ++ base ≠ "id_ed25519_github" := fun h =>
      hg ((ed25519_append_inj base "github").mp h)
    refine ⟨?_, Or.inr rfl, ⟨fun h => by simp at h, fun h => absurd h hg⟩, rfl, ?_, ?_⟩
    · simp [h1, h2, h3, h4, h5, h7]
    · simp
    · intro hup name hname
      refine hclean hup name ?_
      simp only [List.mem_cons, List.mem_singleton, List.not_mem_nil, or_false] at hname
      tauto

/-- C30, on the label `My Work!` with no username: the base is `mywork` and
four names are suggested; on the username `GitHub`, three. -/
theorem SuggestKeyFilenames_distinct_clean_names_witness :
    SuggestKeyFilenames (ToLower Char.toLower) "" "My Work!"
        = ["id_ed25519_mywork", "id_ecdsa_mywork", "id_rsa_mywork", "id_ed25519_github"]
      ∧ (SuggestKeyFilenames (ToLower Char.toLower) "" "My Work!").Nodup
      ∧ SuggestKeyFilenames (ToLower Char.toLower) "GitHub" "work"
        = ["id_ed25519_github", "id_ecdsa_github", "id_rsa_github"]
      ∧ ((SuggestKeyFilenames (ToLower Char.toLower) "GitHub" "work").length = 3 ↔ "github" = "github") :=
  ⟨by decide,
    (SuggestKeyFilenames_distinct_clean_names (ToLower Char.toLower) "" "My Work!" "My Work!" "mywork"
      (by decide) (by decide)).1,
    by decide,
    (SuggestKeyFilenames_distinct_clean_names (ToLower Char.toLower) "GitHub" "work" "GitHub" "github"
      (by decide) (by decide)).2.2.1⟩

/-- C22. `NormalizeURL(u)` succeeds exactly when `u`, with the white space at
both ends removed, starts with `git@`, `ssh://`, `http://` or `https://`, which
is when `isGitURL` accepts it. On success the result ends with `.git`, which
is appended only when it is missing; `isSSH` is true exactly for the prefixes
`git@` and `ssh://`; and normalizing the result again returns the same URL and
the same `isSSH`. -/
theorem NormalizeURL_prefix_suffix_idempotent (u : String) :
    ((∃ r, NormalizeURL u = Except.ok r)
        ↔ (HasPrefix (TrimSpace u) "git@" = true ∨ HasPrefix (TrimSpace u) "ssh://" = true
            ∨ HasPrefix (TrimSpace u) "http://" = true
            ∨ HasPrefix (TrimSpace u) "https://" = true))
      ∧ ((∃ r, NormalizeURL u = Except.ok r) ↔ isGitURL (TrimSpace u) = true)
      ∧ ∀ (n : String) (isSSH : Bool), NormalizeURL u = Except.ok (n, isSSH) →
          HasSuffix n ".git" = true
            ∧ (HasSuffix (TrimSuffix (TrimSpace u) "#") ".git" = true →
                n = TrimSuffix (TrimSpace u) "#")
            ∧ (HasSuffix (TrimSuffix (TrimSpace u) "#") ".git" = false →
                n = TrimSuffix (TrimSpace u) "#" ++ ".git")
            ∧ (isSSH = true ↔ (HasPrefix (TrimSpace u) "git@" = true
                ∨ HasPrefix (TrimSpace u) "ssh://" = true))
            ∧ NormalizeURL n = Except.ok (n, isSSH) := by
  obtain ⟨h₁, h₂⟩ := NormalizeURL_success_shape u
  refine ⟨h₁, ?_, h₂⟩
  rw [h₁]
  simp only [isGitURL, Bool.or_eq_true]
  tauto

/-- C22, on an SSH address with spaces around it and no `.git`: the suffix is
appended, and the result normalizes to itself. -/
theorem NormalizeURL_prefix_suffix_idempotent_witness :
    NormalizeURL "  git@github.com:user/repo  "
        = Except.ok ("git@github.com:user/repo.git", true)
      ∧ NormalizeURL "git@github.com:user/repo.git"
        = Except.ok ("git@github.com:user/repo.git", true) :=
  ⟨rfl, ((NormalizeURL_prefix_suffix_idempotent "  git@github.com:user/repo  ").2.2
    "git@github.com:user/repo.git" true rfl).2.2.2.2⟩

/-- C23, on `user/repo` at `gitlab.com` over SSH. -/
theorem ParseURL_BuildRemoteURL_witness :
    BuildRemoteURL Char.toLower "gitlab" "gitlab.com" ("user" ++ "/" ++ "repo") true
        = "git@gitlab.com:user/repo.git"
      ∧ ∃ info : URLInfo,
          ParseURL Char.toLower (BuildRemoteURL Char.toLower "gitlab" "gitlab.com" ("user" ++ "/" ++ "repo") true)
              = Except.ok info
            ∧ info.Owner = "user" ∧ info.Repo = "repo" ∧ info.Host = "gitlab.com"
            ∧ info.IsSSH = true :=
  ⟨by decide,
    (ParseURL_BuildRemoteURL Char.toLower "gitlab" "gitlab.com" "user" "repo" true (by decide) (by decide)
      (by decide) (by decide) (by decide) (by decide) (by decide) (by decide)).2⟩

end Ghex
